import Mathlib

set_option maxHeartbeats 1000000

/-!
Verification development for the DTCG (Design Tokens Community Group) schema
validator of the brand-json-validator repository.  The JavaScript source
(`DTCGValidator` class) is shallowly embedded below: JSON values become the
mutual inductive `Json`, JavaScript numbers become unnormalized fractions
`JNum` (exact rational arithmetic; the binary-float rounding of JS doubles is
not modelled, which is irrelevant for the structural properties proved here),
and the class methods become pure Lean functions.  Methods that can throw a
`TypeError` in JavaScript (property access on `null`) return `Except Unit`.
The instance state (`this.errors`, `this.warnings`, `this.structureIssues`)
is modelled by explicit accumulator passing and explicit parameters.
-/

namespace DTCG

/-- A JavaScript number, modelled as an unnormalized fraction
`n / d` with `d > 0` for every value the embedded code constructs.
Fractions are kept unnormalized so that all arithmetic is plain integer
arithmetic, which the kernel evaluates. -/
structure JNum where
  n : Int
  d : Nat
deriving DecidableEq, Repr

/-- The integer `i` as a `JNum`. -/
def JNum.ofInt (i : Int) : JNum := ⟨i, 1⟩

/-- Division of a `JNum` by a positive natural number (used for `/ 255` and
`/ 1000` in the color converter). -/
def JNum.divN (q : JNum) (m : Nat) : JNum := ⟨q.n, q.d * m⟩

/-- Multiplication of a `JNum` by a natural number (used for `* 1000`). -/
def JNum.mulN (q : JNum) (m : Nat) : JNum := ⟨q.n * m, q.d⟩

/-- `Math.round`: round half toward positive infinity,
`Math.round(x) = ⌊x + 1/2⌋`. -/
def JNum.jsRound (q : JNum) : Int := Int.fdiv (2 * q.n + q.d) (2 * q.d)

/-- Comparison `a <= b` by cross multiplication (valid for the positive
denominators the embedded code produces). -/
def JNum.jle (a b : JNum) : Bool := a.n * b.d ≤ b.n * a.d

/-- Comparison `a < b` by cross multiplication. -/
def JNum.jlt (a b : JNum) : Bool := a.n * b.d < b.n * a.d

/- A JavaScript value as seen by the validator: the JSON shapes plus `NaN`
(which arises from `parseInt`/`parseFloat` on unparsable text inside
`autoFix`).  Arrays and objects carry their own list types so that all
recursion over the tree is structural and kernel-evaluable.  Object fields
are kept in insertion order, as JavaScript does. -/
mutual
inductive Json where
  | null : Json
  | bool : Bool → Json
  | num : JNum → Json
  | nan : Json
  | str : String → Json
  | arr : JArr → Json
  | obj : JObj → Json
deriving DecidableEq

inductive JArr where
  | nil : JArr
  | cons : Json → JArr → JArr
deriving DecidableEq

inductive JObj where
  | nil : JObj
  | cons : String → Json → JObj → JObj
deriving DecidableEq
end

/-- Build a `JObj` from a list of key/value pairs (for writing documents). -/
def JObj.ofList : List (String × Json) → JObj
  | [] => .nil
  | (k, v) :: rest => .cons k v (JObj.ofList rest)

/-- Build a `JArr` from a list (for writing documents). -/
def JArr.ofList : List Json → JArr
  | [] => .nil
  | v :: rest => .cons v (JArr.ofList rest)

/-- Object constructor from a pair list. -/
def jobj (l : List (String × Json)) : Json := .obj (JObj.ofList l)

/-- Array constructor from a list. -/
def jarr (l : List Json) : Json := .arr (JArr.ofList l)

/-- The fields of an object as a Lean list (for theorem statements). -/
def JObj.toList : JObj → List (String × Json)
  | .nil => []
  | .cons k v rest => (k, v) :: rest.toList

/-- The elements of an array as a Lean list. -/
def JArr.toList : JArr → List Json
  | .nil => []
  | .cons v rest => v :: rest.toList

/-- First value stored under key `k`, like JavaScript property access on a
plain object (JavaScript objects cannot repeat keys, so first = only). -/
def JObj.get? (k : String) : JObj → Option Json
  | .nil => none
  | .cons k1 v rest => if k1 = k then some v else rest.get? k

/-- `k in o` for an object. -/
def JObj.hasKey (k : String) (o : JObj) : Bool := (o.get? k).isSome

/-- `Object.keys` for an object. -/
def JObj.keys : JObj → List String
  | .nil => []
  | .cons k _ rest => k :: rest.keys

/-- Concatenation of field lists. -/
def JObj.append : JObj → JObj → JObj
  | .nil, o => o
  | .cons k v rest, o => .cons k v (rest.append o)

/-- JavaScript assignment `o[k] = v`: overwrite in place if the key exists,
otherwise append at the end (insertion order). -/
def JObj.assign (o : JObj) (k : String) (v : Json) : JObj :=
  match o with
  | .nil => .cons k v .nil
  | .cons k1 v1 rest =>
      if k1 = k then .cons k1 v rest else .cons k1 v1 (rest.assign k v)

/-- JavaScript `delete o[k]` (keys are unique in JavaScript objects, so
removing the first occurrence is exact). -/
def JObj.delete (o : JObj) (k : String) : JObj :=
  match o with
  | .nil => .nil
  | .cons k1 v1 rest => if k1 = k then rest else .cons k1 v1 (rest.delete k)

/-- Number of fields. -/
def JObj.length : JObj → Nat
  | .nil => 0
  | .cons _ _ rest => 1 + rest.length

/-- Number of elements. -/
def JArr.length : JArr → Nat
  | .nil => 0
  | .cons _ rest => 1 + rest.length

/-- JavaScript truthiness.  `NaN` is falsy. -/
def Json.truthy : Json → Bool
  | .null => false
  | .bool b => b
  | .num q => !(q.n = 0)
  | .nan => false
  | .str s => !(s = "")
  | .arr _ => true
  | .obj _ => true

/-- Truthiness of a property-access result (`undefined` is falsy). -/
def truthyO : Option Json → Bool
  | none => false
  | some v => v.truthy

/-- `typeof v === 'object'` (true for `null`, arrays and objects). -/
def Json.isObjTypeof : Json → Bool
  | .null => true
  | .arr _ => true
  | .obj _ => true
  | _ => false

/-- `typeof v === 'number'` (true for `NaN` as well). -/
def Json.isNumTypeof : Json → Bool
  | .num _ => true
  | .nan => true
  | _ => false

/-- `typeof v === 'string'`. -/
def Json.isStrTypeof : Json → Bool
  | .str _ => true
  | _ => false

/-- `Array.isArray`. -/
def Json.isArray : Json → Bool
  | .arr _ => true
  | _ => false

/-- Is this value a non-null object (and not an array)? -/
def Json.isObj : Json → Bool
  | .obj _ => true
  | _ => false

/-- Property access `v[k]` for the named (non-index) keys the validator
reads.  On objects it is field lookup; on every other value the named keys
used by the source (`$value`, `value`, `$type`, ...) are absent, so the
access yields `undefined` (`none`).  The source never performs a named read
on `null` (which would throw); the throwing sites are modelled separately. -/
def Json.get? (k : String) : Json → Option Json
  | .obj o => o.get? k
  | _ => none

/-- `k in v` for objects. -/
def Json.hasKey (k : String) : Json → Bool
  | .obj o => o.hasKey k
  | _ => false

/- Sizes, used only to supply fuel to `autoFix` (whose recursion descends
through a looked-up child and is therefore not structural). -/
mutual
def Json.size : Json → Nat
  | .null => 1
  | .bool _ => 1
  | .num _ => 1
  | .nan => 1
  | .str _ => 1
  | .arr l => 1 + l.size
  | .obj o => 1 + o.size

def JArr.size : JArr → Nat
  | .nil => 0
  | .cons v rest => 1 + v.size + rest.size

def JObj.size : JObj → Nat
  | .nil => 0
  | .cons _ v rest => 1 + v.size + rest.size
end

/-! ### String utilities and the regular expressions of the source -/

/-- Decimal digit test (`\d`). -/
def isDigitC (c : Char) : Bool := ('0' ≤ c) && (c ≤ '9')

/-- Hexadecimal digit test (`[0-9a-fA-F]`). -/
def isHexC (c : Char) : Bool :=
  (('0' ≤ c) && (c ≤ '9')) || (('a' ≤ c) && (c ≤ 'f')) || (('A' ≤ c) && (c ≤ 'F'))

/-- Value of a hexadecimal digit. -/
def hexVal (c : Char) : Nat :=
  if ('0' ≤ c) && (c ≤ '9') then c.toNat - '0'.toNat
  else if ('a' ≤ c) && (c ≤ 'f') then c.toNat - 'a'.toNat + 10
  else c.toNat - 'A'.toNat + 10

/-- Character class `[\d.]` used by several of the source regexes. -/
def isDigitDotC (c : Char) : Bool := isDigitC c || (c = '.')

/-- Decimal value of a digit string. -/
def digitsToNat (cs : List Char) : Nat :=
  cs.foldl (fun acc c => acc * 10 + (c.toNat - '0'.toNat)) 0

/-- Split a character list at the longest prefix satisfying `p`. -/
def chompWhile (p : Char → Bool) : List Char → (List Char × List Char)
  | [] => ([], [])
  | c :: cs =>
      if p c then
        let r := chompWhile p cs
        (c :: r.1, r.2)
      else ([], c :: cs)

/-- Decimal digits of a natural number (auxiliary, fueled so it reduces). -/
def natDigitsAux : Nat → Nat → List Char
  | 0, _ => []
  | f + 1, n =>
      if n < 10 then [Char.ofNat (n + '0'.toNat)]
      else natDigitsAux f (n / 10) ++ [Char.ofNat (n % 10 + '0'.toNat)]

/-- JavaScript string conversion of a natural number. -/
def natToStr (n : Nat) : String := String.mk (natDigitsAux (n + 1) n)

/-- JavaScript string conversion of an integer. -/
def intToStr (i : Int) : String :=
  match i with
  | .ofNat n => natToStr n
  | .negSucc n => "-" ++ natToStr (n + 1)

/-- `String.startsWith`, computed on the character lists. -/
def strStarts (s pre : String) : Bool := pre.toList.isPrefixOf s.toList

/-- `String.split('.')` on the character lists. -/
def splitDotAux (acc : List Char) : List Char → List String
  | [] => [String.mk acc.reverse]
  | c :: cs =>
      if c = '.' then String.mk acc.reverse :: splitDotAux [] cs
      else splitDotAux (c :: acc) cs

/-- JavaScript `"a.b.c".split('.')`. -/
def splitDot (s : String) : List String := splitDotAux [] s.toList

/-- Last element of a list with a default (`.pop()` on a split result). -/
def lastD (l : List String) (d : String) : String :=
  match l with
  | [] => d
  | [x] => x
  | _ :: xs => lastD xs d

/-- `String.replace('#', '')`: JavaScript `replace` with a string pattern
replaces only the first occurrence. -/
def removeFirstHash (s : String) : String :=
  let rec go : List Char → List Char
    | [] => []
    | c :: cs => if c = '#' then cs else c :: go cs
  String.mk (go s.toList)

/-- The buggy hex-color regex of `validateColorValue`:
`^#[0-9a-fA-F]{3}([0-9a-fA-F]{3})?([0-9a-fA-F]{3})?$`.
It accepts `#` followed by exactly 3, 6 or 9 hex digits — not the 3, 6 or 8
announced by the accompanying hint string. -/
def hexColorRegexJS (s : String) : Bool :=
  match s.toList with
  | '#' :: rest =>
      rest.all isHexC && (rest.length = 3 || rest.length = 6 || rest.length = 9)
  | _ => false

/-- What remains after the numeric part `\d+(\.\d+)?` of the anchored
regexes, consumed deterministically (regex backtracking can never succeed
differently, since no suffix in the source starts with a digit or a dot);
`none` when there is no leading digit. -/
def numTail (cs : List Char) : Option (List Char) :=
  let cw := chompWhile isDigitC cs
  if cw.1 = [] then none
  else some (match cw.2 with
    | '.' :: r3 =>
        let cw2 := chompWhile isDigitC r3
        if cw2.1 = [] then cw.2 else cw2.2
    | _ => cw.2)

/-- Matcher for the anchored regexes of shape `^\d+(\.\d+)?<suffix>$` (and,
with `neg := true`, `^[-]?\d+(\.\d+)?<suffix>$`): strip the optional sign,
consume the numeric part, and test whether the remainder is one of the
allowed suffixes. -/
def numSuffixPat (neg : Bool) (suffixes : List String) (s : String) : Bool :=
  let cs1 : Option (List Char) := match s.toList with
    | [] => some []
    | c :: rest => if c = '-' then (if neg then some rest else none) else some (c :: rest)
  match cs1 with
  | none => false
  | some cs2 =>
      match numTail cs2 with
      | none => false
      | some r2 => suffixes.any (fun suf => String.mk r2 = suf)

/-- The dimension units of the source regexes. -/
def dimUnitList : List String :=
  ["px", "rem", "em", "%", "vh", "vw", "vmin", "vmax", "pt", "cm", "mm", "in", "pc", "ch"]

/-- `^\d+(\.\d+)?(px|rem|em|%|vh|vw|vmin|vmax|pt|cm|mm|in|pc|ch)$`
(dimension validation and dimension inference). -/
def dimRegexJS (s : String) : Bool := numSuffixPat false dimUnitList s

/-- `^[-]?\d+(\.\d+)?(ms|s)$` (duration inference). -/
def durRegexJS (s : String) : Bool := numSuffixPat true ["ms", "s"] s

/-- `^\d+(\.\d+)?$` (bare numeric string in type inference). -/
def numericRegexJS (s : String) : Bool := numSuffixPat false [""] s

/-- Matcher for `^-?[\d.]+<suffix>$`-shaped regexes (duration and
border-radius validation, and the `^-?[\d.]+$` test in `autoFix`): a greedy
`[\d.]+` run followed exactly by one of the suffixes; shrinking the greedy
run can never help because no suffix character lies in `[\d.]`. -/
def looseNumSuffixPat (suffixes : List String) (s : String) : Bool :=
  let cs := match s.toList with
    | '-' :: rest => rest
    | other => other
  let (d1, r1) := chompWhile isDigitDotC cs
  if d1 = [] then false
  else suffixes.any (fun suf => String.mk r1 = suf)

/-- `^-?[\d.]+(ms|s)$` (duration validation). -/
def durValueRegexJS (s : String) : Bool := looseNumSuffixPat ["ms", "s"] s

/-- `^[\d.]+(px|rem|em|%)$` (border-radius validation; no leading minus). -/
def brRegexJS (s : String) : Bool :=
  match s.toList with
  | '-' :: _ => false
  | _ => looseNumSuffixPat ["px", "rem", "em", "%"] s

/-- `^-?[\d.]+$` (numeric-string test in `autoFix`). -/
def looseNumericRegexJS (s : String) : Bool := looseNumSuffixPat [""] s

/-- `/^rgb/` prefix test. -/
def rgbRegexJS (s : String) : Bool := strStarts s "rgb"

/-- JavaScript `parseFloat` restricted to the sign/digits/dot strings the
source feeds it (every call site is guarded by one of the regexes above, so
whitespace skipping and exponents never arise): parse an optional sign, then
a decimal prefix; `none` models `NaN` (no digit found). -/
def parseFloatJS (s : String) : Option JNum :=
  let (sgn, cs) : (Int × List Char) := match s.toList with
    | '-' :: rest => (-1, rest)
    | '+' :: rest => (1, rest)
    | other => (1, other)
  let (d1, r1) := chompWhile isDigitC cs
  let (d2, _) := match r1 with
    | '.' :: r2 => chompWhile isDigitC r2
    | _ => ([], [])
  if d1 = [] && d2 = [] then none
  else some ⟨sgn * digitsToNat (d1 ++ d2), 10 ^ d2.length⟩

/-- JavaScript `parseInt(s, 16)` on the short strings the color converter
feeds it: optional sign, then the longest hexadecimal prefix; `none` models
`NaN`. -/
def parseIntHexJS (s : String) : Option Int :=
  let (sgn, cs) : (Int × List Char) := match s.toList with
    | '-' :: rest => (-1, rest)
    | '+' :: rest => (1, rest)
    | other => (1, other)
  let (d1, _) := chompWhile isHexC cs
  if d1 = [] then none
  else some (sgn * (d1.foldl (fun acc c => acc * 16 + hexVal c) 0 : Nat))

/-- First dimension unit that is a prefix of the remaining characters, in
the alternation order of the source regex. -/
def unitPref (cs : List Char) : Option String :=
  dimUnitList.find? (fun u => u.toList.isPrefixOf cs)

/-- Scanner for the unanchored regex `([\d.]+)(px|rem|em|%|vh|vw|vmin|vmax|pt|cm|mm|in|pc|ch)`
of `parseDimension`: leftmost maximal `[\d.]+` run immediately followed by a
unit (shrinking the greedy run cannot succeed, as no unit starts with a
digit or a dot).  Returns the numeric run and the matched unit. -/
def scanDim (acc : List Char) : List Char → Option (List Char × String)
  | [] => none
  | c :: cs =>
      if isDigitDotC c then scanDim (acc ++ [c]) cs
      else if acc ≠ [] then
        match unitPref (c :: cs) with
        | some u => some (acc, u)
        | none => scanDim [] cs
      else scanDim [] cs

/-! ### Constants of the source -/

/-- Reserved top-level keys (`DTCG_GROUPS`). -/
def DTCG_GROUPS : List String := ["$schema", "$id", "$description", "$extensions", "$type"]

/-- `DTCG_SCHEMA_URL`. -/
def DTCG_SCHEMA_URL : String := "https://www.designtokens.org/tr/2025.10/format/"

/-- The fixed token-type vocabulary (`VALID_TOKEN_TYPES`). -/
def VALID_TOKEN_TYPES : List String :=
  ["color", "dimension", "number", "opacity", "fontFamily", "fontSize",
   "fontWeight", "lineHeight", "letterSpacing", "paragraphSpacing",
   "textCase", "textDecoration", "duration", "cubicBezier", "transition",
   "shadow", "gradient", "border", "borderRadius", "strokeStyle",
   "typography", "asset"]

/-! ### Type inference and value converters -/

/-- `inferTokenType(value)`: returns the inferred type as a string, or
`null` when no heuristic matches.  (`NaN` has `typeof 'number'` and
`NaN <= 1` is false, so it infers as `"number"`.) -/
def inferTokenType (value : Json) : Json :=
  match value with
  | .str s =>
      if strStarts s "#" || rgbRegexJS s then .str "color"
      else if dimRegexJS s then .str "dimension"
      else if durRegexJS s then .str "duration"
      else if numericRegexJS s then
        match parseFloatJS s with
        | some q => if q.jle (JNum.ofInt 1) then .str "opacity" else .str "number"
        | none => .str "number"
      else .null
  | .num q => if q.jle (JNum.ofInt 1) then .str "opacity" else .str "number"
  | .nan => .str "number"
  | _ => .null

/-- One color channel: `Math.round(parseInt(hexPair, 16) / 255 * 1000) / 1000`,
`NaN` when the hex pair does not parse. -/
def hexChannel (pair : String) : Json :=
  match parseIntHexJS pair with
  | none => .nan
  | some i => .num ⟨(JNum.divN (JNum.ofInt i) 255).mulN 1000 |>.jsRound, 1000⟩

/-- The color object `{colorSpace: 'srgb', channels: {r, g, b, a: 1}}`. -/
def mkColorObj (r g b : Json) : Json :=
  jobj [("colorSpace", .str "srgb"),
        ("channels", jobj [("r", r), ("g", g), ("b", b), ("a", .num (JNum.ofInt 1))])]

/-- `convertToColorObject(hex)`: strip the first `#`, then dispatch on the
remaining length (3 = `#RGB` with doubled digits, 4 = `#RGBA` using the
first three digits, 6 = `#RRGGBB`, 8 = `#RRGGBBAA`, anything else is
returned unchanged).  Non-string inputs are returned unchanged by the
source's first guard; the embedding only ever calls it on strings. -/
def convertToColorObject (hex : String) : Json :=
  match (removeFirstHash hex).toList with
  | [a, b, c] =>
      mkColorObj (hexChannel (String.mk [a, a])) (hexChannel (String.mk [b, b]))
        (hexChannel (String.mk [c, c]))
  | [a, b, c, _] =>
      mkColorObj (hexChannel (String.mk [a, a])) (hexChannel (String.mk [b, b]))
        (hexChannel (String.mk [c, c]))
  | [a, b, c, d, e, f] =>
      mkColorObj (hexChannel (String.mk [a, b])) (hexChannel (String.mk [c, d]))
        (hexChannel (String.mk [e, f]))
  | [a, b, c, d, e, f, _, _] =>
      mkColorObj (hexChannel (String.mk [a, b])) (hexChannel (String.mk [c, d]))
        (hexChannel (String.mk [e, f]))
  | _ => .str hex

/-- `parseDimension(dimStr)`: on a match of the unanchored dimension regex,
`{value: parseFloat(match[1]), unit: match[2]}`; otherwise the input string
unchanged. -/
def parseDimension (dimStr : String) : Json :=
  match scanDim [] dimStr.toList with
  | some (run, u) =>
      let v : Json := match parseFloatJS (String.mk run) with
        | some q => .num q
        | none => .nan
      jobj [("value", v), ("unit", .str u)]
  | none => .str dimStr

/-! ### Diagnostics and result records -/

/-- Diagnostic severity. -/
inductive Sev where
  | error : Sev
  | warning : Sev
deriving DecidableEq

/-- A diagnostic as pushed onto `this.errors` / `this.warnings`.  Optional
fields model properties that only some push sites set. -/
structure Diag where
  path : String
  message : String
  severity : Sev
  hint : Option String := none
  suggestedFix : Option Json := none
  actualStructure : Option Json := none
  correctExample : Option Json := none
  suggestion : Option String := none
deriving DecidableEq

/-- A structure issue as pushed onto `this.structureIssues`. -/
structure StructureIssue where
  path : String
  issue : String
  message : String
  description : String
  suggestion : String
  originalStructure : Json
  flattenedStructure : Json
  nestedTokens : List String
  fixType : String
  autoFixable : Bool
deriving DecidableEq

/-- A fix produced by `getFixableIssues`. -/
structure Fix where
  id : String
  type : String
  path : String
  description : String
  before : Json
  after : Json
  approved : Bool
deriving DecidableEq

/-- The record returned by `validate`.  The early return for non-object
input omits the `structureIssues` property, which is modelled by an
`Option`. -/
structure ValidationResult where
  valid : Bool
  errors : List Diag
  warnings : List Diag
  structureIssues : Option (List StructureIssue)
deriving DecidableEq

/-- Error/warning accumulator pair, in push order. -/
abbrev Diags := List Diag × List Diag

/-! ### `generateCorrectStructure` -/

/-- The token object `{value: v, ...(inferredType && {$type: inferredType})}`. -/
def tokenPartFor (v : Json) : Json :=
  let it := inferTokenType v
  if it.truthy then jobj [("value", v), ("$type", it)] else jobj [("value", v)]

/-- `Object.assign(acc, src)`, folding JavaScript assignment over the
fields of `src` in order. -/
def JObj.assignAll : JObj → JObj → JObj
  | acc, .nil => acc
  | acc, .cons k v rest => (acc.assign k v).assignAll rest

/- `generateCorrectStructure(tokenName, nestedObj)`: walks the entries of
`nestedObj`, turning primitive (string/number) children into token objects
under the hyphen-joined key (`DEFAULT` collapses onto the parent name) and
merging the recursive result for object children. -/
mutual
def gcsFields (tokenName : String) (acc : JObj) : JObj → JObj
  | .nil => acc
  | .cons k v rest =>
      if strStarts k "$" then gcsFields tokenName acc rest
      else
        let flatKey := if k = "DEFAULT" then tokenName else tokenName ++ "-" ++ k
        match v with
        | .str _ => gcsFields tokenName (acc.assign flatKey (tokenPartFor v)) rest
        | .num _ => gcsFields tokenName (acc.assign flatKey (tokenPartFor v)) rest
        | .nan => gcsFields tokenName (acc.assign flatKey (tokenPartFor v)) rest
        | .obj o => gcsFields tokenName (acc.assignAll (gcsFields flatKey .nil o)) rest
        | .arr a => gcsFields tokenName (acc.assignAll (gcsArr flatKey 0 .nil a)) rest
        | _ => gcsFields tokenName acc rest

def gcsArr (tokenName : String) (idx : Nat) (acc : JObj) : JArr → JObj
  | .nil => acc
  | .cons v rest =>
      let k := natToStr idx
      let flatKey := tokenName ++ "-" ++ k
      match v with
      | .str _ => gcsArr tokenName (idx + 1) (acc.assign flatKey (tokenPartFor v)) rest
      | .num _ => gcsArr tokenName (idx + 1) (acc.assign flatKey (tokenPartFor v)) rest
      | .nan => gcsArr tokenName (idx + 1) (acc.assign flatKey (tokenPartFor v)) rest
      | .obj o => gcsArr tokenName (idx + 1) (acc.assignAll (gcsFields flatKey .nil o)) rest
      | .arr a => gcsArr tokenName (idx + 1) (acc.assignAll (gcsArr flatKey 0 .nil a)) rest
      | _ => gcsArr tokenName (idx + 1) acc rest
end

/-- `generateCorrectStructure` entry point (the source only calls it on
objects; entries of other values are empty for this purpose). -/
def generateCorrectStructure (tokenName : String) (nestedObj : Json) : Json :=
  match nestedObj with
  | .obj o => .obj (gcsFields tokenName .nil o)
  | .arr a => .obj (gcsArr tokenName 0 .nil a)
  | _ => .obj .nil

/-! ### `generateFlattenedExample` -/

/-- The flattened token stored by `flattenRecursive`: a copy of the token
object, with an inferred `$type` assigned when `$type` is falsy and a
`value` key is present. -/
def flattenedToken (o : JObj) : JObj :=
  if !truthyO (o.get? "$type") && o.hasKey "value" then
    let it := inferTokenType ((o.get? "value").getD .null)
    if it.truthy then o.assign "$type" it else o
  else o

/- `flattenRecursive` of `generateFlattenedExample`: accumulates flattened
tokens into `acc`, hyphen-joining the running prefix with each key.  Keys
starting with `$` are kept only at the top level (`prefix === ''`), object
children carrying `value` or `$type` are flattened as tokens, and other
object (or array) children are recursed into. -/
mutual
def gfeFields (acc : JObj) (pre : String) : JObj → JObj
  | .nil => acc
  | .cons k (.obj o) rest =>
      if strStarts k "$" then
        gfeFields (if pre = "" then acc.assign k (.obj o) else acc) pre rest
      else if o.hasKey "value" || o.hasKey "$type" then
        gfeFields (acc.assign (if pre = "" then k else pre ++ "-" ++ k)
          (.obj (flattenedToken o))) pre rest
      else
        gfeFields (gfeFields acc (if pre = "" then k else pre ++ "-" ++ k) o) pre rest
  | .cons k (.arr a) rest =>
      if strStarts k "$" then
        gfeFields (if pre = "" then acc.assign k (.arr a) else acc) pre rest
      else
        gfeFields (gfeArr acc (if pre = "" then k else pre ++ "-" ++ k) 0 a) pre rest
  | .cons k .null rest =>
      if strStarts k "$" then
        gfeFields (if pre = "" then acc.assign k .null else acc) pre rest
      else gfeFields acc pre rest
  | .cons k (.bool b) rest =>
      if strStarts k "$" then
        gfeFields (if pre = "" then acc.assign k (.bool b) else acc) pre rest
      else gfeFields acc pre rest
  | .cons k (.num q) rest =>
      if strStarts k "$" then
        gfeFields (if pre = "" then acc.assign k (.num q) else acc) pre rest
      else gfeFields acc pre rest
  | .cons k .nan rest =>
      if strStarts k "$" then
        gfeFields (if pre = "" then acc.assign k .nan else acc) pre rest
      else gfeFields acc pre rest
  | .cons k (.str s) rest =>
      if strStarts k "$" then
        gfeFields (if pre = "" then acc.assign k (.str s) else acc) pre rest
      else gfeFields acc pre rest

def gfeArr (acc : JObj) (pre : String) (idx : Nat) : JArr → JObj
  | .nil => acc
  | .cons (.obj o) rest =>
      if o.hasKey "value" || o.hasKey "$type" then
        gfeArr (acc.assign (if pre = "" then natToStr idx else pre ++ "-" ++ natToStr idx)
          (.obj (flattenedToken o))) pre (idx + 1) rest
      else
        gfeArr (gfeFields acc
          (if pre = "" then natToStr idx else pre ++ "-" ++ natToStr idx) o) pre (idx + 1) rest
  | .cons (.arr a) rest =>
      gfeArr (gfeArr acc
        (if pre = "" then natToStr idx else pre ++ "-" ++ natToStr idx) 0 a) pre (idx + 1) rest
  | .cons .null rest => gfeArr acc pre (idx + 1) rest
  | .cons (.bool b) rest => gfeArr acc pre (idx + 1) rest
  | .cons (.num q) rest => gfeArr acc pre (idx + 1) rest
  | .cons .nan rest => gfeArr acc pre (idx + 1) rest
  | .cons (.str s) rest => gfeArr acc pre (idx + 1) rest
end

/-- `generateFlattenedExample(groupName, tokenPath, nestedObj)` (the
`groupName` parameter is unused by the source body). -/
def generateFlattenedExample (_groupName tokenPath : String) (nestedObj : Json) : Json :=
  let baseName := lastD (splitDot tokenPath) ""
  match nestedObj with
  | .obj o => .obj (gfeFields .nil baseName o)
  | .arr a => .obj (gfeArr .nil baseName 0 a)
  | _ => .obj .nil

/-- A child value that `flattenRecursive` either flattens as a token (an
object carrying `value` or `$type`) or skips entirely (a primitive):
arrays and plain sub-group objects are excluded. -/
def gfeFlatV : Json → Bool
  | .obj c => c.hasKey "value" || c.hasKey "$type"
  | .arr _ => false
  | _ => true

/-- Every non-`$` entry of the node is a token-like object or a primitive
(no recursion into sub-groups or arrays happens while flattening it). -/
def gfeFlat : JObj → Bool
  | .nil => true
  | .cons k v rest => (strStarts k "$" || gfeFlatV v) && gfeFlat rest

/-! ### Structure analysis (`analyzeTokenGroup`, `analyzeStructure`) -/

/-- The `hasNestedTokens` check over the non-`$` children of a candidate
node: `typeof child === 'object' && ('value' in child || '$type' in child)`,
short-circuiting like `Array.some`.  A `null` child reaches `'value' in
null`, which throws a `TypeError` in JavaScript (`Except.error`).  Arrays
have `typeof 'object'` but no `value`/`$type` key. -/
def hasNT (tok : JObj) : List String → Except Unit Bool
  | [] => .ok false
  | k :: ks =>
      match tok.get? k with
      | some .null => .error ()
      | some (.obj o) =>
          if o.hasKey "value" || o.hasKey "$type" then .ok true else hasNT tok ks
      | _ => hasNT tok ks

/-- `Object.keys` of an array: the index keys as strings. -/
def arrIndexKeys (idx : Nat) : JArr → List String
  | .nil => []
  | .cons _ rest => natToStr idx :: arrIndexKeys (idx + 1) rest

/-- `hasNestedTokens` over the (index-keyed) children of an array node. -/
def hasNTArr : JArr → Except Unit Bool
  | .nil => .ok false
  | .cons child rest =>
      match child with
      | .null => .error ()
      | .obj o => if o.hasKey "value" || o.hasKey "$type" then .ok true else hasNTArr rest
      | _ => hasNTArr rest

/-- The `NESTED_TOKENS` issue pushed by `analyzeTokenGroup`. -/
def mkNestedIssue (groupName tokenName currentPath : String) (token : Json)
    (nestedKeys : List String) : StructureIssue :=
  { path := "$." ++ groupName ++ "." ++ currentPath
    issue := "NESTED_TOKENS"
    message := "Nested token structure: \"" ++ currentPath ++ "\""
    description := "This contains " ++ natToStr nestedKeys.length ++
      " sub-token(s). DTCG recommends flat structure with naming conventions."
    suggestion := "Flatten to use hyphenated names like \"" ++ tokenName ++ "-" ++
      nestedKeys.headD "undefined" ++ "\""
    originalStructure := .obj (.cons tokenName token .nil)
    flattenedStructure := generateFlattenedExample groupName currentPath token
    nestedTokens := nestedKeys
    fixType := "flatten"
    autoFixable := true }

/- `analyzeTokenGroup(groupName, groupValue, path)`: walks the entries of a
group; for each non-`$` object child without `value` and `$type` keys and
with non-`$` children, either flags a `NESTED_TOKENS` issue (when some child
looks like a token) or recurses.  Recursion into an object child `token`
continues with that child's own entries, written here as a direct call on
the child's fields so that the recursion stays structural.  Array children
have `typeof 'object'`, no `value`/`$type` keys, and index keys as
`Object.keys`. -/
/-- Combine the outcome of the nested-token check at one node with the
issues of the node itself (when flagged), of its children (when recursed
into), and of the remaining siblings. -/
def atgCombine : Except Unit Bool → StructureIssue → Except Unit (List StructureIssue) →
    Except Unit (List StructureIssue) → Except Unit (List StructureIssue)
  | .error e, _, _, _ => .error e
  | .ok true, _, _, .error e => .error e
  | .ok true, here, _, .ok more => .ok (here :: more)
  | .ok false, _, .error e, _ => .error e
  | .ok false, _, .ok _, .error e => .error e
  | .ok false, _, .ok ds, .ok more => .ok (ds ++ more)

/-- The `currentPath` of a child during the analyzer walk. -/
def childPath (path tokenName : String) : String :=
  if path = "" then tokenName else path ++ "." ++ tokenName

/-- The nested-check of an object child at its `currentPath`. -/
def atgObjStep (groupName tokenName currentPath : String) (o : JObj)
    (deeper siblings : Except Unit (List StructureIssue)) :
    Except Unit (List StructureIssue) :=
  if !(o.hasKey "value") && !(o.hasKey "$type") then
    let nestedKeys := o.keys.filter (fun k => !strStarts k "$")
    if nestedKeys.length > 0 then
      atgCombine (hasNT o nestedKeys)
        (mkNestedIssue groupName tokenName currentPath (.obj o) nestedKeys)
        deeper siblings
    else siblings
  else siblings

/-- The nested-check of an array child (no `value`/`$type` keys, index
keys) at its `currentPath`. -/
def atgArrStep (groupName tokenName currentPath : String) (a : JArr)
    (deeper siblings : Except Unit (List StructureIssue)) :
    Except Unit (List StructureIssue) :=
  let nestedKeys := arrIndexKeys 0 a
  if nestedKeys.length > 0 then
    atgCombine (hasNTArr a)
      (mkNestedIssue groupName tokenName currentPath (.arr a) nestedKeys)
      deeper siblings
  else siblings

mutual
def atgFields (groupName path : String) : JObj → Except Unit (List StructureIssue)
  | .nil => .ok []
  | .cons tokenName (.obj o) rest =>
      if strStarts tokenName "$" then atgFields groupName path rest
      else
        atgObjStep groupName tokenName (childPath path tokenName) o
          (atgFields groupName (childPath path tokenName) o)
          (atgFields groupName path rest)
  | .cons tokenName (.arr a) rest =>
      if strStarts tokenName "$" then atgFields groupName path rest
      else
        atgArrStep groupName tokenName (childPath path tokenName) a
          (atgArr groupName (childPath path tokenName) 0 a)
          (atgFields groupName path rest)
  | .cons _ .null rest => atgFields groupName path rest
  | .cons _ (.bool _) rest => atgFields groupName path rest
  | .cons _ (.num _) rest => atgFields groupName path rest
  | .cons _ .nan rest => atgFields groupName path rest
  | .cons _ (.str _) rest => atgFields groupName path rest

def atgArr (groupName path : String) (idx : Nat) : JArr → Except Unit (List StructureIssue)
  | .nil => .ok []
  | .cons (.obj o) rest =>
      atgObjStep groupName (natToStr idx) (childPath path (natToStr idx)) o
        (atgFields groupName (childPath path (natToStr idx)) o)
        (atgArr groupName path (idx + 1) rest)
  | .cons (.arr a) rest =>
      atgArrStep groupName (natToStr idx) (childPath path (natToStr idx)) a
        (atgArr groupName (childPath path (natToStr idx)) 0 a)
        (atgArr groupName path (idx + 1) rest)
  | .cons .null rest => atgArr groupName path (idx + 1) rest
  | .cons (.bool _) rest => atgArr groupName path (idx + 1) rest
  | .cons (.num _) rest => atgArr groupName path (idx + 1) rest
  | .cons .nan rest => atgArr groupName path (idx + 1) rest
  | .cons (.str _) rest => atgArr groupName path (idx + 1) rest
end

/-- `analyzeTokenGroup` entry point.  `Object.entries(null)` throws. -/
def analyzeTokenGroup (groupName : String) (groupValue : Json) (path : String := "") :
    Except Unit (List StructureIssue) :=
  match groupValue with
  | .null => .error ()
  | .obj o => atgFields groupName path o
  | .arr a => atgArr groupName path 0 a
  | _ => .ok []

/-- `analyzeStructure(json)`: loops over the top-level entries, skipping
reserved keys and `brand`, analyzing object-typed groups. -/
def analyzeStructure (json : Json) : Except Unit (List StructureIssue) :=
  match json with
  | .obj o => asFields o
  | .arr a => asArr 0 a
  | _ => .ok []
where
  asFields : JObj → Except Unit (List StructureIssue)
    | .nil => .ok []
    | .cons k v rest =>
        if DTCG_GROUPS.contains k || k = "brand" then asFields rest
        else if v.isObjTypeof && !(v = .null) then do
          let here ← analyzeTokenGroup k v
          let more ← asFields rest
          .ok (here ++ more)
        else asFields rest
  asArr (idx : Nat) : JArr → Except Unit (List StructureIssue)
    | .nil => .ok []
    | .cons v rest =>
        let k := natToStr idx
        if DTCG_GROUPS.contains k || k = "brand" then asArr (idx + 1) rest
        else if v.isObjTypeof && !(v = .null) then do
          let here ← analyzeTokenGroup k v
          let more ← asArr (idx + 1) rest
          .ok (here ++ more)
        else asArr (idx + 1) rest

/-! ### Per-type value validators -/

/-- Concatenate two error/warning accumulators in push order. -/
def dcat (a b : Diags) : Diags := (a.1 ++ b.1, a.2 ++ b.2)

/-- A single error. -/
def errD (d : Diag) : Diags := ([d], [])

/-- A single warning. -/
def warnD (d : Diag) : Diags := ([], [d])

/-- No diagnostics. -/
def noD : Diags := ([], [])

/- JavaScript `String(v)` as used in diagnostic message interpolation.
Strings, booleans, `null`, `NaN` and integers are exact; the decimal
rendering of non-integer doubles is abbreviated as `n/d` (it affects only
the text of messages that interpolate a non-integer number, which no
theorem below inspects); objects print as `[object Object]` and arrays as
their comma-joined elements. -/
mutual

def jsDisplay : Json → String
  | .str s => s
  | .bool true => "true"
  | .bool false => "false"
  | .null => "null"
  | .nan => "NaN"
  | .num q => if q.d = 1 then intToStr q.n else intToStr q.n ++ "/" ++ natToStr q.d
  | .arr a => jsDisplayArr a
  | .obj _ => "[object Object]"

def jsDisplayArr : JArr → String
  | .nil => ""
  | .cons v .nil => jsDisplay v
  | .cons v rest => jsDisplay v ++ "," ++ jsDisplayArr rest
end

/-- `validateColorValue(groupName, tokenName, value)`. -/
def validateColorValue (g t : String) (value : Json) : Diags :=
  if value.isObjTypeof && !(value = .null) then
    if !truthyO (value.get? "colorSpace") || !truthyO (value.get? "channels") then
      errD { path := "$." ++ g ++ "." ++ t ++ ".$value"
             message := "Invalid DTCG color object"
             severity := .error
             hint := some "DTCG color objects must have \"colorSpace\" and \"channels\"" }
    else noD
  else match value with
    | .str s =>
        if strStarts s "#" && !hexColorRegexJS s then
          errD { path := "$." ++ g ++ "." ++ t ++ ".value"
                 message := "Invalid hex color format"
                 severity := .error
                 hint := some "Use valid hex: #RGB, #RRGGBB, or #RRGGBBAA" }
        else noD
    | _ =>
        errD { path := "$." ++ g ++ "." ++ t ++ ".value"
               message := "Color value must be a string"
               severity := .error
               hint := some "Use hex (#E00069), rgb(), or color names" }

/-- `validateDimensionValue(groupName, tokenName, value)`. -/
def validateDimensionValue (g t : String) (value : Json) : Diags :=
  if value.isObjTypeof && !(value = .null) then
    if (value.get? "value").isNone || (value.get? "unit").isNone then
      errD { path := "$." ++ g ++ "." ++ t ++ ".$value"
             message := "Invalid DTCG dimension object"
             severity := .error
             hint := some "DTCG dimension objects must have \"value\" and \"unit\"" }
    else noD
  else match value with
    | .str s =>
        if !dimRegexJS s then
          warnD { path := "$." ++ g ++ "." ++ t ++ ".value"
                  message := "Unusual dimension format"
                  severity := .warning
                  hint := some "Standard units: px, rem, em, %, vh, vw, pt, cm, mm, in, pc, ch" }
        else noD
    | _ =>
        errD { path := "$." ++ g ++ "." ++ t ++ ".value"
               message := "Dimension value must be a string"
               severity := .error
               hint := some "Use formats like \"16px\", \"2rem\", \"100%\"" }

/-- `validateFontFamilyValue`. -/
def validateFontFamilyValue (g t : String) (value : Json) : Diags :=
  match value with
  | .str _ => noD
  | _ =>
      errD { path := "$." ++ g ++ "." ++ t ++ ".value"
             message := "Font family must be a string or array of strings"
             severity := .error
             hint := some "Use comma-separated font names or arrays: [\"Inter\", \"sans-serif\"]" }

/-- `validateNumberValue`. -/
def validateNumberValue (g t : String) (value : Json) : Diags :=
  if value.isNumTypeof then noD
  else
    errD { path := "$." ++ g ++ "." ++ t ++ ".$value"
           message := "Number token must have a numeric $value"
           severity := .error
           hint := some "Use a plain number (no unit)" }

/-- `validateOpacityValue`: `typeof value !== 'number' || value < 0 || value > 1`.
Note that `NaN` compares false on both bounds and is accepted. -/
def validateOpacityValue (g t : String) (value : Json) : Diags :=
  let ok := match value with
    | .num q => !(q.jlt (JNum.ofInt 0)) && !((JNum.ofInt 1).jlt q)
    | .nan => true
    | _ => false
  if ok then noD
  else
    errD { path := "$." ++ g ++ "." ++ t ++ ".$value"
           message := "Opacity must be a number between 0 and 1"
           severity := .error
           hint := some "Example: 0.75" }

/-- `validateDurationValue`. -/
def validateDurationValue (g t : String) (value : Json) : Diags :=
  let isValid := value.isNumTypeof ||
    (match value with | .str s => durValueRegexJS s | _ => false)
  if isValid then noD
  else
    errD { path := "$." ++ g ++ "." ++ t ++ ".$value"
           message := "Duration must be number (ms) or string ending with ms/s"
           severity := .error
           hint := some "Examples: 250, \"250ms\", \"0.2s\"" }

/-- The `check` closure of `validateBorderRadiusValue`. -/
def brCheck (v : Json) : Bool :=
  v.isNumTypeof || (match v with | .str s => brRegexJS s | _ => false)

/-- `validateBorderRadiusValue`. -/
def validateBorderRadiusValue (g t : String) (value : Json) : Diags :=
  if brCheck value ||
     (value.isObjTypeof && !(value = .null) && brCheck ((value.get? "value").getD .null)) then
    noD
  else
    errD { path := "$." ++ g ++ "." ++ t ++ ".$value"
           message := "Border radius must be a dimension (number or string with unit)"
           severity := .error
           hint := some "Examples: 4, \"4px\", \x7b \"value\": 4, \"unit\": \"px\" \x7d" }

/-- `validateTextCaseValue`. -/
def validateTextCaseValue (g t : String) (value : Json) : Diags :=
  let allowed := ["none", "uppercase", "lowercase", "capitalize"]
  let ok := match value with | .str s => allowed.contains s | _ => false
  if ok then noD
  else
    errD { path := "$." ++ g ++ "." ++ t ++ ".$value"
           message := "textCase must be one of none, uppercase, lowercase, capitalize"
           severity := .error }

/-- `validateTextDecorationValue`. -/
def validateTextDecorationValue (g t : String) (value : Json) : Diags :=
  let allowed := ["none", "underline", "line-through", "overline"]
  let ok := match value with | .str s => allowed.contains s | _ => false
  if ok then noD
  else
    errD { path := "$." ++ g ++ "." ++ t ++ ".$value"
           message := "textDecoration must be one of none, underline, line-through, overline"
           severity := .error }

/-- `validateTypographyValue`. -/
def validateTypographyValue (g t : String) (value : Json) : Diags :=
  if !(value.isObjTypeof) || value = .null then
    errD { path := "$." ++ g ++ "." ++ t ++ ".$value"
           message := "Typography must be an object"
           severity := .error }
  else
    let req (r : String) : Diags :=
      if value.hasKey r then noD
      else
        errD { path := "$." ++ g ++ "." ++ t ++ ".$value." ++ r
               message := "Typography missing " ++ r
               severity := .error }
    let base := dcat (dcat (req "fontFamily") (req "fontSize"))
                     (dcat (req "fontWeight") (req "lineHeight"))
    let opt (k : String) (f : String → String → Json → Diags) : Diags :=
      if value.hasKey k then f g (t ++ "." ++ k) ((value.get? k).getD .null) else noD
    dcat base
      (dcat (dcat (opt "letterSpacing" validateDimensionValue)
                  (opt "paragraphSpacing" validateDimensionValue))
            (dcat (opt "textCase" validateTextCaseValue)
                  (opt "textDecoration" validateTextDecorationValue)))

/-- One shadow entry of `validateShadowValue`. -/
def validateShadowEntry (g t : String) (idx : Nat) (shadow : Json) : Diags :=
  if !(shadow.isObjTypeof) || shadow = .null then
    errD { path := "$." ++ g ++ "." ++ t ++ ".$value[" ++ natToStr idx ++ "]"
           message := "Shadow must be an object"
           severity := .error }
  else
    let req (r : String) : Diags :=
      if shadow.hasKey r then noD
      else
        errD { path := "$." ++ g ++ "." ++ t ++ ".$value[" ++ natToStr idx ++ "]." ++ r
               message := "Shadow missing field"
               severity := .error }
    dcat (dcat (req "color") (req "offsetX")) (dcat (req "offsetY") (req "blur"))

/-- Walk of the shadow list. -/
def validateShadowList (g t : String) (idx : Nat) : JArr → Diags
  | .nil => noD
  | .cons shadow rest =>
      dcat (validateShadowEntry g t idx shadow) (validateShadowList g t (idx + 1) rest)

/-- `validateShadowValue`: a non-array value is treated as a one-element
array. -/
def validateShadowValue (g t : String) (value : Json) : Diags :=
  match value with
  | .arr a => validateShadowList g t 0 a
  | v => validateShadowEntry g t 0 v

/-- `validateGradientValue`. -/
def validateGradientValue (g t : String) (value : Json) : Diags :=
  if !(value.isObjTypeof) || value = .null then
    errD { path := "$." ++ g ++ "." ++ t ++ ".$value"
           message := "Gradient must be an object"
           severity := .error }
  else
    let stops := value.get? "stops"
    let ok := truthyO stops &&
      (match stops with
       | some (.arr a) => !(a.length = 0)
       | _ => false)
    if ok then noD
    else
      errD { path := "$." ++ g ++ "." ++ t ++ ".$value.stops"
             message := "Gradient requires stops"
             severity := .error }

/-- `validateBorderValue`. -/
def validateBorderValue (g t : String) (value : Json) : Diags :=
  if !(value.isObjTypeof) || value = .null then
    errD { path := "$." ++ g ++ "." ++ t ++ ".$value"
           message := "Border must be an object"
           severity := .error }
  else
    let req (r : String) : Diags :=
      if value.hasKey r then noD
      else
        errD { path := "$." ++ g ++ "." ++ t ++ ".$value." ++ r
               message := "Border missing " ++ r
               severity := .error }
    dcat (req "color") (dcat (req "width") (req "style"))

/-- `validateStrokeStyleValue`. -/
def validateStrokeStyleValue (g t : String) (value : Json) : Diags :=
  if !(value.isObjTypeof) || value = .null then
    errD { path := "$." ++ g ++ "." ++ t ++ ".$value"
           message := "Stroke style must be an object"
           severity := .error }
  else noD

/-- `validateTransitionValue`. -/
def validateTransitionValue (g t : String) (value : Json) : Diags :=
  if !(value.isObjTypeof) || value = .null then
    errD { path := "$." ++ g ++ "." ++ t ++ ".$value"
           message := "Transition must be an object"
           severity := .error }
  else
    let durMissing : Diags :=
      if truthyO (value.get? "duration") then noD
      else
        errD { path := "$." ++ g ++ "." ++ t ++ ".$value.duration"
               message := "Transition missing duration"
               severity := .error }
    let tf := (value.get? "timingFunction").getD .null
    let tfWarn : Diags :=
      if tf.truthy && !(tf.get? "$type" = some (.str "cubicBezier")) then
        warnD { path := "$." ++ g ++ "." ++ t ++ ".$value.timingFunction"
                message := "timingFunction should be a cubicBezier token"
                severity := .warning }
      else noD
    dcat durMissing tfWarn

/-- Are all elements numbers (`typeof 'number'`, so `NaN` passes)? -/
def allNumTypeof : JArr → Bool
  | .nil => true
  | .cons v rest => v.isNumTypeof && allNumTypeof rest

/-- `validateCubicBezierValue`: `Array.isArray(value) ? value : value?.$value`
must be an array of exactly four numbers. -/
def validateCubicBezierValue (g t : String) (value : Json) : Diags :=
  let arrv : Option Json := if value.isArray then some value else value.get? "$value"
  let ok := match arrv with
    | some (.arr a) => a.length = 4 && allNumTypeof a
    | _ => false
  if ok then noD
  else
    errD { path := "$." ++ g ++ "." ++ t ++ ".$value"
           message := "cubicBezier must be an array of four numbers"
           severity := .error }

/-! ### Token-level validation -/

/-- Non-`$` own keys of a value (`Object.keys(v).filter(k => !k.startsWith('$'))`);
array keys are index strings, which never start with `$`. -/
def Json.nonDollarKeys : Json → List String
  | .obj o => o.keys.filter (fun k => !strStarts k "$")
  | .arr a => arrIndexKeys 0 a
  | _ => []

/-- `token.$value || token.value` (truthiness fallback, as in the source). -/
def tokenVal (token : Json) : Json :=
  if truthyO (token.get? "$value") then (token.get? "$value").getD .null
  else (token.get? "value").getD .null

/-- `validateTokenValue(groupName, tokenName, token)`: dispatch on `$type`.
Types listed in the vocabulary but absent from the switch (`asset`) and
non-string `$type` values fall through with no diagnostics. -/
def validateTokenValue (g t : String) (token : Json) : Diags :=
  let value := tokenVal token
  match token.get? "$type" with
  | some (.str "color") => validateColorValue g t value
  | some (.str "dimension") => validateDimensionValue g t value
  | some (.str "number") => validateNumberValue g t value
  | some (.str "opacity") => validateOpacityValue g t value
  | some (.str "fontFamily") => validateFontFamilyValue g t value
  | some (.str "fontSize") => validateDimensionValue g t value
  | some (.str "fontWeight") => validateDimensionValue g t value
  | some (.str "lineHeight") => validateDimensionValue g t value
  | some (.str "letterSpacing") => validateDimensionValue g t value
  | some (.str "paragraphSpacing") => validateDimensionValue g t value
  | some (.str "duration") => validateDurationValue g t value
  | some (.str "borderRadius") => validateBorderRadiusValue g t value
  | some (.str "textCase") => validateTextCaseValue g t value
  | some (.str "textDecoration") => validateTextDecorationValue g t value
  | some (.str "typography") => validateTypographyValue g t value
  | some (.str "shadow") => validateShadowValue g t value
  | some (.str "gradient") => validateGradientValue g t value
  | some (.str "border") => validateBorderValue g t value
  | some (.str "strokeStyle") => validateStrokeStyleValue g t value
  | some (.str "transition") => validateTransitionValue g t value
  | some (.str "cubicBezier") => validateCubicBezierValue g t value
  | _ => noD

/-- Is `VALID_TOKEN_TYPES.includes(v)` true (strict equality, so only
strings can be included)? -/
def typeInVocab : Json → Bool
  | .str s => VALID_TOKEN_TYPES.contains s
  | _ => false

/-- `validateToken(groupName, tokenName, token, parentPath)`.  The callers
only pass non-null objects of `typeof 'object'` (objects or arrays). -/
def validateToken (g tokenName : String) (token : Json) (parentPath : String) : Diags :=
  let fullPath := if parentPath = "" then tokenName else parentPath ++ "." ++ tokenName
  let missingValue : Diags :=
    if !(token.hasKey "$value") && !(token.hasKey "value") then
      let keys := token.nonDollarKeys
      if keys.length > 0 then
        errD { path := "$." ++ g ++ "." ++ fullPath
               message := "Token missing \"$value\" property - has nested structure instead"
               severity := .error
               hint := some ("This token has " ++ natToStr keys.length ++
                 " nested properties (" ++ String.intercalate ", " keys ++
                 "). Each should be a separate token.")
               actualStructure := some token
               correctExample := some (generateCorrectStructure tokenName token)
               suggestion := some "Flatten nested tokens or add \"$value\" property" }
      else
        errD { path := "$." ++ g ++ "." ++ fullPath
               message := "Token missing \"$value\" property"
               severity := .error
               hint := some "Add \"$value\": \"...\" to define the token value" }
    else noD
  let legacyValue : Diags :=
    if token.hasKey "value" && !(token.hasKey "$value") then
      warnD { path := "$." ++ g ++ "." ++ fullPath ++ ".value"
              message := "Legacy \"value\" key used; prefer \"$value\" per DTCG 2025.10"
              severity := .warning
              hint := some "Rename \"value\" to \"$value\"" }
    else noD
  let legacyType : Diags :=
    if token.hasKey "type" && !(token.hasKey "$type") then
      warnD { path := "$." ++ g ++ "." ++ fullPath ++ ".type"
              message := "Legacy \"type\" key used; prefer \"$type\" per DTCG 2025.10"
              severity := .warning
              hint := some "Rename \"type\" to \"$type\"" }
    else noD
  let typeDiags : Diags :=
    if truthyO (token.get? "$type") then
      if !typeInVocab ((token.get? "$type").getD .null) then
        warnD { path := "$." ++ g ++ "." ++ tokenName ++ ".$type"
                message := "Unknown token type: \"" ++
                  jsDisplay ((token.get? "$type").getD .null) ++ "\""
                severity := .warning
                hint := some ("Valid types: " ++ String.intercalate ", " VALID_TOKEN_TYPES) }
      else noD
    else if token.hasKey "$value" || token.hasKey "value" then
      let val := tokenVal token
      let inferredType := inferTokenType val
      match inferredType with
      | .str it =>
          warnD { path := "$." ++ g ++ "." ++ tokenName
                  message := "Missing $type - inferred as \"" ++ it ++ "\""
                  severity := .warning
                  hint := some ("Add \"$type\": \"" ++ it ++ "\" for DTCG compliance")
                  suggestedFix := some (jobj [("$type", .str it)]) }
      | _ => noD
    else noD
  let valueDiags : Diags :=
    if truthyO (token.get? "$type") then validateTokenValue g tokenName token else noD
  dcat missingValue (dcat legacyValue (dcat legacyType (dcat typeDiags valueDiags)))

/- `validateTokenGroup(groupName, groupValue, parentPath)`: walks the
entries of a group value; non-object children are errors, children with a
value key (or no non-`$` children) are validated as tokens, and the rest
are recursed into as subgroups.  Recursion into a child is written directly
on the child's entries to keep the recursion structural.  When
`validateTokenGroups` reaches a `null` group, `Object.entries(null)` throws
(`Except.error`).  String group values enumerate their characters, which
are strings and thus "Token must be an object" errors. -/
mutual
def vtgFields (g parentPath : String) : JObj → Except Unit Diags
  | .nil => .ok noD
  | .cons tokenName token rest =>
      if strStarts tokenName "$" then vtgFields g parentPath rest
      else do
        let here ← vtgOne g parentPath tokenName token
        let more ← vtgFields g parentPath rest
        .ok (dcat here more)

def vtgArr (g parentPath : String) (idx : Nat) : JArr → Except Unit Diags
  | .nil => .ok noD
  | .cons token rest => do
      let here ← vtgOne g parentPath (natToStr idx) token
      let more ← vtgArr g parentPath (idx + 1) rest
      .ok (dcat here more)

def vtgOne (g parentPath tokenName : String) (token : Json) : Except Unit Diags :=
  let currentPath := if parentPath = "" then tokenName else parentPath ++ "." ++ tokenName
  if !(token.isObjTypeof) || token = .null then
    .ok (errD { path := "$." ++ g ++ "." ++ currentPath
                message := "Token must be an object"
                severity := .error
                hint := some "Format: \x7b \"$value\": \"...\", \"$type\": \"color\" \x7d" })
  else
    let hasTokenProps := token.hasKey "$value" || token.hasKey "value"
    let childKeys := token.nonDollarKeys
    if !hasTokenProps && childKeys.length > 0 then
      match token with
      | .obj o => vtgFields g currentPath o
      | .arr a => vtgArr g currentPath 0 a
      | _ => .ok noD
    else
      .ok (validateToken g tokenName token parentPath)
end

/-- `validateTokenGroup` entry point. -/
def validateTokenGroup (g : String) (groupValue : Json) (parentPath : String := "") :
    Except Unit Diags :=
  match groupValue with
  | .null => .error ()
  | .obj o => vtgFields g parentPath o
  | .arr a => vtgArr g parentPath 0 a
  | .str s => .ok (vtgStr g parentPath 0 s.toList)
  | _ => .ok noD
where
  vtgStr (g parentPath : String) (idx : Nat) : List Char → Diags
    | [] => noD
    | _ :: cs =>
        let tokenName := natToStr idx
        let currentPath := if parentPath = "" then tokenName else parentPath ++ "." ++ tokenName
        dcat (errD { path := "$." ++ g ++ "." ++ currentPath
                     message := "Token must be an object"
                     severity := .error
                     hint := some "Format: \x7b \"$value\": \"...\", \"$type\": \"color\" \x7d" })
             (vtgStr g parentPath (idx + 1) cs)

/-- The "token group must be an object" error of `validateTokenGroups`. -/
def groupNotObjectError (key : String) : Diag :=
  { path := "$." ++ key
    message := "Token group \"" ++ key ++ "\" must be an object"
    severity := .error
    hint := some ("\"" ++ key ++
      "\" should contain token definitions like \x7b \"primary\": \x7b \"value\": \"#E00069\" \x7d \x7d") }

/-- `validateTokenGroups(json)`: loops over the top-level entries, skipping
reserved keys and `brand`; non-`typeof object` values are errors and
`null` values reach `Object.entries(null)` inside `validateTokenGroup`. -/
def validateTokenGroups (json : Json) : Except Unit Diags :=
  match json with
  | .obj o => vtgsFields o
  | .arr a => vtgsArr 0 a
  | _ => .ok noD
where
  vtgsFields : JObj → Except Unit Diags
    | .nil => .ok noD
    | .cons k v rest =>
        if DTCG_GROUPS.contains k || k = "brand" then vtgsFields rest
        else if !(v.isObjTypeof) then do
          let more ← vtgsFields rest
          .ok (dcat (errD (groupNotObjectError k)) more)
        else do
          let here ← validateTokenGroup k v
          let more ← vtgsFields rest
          .ok (dcat here more)
  vtgsArr (idx : Nat) : JArr → Except Unit Diags
    | .nil => .ok noD
    | .cons v rest =>
        let k := natToStr idx
        if DTCG_GROUPS.contains k || k = "brand" then vtgsArr (idx + 1) rest
        else if !(v.isObjTypeof) then do
          let more ← vtgsArr (idx + 1) rest
          .ok (dcat (errD (groupNotObjectError k)) more)
        else do
          let here ← validateTokenGroup k v
          let more ← vtgsArr (idx + 1) rest
          .ok (dcat here more)

/-- `validateBrandMetadata(brand)` (reached only when `json.brand` is
truthy, so never with `null`). -/
def validateBrandMetadata (brand : Json) : Diags :=
  if !(brand.isObjTypeof) then
    errD { path := "$.brand"
           message := "Brand metadata must be an object"
           severity := .error
           hint := some "brand should contain brand.name, brand.siteTitle, etc." }
  else
    -- requiredFields = ['name']
    if !truthyO (brand.get? "name") then
      warnD { path := "$.brand.name"
              message := "Missing brand.name"
              severity := .warning
              hint := some "Add brand.name to describe your brand" }
    else noD

/-- The `$schema` check of `validate`. -/
def schemaDiags (json : Json) : Diags :=
  let sch := (json.get? "$schema").getD .null
  if !sch.truthy then
    warnD { path := "$.$schema"
            message := "Missing $schema declaration"
            severity := .warning
            hint := some ("Add \"$schema\": \"" ++ DTCG_SCHEMA_URL ++ "\" to declare spec version") }
  else if !(sch = .str DTCG_SCHEMA_URL) then
    warnD { path := "$.$schema"
            message := "Unexpected $schema version (found " ++ jsDisplay sch ++ ")"
            severity := .warning
            hint := some ("Use " ++ DTCG_SCHEMA_URL ++ " for the 2025.10 format") }
  else noD

/-- `validate(json)`.  The early return for falsy or non-`typeof object`
input carries only `valid`, `errors` and `warnings` — no `structureIssues`
property (`none`). -/
def validate (json : Json) : Except Unit ValidationResult :=
  if !json.truthy || !json.isObjTypeof then
    .ok { valid := false
          errors := [{ path := "$"
                       message := "Invalid JSON structure"
                       severity := .error
                       hint := some "The file must be valid JSON and be an object" }]
          warnings := []
          structureIssues := none }
  else do
    let schema := schemaDiags json
    let issues ← analyzeStructure json
    let brandD := if truthyO (json.get? "brand") then
        validateBrandMetadata ((json.get? "brand").getD .null)
      else noD
    let groups ← validateTokenGroups json
    let all := dcat schema (dcat brandD groups)
    .ok { valid := all.1.length = 0
          errors := all.1
          warnings := all.2
          structureIssues := some issues }

/-! ### `autoFix` -/

/-- Keep the fields whose key satisfies `p`. -/
def JObj.filterKeys (p : String → Bool) : JObj → JObj
  | .nil => .nil
  | .cons k v rest => if p k then .cons k v (rest.filterKeys p) else rest.filterKeys p

/-- The wrapper keys flattened by `autoFix`. -/
def wrapperKeys : List String := ["DEFAULT", "default", "base", "value"]

/-- The value selected by the token branch of `autoFix`:
`hasDollarValue ? node.$value : node.value`. -/
def tokVal (node : Json) : Json :=
  if node.hasKey "$value" then (node.get? "$value").getD .null
  else (node.get? "value").getD .null

/-- The `resolvedType` of the token branch:
`hasDollarType ? node.$type : (hasType ? node.type : (parentType || inferTokenType(val)))`. -/
def tokRT (node : Json) (parentType : Json) : Json :=
  if node.hasKey "$type" then (node.get? "$type").getD .null
  else if node.hasKey "type" then (node.get? "type").getD .null
  else if parentType.truthy then parentType
  else inferTokenType (tokVal node)

/-- `parseFloat(s)` as a JSON value (`NaN` when parsing fails). -/
def pfOrNan (s : String) : Json :=
  match parseFloatJS s with
  | some q => .num q
  | none => .nan

/-- The `$value` conversion of the token branch, in source order: a string
with resolved type `color` runs `convertToColorObject`, with `dimension`
`parseDimension`, with `number`/`opacity` and a loose-numeric match
`parseFloat`; everything else is kept as is. -/
def tokConv (rt : Json) : Json → Json
  | .str s =>
      if rt = .str "color" then convertToColorObject s
      else if rt = .str "dimension" then parseDimension s
      else if (rt = .str "number" || rt = .str "opacity") && looseNumericRegexJS s then
        pfOrNan s
      else .str s
  | .null => .null
  | .bool b => .bool b
  | .num q => .num q
  | .nan => .nan
  | .arr a => .arr a
  | .obj o => .obj o

/-- The `$type` written by the token branch:
`resolvedType || (typeof val === 'number' ? 'number' : 'string')`. -/
def tokT1 (rt val : Json) : Json :=
  if rt.truthy then rt
  else if val.isNumTypeof then .str "number" else .str "string"

/-- The `$description` field carried over by the token branch (empty when
both `node.$description` and `node.description` are falsy). -/
def tokDesc (node : Json) : JObj :=
  if ((node.get? "$description").getD .null).truthy ||
      ((node.get? "description").getD .null).truthy then
    .cons "$description"
      (if ((node.get? "$description").getD .null).truthy then
        (node.get? "$description").getD .null
      else (node.get? "description").getD .null) .nil
  else .nil

/-- The filter keeping the other `$`-prefixed properties of a token. -/
def tokRestPred (k : String) : Bool :=
  strStarts k "$" && !(k = "$value") && !(k = "$type") && !(k = "$description")

/-- The other `$`-prefixed properties carried over by the token branch. -/
def tokRest (node : Json) : JObj :=
  match node with
  | .obj o => o.filterKeys tokRestPred
  | _ => .nil

/-- The token branch of `autoFix` (source: the `hasValue || hasDollarValue`
case).  It is not recursive: the value is converted according to the
resolved type, `$type` is filled in, and `$description` plus the remaining
`$`-prefixed properties are carried over. -/
def autoFixToken (node : Json) (parentType : Json) : Json :=
  .obj ((JObj.cons "$value" (tokConv (tokRT node parentType) (tokVal node))
    (JObj.cons "$type" (tokT1 (tokRT node parentType) (tokVal node))
      (tokDesc node))).assignAll (tokRest node))

/- `autoFix(node, parentType)`, fueled: the wrapper-flattening branch
recurses on a looked-up child, so the recursion is not structural; every
recursive call decrements the fuel, and `Json.size` fuel is always enough
(`autoFix` below instantiates it, and the fuel-irrelevance lemma shows the
choice does not matter).  Branches, in source order: early return for
non-objects, arrays map themselves, single-wrapper-key objects flatten onto
their child (strings/numbers — and `NaN`, whose `typeof` is `'number'` —
are wrapped as `{value: child}` tokens; booleans and `null` fall through),
value-carrying objects are tokens, and the rest are groups whose primitive
children are wrapped as tokens before recursing. -/
/-- The wrapper-flattening test of `autoFix`:
`keys.length === 1 && !hasValue && !hasDollarValue` with `keys` the non-`$`
keys and the single key one of `DEFAULT`/`default`/`base`/`value`. -/
def wrapHitB (o : JObj) : Bool :=
  ((o.keys).filter (fun k => !strStarts k "$")).length = 1 && !(o.hasKey "value") &&
    !(o.hasKey "$value") &&
    wrapperKeys.contains (((o.keys).filter (fun k => !strStarts k "$")).headD "")

/-- The wrapper child `node[childKey]` inspected by the flattening test. -/
def wrapChild (o : JObj) : Json :=
  (o.get? ((((o.keys).filter (fun k => !strStarts k "$"))).headD "")).getD .null

/-- The group type of the group branch:
`node.$type || parentType`. -/
def groupGT (o : JObj) (pt : Json) : Json :=
  if truthyO (o.get? "$type") then (o.get? "$type").getD .null else pt

mutual
def autoFixF : Nat → Json → Json → Json
  | 0, _, _ => .null
  | _ + 1, .null, _ => .null
  | _ + 1, .bool b, _ => .bool b
  | _ + 1, .num q, _ => .num q
  | _ + 1, .nan, _ => .nan
  | _ + 1, .str s, _ => .str s
  | f + 1, .arr a, pt => .arr (autoFixArrF f pt a)
  | f + 1, .obj o, pt =>
      if wrapHitB o && ((wrapChild o).isStrTypeof || (wrapChild o).isNumTypeof) then
        autoFixToken (.obj (.cons "value" (wrapChild o) .nil)) pt
      else if wrapHitB o && ((wrapChild o).isObjTypeof && !(wrapChild o = .null)) then
        autoFixF f (wrapChild o) pt
      else if o.hasKey "value" || o.hasKey "$value" then
        autoFixToken (.obj o) pt
      else
        .obj (autoFixFieldsF f (groupGT o pt) o)

def autoFixFieldsF : Nat → Json → JObj → JObj
  | 0, _, _ => .nil
  | _ + 1, _, .nil => .nil
  | f + 1, gt, .cons k .null rest =>
      if strStarts k "$" then .cons k .null (autoFixFieldsF f gt rest)
      else .cons k (autoFixF f .null gt) (autoFixFieldsF f gt rest)
  | f + 1, gt, .cons k (.bool b) rest =>
      if strStarts k "$" then .cons k (.bool b) (autoFixFieldsF f gt rest)
      else .cons k (autoFixToken (.obj (.cons "value" (.bool b) .nil)) gt)
        (autoFixFieldsF f gt rest)
  | f + 1, gt, .cons k (.str s) rest =>
      if strStarts k "$" then .cons k (.str s) (autoFixFieldsF f gt rest)
      else .cons k (autoFixToken (.obj (.cons "value" (.str s) .nil)) gt)
        (autoFixFieldsF f gt rest)
  | f + 1, gt, .cons k (.num q) rest =>
      if strStarts k "$" then .cons k (.num q) (autoFixFieldsF f gt rest)
      else .cons k (autoFixToken (.obj (.cons "value" (.num q) .nil)) gt)
        (autoFixFieldsF f gt rest)
  | f + 1, gt, .cons k .nan rest =>
      if strStarts k "$" then .cons k .nan (autoFixFieldsF f gt rest)
      else .cons k (autoFixToken (.obj (.cons "value" .nan .nil)) gt)
        (autoFixFieldsF f gt rest)
  | f + 1, gt, .cons k (.arr a) rest =>
      if strStarts k "$" then .cons k (.arr a) (autoFixFieldsF f gt rest)
      else .cons k (autoFixF f (.arr a) gt) (autoFixFieldsF f gt rest)
  | f + 1, gt, .cons k (.obj oo) rest =>
      if strStarts k "$" then .cons k (.obj oo) (autoFixFieldsF f gt rest)
      else .cons k (autoFixF f (.obj oo) gt) (autoFixFieldsF f gt rest)

def autoFixArrF : Nat → Json → JArr → JArr
  | 0, _, _ => .nil
  | _ + 1, _, .nil => .nil
  | f + 1, pt, .cons v rest => .cons (autoFixF f v pt) (autoFixArrF f pt rest)
end

/-- The per-child transformation of the group branch: primitives
(string/number/boolean, and `NaN`) are wrapped as `{value: child}` tokens,
everything else goes through the recursive call. -/
def afChild (f : Nat) (gt : Json) : Json → Json
  | .null => autoFixF f .null gt
  | .bool b => autoFixToken (.obj (.cons "value" (.bool b) .nil)) gt
  | .str s => autoFixToken (.obj (.cons "value" (.str s) .nil)) gt
  | .num q => autoFixToken (.obj (.cons "value" (.num q) .nil)) gt
  | .nan => autoFixToken (.obj (.cons "value" .nan .nil)) gt
  | .arr a => autoFixF f (.arr a) gt
  | .obj oo => autoFixF f (.obj oo) gt

/-- `autoFix(node, parentType = null)` at its sufficient fuel. -/
def autoFix (node : Json) (parentType : Json := .null) : Json :=
  autoFixF node.size node parentType

/- `JSON.parse(JSON.stringify(x))`: the only change on this value model is
`NaN` becoming `null` (a JSON document never contains `NaN`, but `autoFix`
outputs can). -/
mutual
def deepCopy : Json → Json
  | .nan => .null
  | .arr a => .arr (deepCopyArr a)
  | .obj o => .obj (deepCopyObj o)
  | other => other

def deepCopyArr : JArr → JArr
  | .nil => .nil
  | .cons v rest => .cons (deepCopy v) (deepCopyArr rest)

def deepCopyObj : JObj → JObj
  | .nil => .nil
  | .cons k v rest => .cons k (deepCopy v) (deepCopyObj rest)
end

/- No `NaN` anywhere (true of every JSON document). -/
mutual
def nanFree : Json → Bool
  | .nan => false
  | .arr a => nanFreeArr a
  | .obj o => nanFreeObj o
  | _ => true

def nanFreeArr : JArr → Bool
  | .nil => true
  | .cons v rest => nanFree v && nanFreeArr rest

def nanFreeObj : JObj → Bool
  | .nil => true
  | .cons _ v rest => nanFree v && nanFreeObj rest
end

/-- An object on which the wrapper-flattening branch of `autoFix` fails its
child-type test non-trivially: a single non-`$` wrapper key holding a
boolean.  `autoFix` turns such a node into a group with a token child that
a second pass then flattens, which is the one source of non-idempotence. -/
def badWrap (o : JObj) : Bool :=
  wrapHitB o &&
    (match wrapChild o with
     | .bool _ => true
     | _ => false)

/- No descendant reachable through non-`$` keys or array elements is a
`badWrap` object. -/
mutual
def NoBW : Json → Bool
  | .obj o => !badWrap o && NoBWObj o
  | .arr a => NoBWArr a
  | _ => true

def NoBWObj : JObj → Bool
  | .nil => true
  | .cons k v rest => (strStarts k "$" || NoBW v) && NoBWObj rest

def NoBWArr : JArr → Bool
  | .nil => true
  | .cons v rest => NoBW v && NoBWArr rest
end

/-- Boolean key-list distinctness (what holds of every object produced by
`JSON.parse`, where duplicate keys cannot survive). -/
def ndKeys : List String → Bool
  | [] => true
  | k :: ks => !(ks.contains k) && ndKeys ks

/- Every object anywhere in the value has duplicate-free keys: the
well-formedness enjoyed by every JavaScript value (the embedding's field
lists can express duplicates that a JavaScript object cannot). -/
mutual
def NDeep : Json → Bool
  | .obj o => ndKeys o.keys && NDeepObj o
  | .arr a => NDeepArr a
  | _ => true

def NDeepObj : JObj → Bool
  | .nil => true
  | .cons _ v rest => NDeep v && NDeepObj rest

def NDeepArr : JArr → Bool
  | .nil => true
  | .cons v rest => NDeep v && NDeepArr rest
end

/- Does some object anywhere in `j` carry the key `k` with exactly the
value `v` (used to state the flatten-preservation claim)? -/
mutual
def hasKVDeep (k : String) (v : Json) : Json → Bool
  | .obj o => hasKVDeepObj k v o
  | .arr a => hasKVDeepArr k v a
  | _ => false

def hasKVDeepObj (k : String) (v : Json) : JObj → Bool
  | .nil => false
  | .cons k1 v1 rest =>
      (k1 = k && v1 = v) || hasKVDeep k v v1 || hasKVDeepObj k v rest

def hasKVDeepArr (k : String) (v : Json) : JArr → Bool
  | .nil => false
  | .cons v1 rest => hasKVDeep k v v1 || hasKVDeepArr k v rest
end

/-! ### Fix collection (`getFixableIssues`) and application -/

/-- The add-type fix pushed by `collectMissingTypes` (`fix-<n>` ids count
the fixes already accumulated). -/
def mkAddTypeFix (n : Nat) (groupName currentPath : String) (o : JObj) (it : String) : Fix :=
  { id := "fix-" ++ natToStr n
    type := "add-type"
    path := "$." ++ groupName ++ "." ++ currentPath
    description := "Add missing $type: \"" ++ it ++ "\""
    before := .obj o
    after := .obj (o.append (.cons "$type" (.str it) .nil))
    approved := false }

/- `collectMissingTypes(obj, groupName, path, fixes)`: walks the entries,
pushing an add-type fix for each object child having a `value` key, no
`$type`, and an inferable type, and recursing into children with neither
key.  The accumulated list is threaded so that each fix id is
`fix-<count so far>`.  Arrays have `typeof 'object'`, no `value`/`$type`
keys, and index keys, so they are recursed into. -/
mutual
def cmtFields (groupName path : String) (fixes : List Fix) : JObj → List Fix
  | .nil => fixes
  | .cons k (.obj o) rest =>
      if strStarts k "$" then cmtFields groupName path fixes rest
      else
        let currentPath := if path = "" then k else path ++ "." ++ k
        let fixes2 :=
          if o.hasKey "value" && !(o.hasKey "$type") then
            match inferTokenType ((o.get? "value").getD .null) with
            | .str it => fixes ++ [mkAddTypeFix fixes.length groupName currentPath o it]
            | _ => fixes
          else if !(o.hasKey "value") && !(o.hasKey "$type") then
            cmtFields groupName currentPath fixes o
          else fixes
        cmtFields groupName path fixes2 rest
  | .cons k (.arr a) rest =>
      if strStarts k "$" then cmtFields groupName path fixes rest
      else
        let currentPath := if path = "" then k else path ++ "." ++ k
        cmtFields groupName path (cmtArr groupName currentPath 0 fixes a) rest
  | .cons _ _ rest => cmtFields groupName path fixes rest

def cmtArr (groupName path : String) (idx : Nat) (fixes : List Fix) : JArr → List Fix
  | .nil => fixes
  | .cons (.obj o) rest =>
      let k := natToStr idx
      let currentPath := if path = "" then k else path ++ "." ++ k
      let fixes2 :=
        if o.hasKey "value" && !(o.hasKey "$type") then
          match inferTokenType ((o.get? "value").getD .null) with
          | .str it => fixes ++ [mkAddTypeFix fixes.length groupName currentPath o it]
          | _ => fixes
        else if !(o.hasKey "value") && !(o.hasKey "$type") then
          cmtFields groupName currentPath fixes o
        else fixes
      cmtArr groupName path (idx + 1) fixes2 rest
  | .cons (.arr a) rest =>
      let k := natToStr idx
      let currentPath := if path = "" then k else path ++ "." ++ k
      cmtArr groupName path (idx + 1) (cmtArr groupName currentPath 0 fixes a) rest
  | .cons _ rest => cmtArr groupName path (idx + 1) fixes rest
end

/-- `collectMissingTypes` entry point: `Object.entries(null)` throws, which
`getFixableIssues` can reach (a `null` group has `typeof 'object'`). -/
def collectMissingTypes (group : Json) (groupName path : String) (fixes : List Fix) :
    Except Unit (List Fix) :=
  match group with
  | .null => .error ()
  | .obj o => .ok (cmtFields groupName path fixes o)
  | .arr a => .ok (cmtArr groupName path 0 fixes a)
  | .bool _ => .ok fixes
  | .num _ => .ok fixes
  | .nan => .ok fixes
  | .str _ => .ok fixes

/-- The flatten fixes built from the validator's `structureIssues` state. -/
def flattenFixes (fixes : List Fix) : List StructureIssue → List Fix
  | [] => fixes
  | issue :: rest =>
      if issue.autoFixable then
        flattenFixes (fixes ++
          [{ id := "fix-" ++ natToStr fixes.length
             type := "flatten"
             path := issue.path
             description := issue.description
             before := issue.originalStructure
             after := issue.flattenedStructure
             approved := false }]) rest
      else flattenFixes fixes rest

/-- One step of the group loop of `getFixableIssues`: skip reserved keys
and non-`typeof object` groups, and collect missing types otherwise. -/
def gfiStep (fixes : Except Unit (List Fix)) (groupName : String) (group : Json) :
    Except Unit (List Fix) := do
  let fs ← fixes
  if DTCG_GROUPS.contains groupName || groupName = "brand" then .ok fs
  else if !group.isObjTypeof then .ok fs
  else collectMissingTypes group groupName "" fs

/-- The group loop of `getFixableIssues` over object fields. -/
def gfiFields (acc : Except Unit (List Fix)) : JObj → Except Unit (List Fix)
  | .nil => acc
  | .cons k v rest => gfiFields (gfiStep acc k v) rest

/-- The group loop of `getFixableIssues` over array entries. -/
def gfiArr (acc : Except Unit (List Fix)) (idx : Nat) : JArr → Except Unit (List Fix)
  | .nil => acc
  | .cons v rest => gfiArr (gfiStep acc (natToStr idx) v) (idx + 1) rest

/-- `getFixableIssues(json)`.  The source reads `this.structureIssues`, the
instance state left by the most recent `validate` call (empty on a fresh
instance); that state is the explicit `structureIssues` parameter here. -/
def getFixableIssues (json : Json) (structureIssues : List StructureIssue) :
    Except Unit (List Fix) :=
  let part1 : Except Unit (List Fix) :=
    match json with
    | .obj o => gfiFields (.ok []) o
    | .arr a => gfiArr (.ok []) 0 a
    | _ => .ok []
  do
    let fs ← part1
    .ok (flattenFixes fs structureIssues)

/-! ### `applyApprovedFixes` -/

/-- Canonical array-index reading of a property key (`"01"` is not an
index). -/
def parseIdx (k : String) : Option Nat :=
  let cs := k.toList
  if cs ≠ [] && cs.all isDigitC && (k = "0" || !strStarts k "0") then
    some (digitsToNat cs)
  else none

/-- Element of an array at a (string) index key. -/
def arrGetIdx : JArr → Nat → Option Json
  | .nil, _ => none
  | .cons v _, 0 => some v
  | .cons _ rest, n + 1 => arrGetIdx rest n

/-- In-place replacement of an array element (only reached for existing
indices). -/
def arrSetIdx : JArr → Nat → Json → JArr
  | .nil, _, _ => .nil
  | .cons _ rest, 0, v => .cons v rest
  | .cons w rest, n + 1, v => .cons w (arrSetIdx rest n v)

/-- `delete arr[i]` leaves a hole, which serializes to `null`; the model
keeps the JSON view. -/
def arrDelIdx (a : JArr) (n : Nat) : JArr := arrSetIdx a n .null

/-- Property read `v[k]` as performed by the path walks of
`applyApprovedFixes`: throws on `null`, looks up object keys, array and
string indices (own data properties only; `length` and the prototype chain
are not modelled, and no fix produced by this validator names them). -/
def readProp (v : Json) (k : String) : Except Unit (Option Json) :=
  match v with
  | .null => .error ()
  | .obj o => .ok (o.get? k)
  | .arr a =>
      .ok (match parseIdx k with
           | some i => arrGetIdx a i
           | none => none)
  | .str s =>
      .ok (match parseIdx k with
           | some i => (s.toList.get? i).map (fun c => .str (String.mk [c]))
           | none => none)
  | _ => .ok none

/-- Set `$type` on the target of an add-type fix: objects are updated,
arrays keep their JSON view (JavaScript attaches a non-index property that
serialization drops), and truthy primitives throw in strict mode. -/
def setTypeProp (v : Json) (t : Json) : Except Unit Json :=
  match v with
  | .obj o => .ok (.obj (o.assign "$type" t))
  | .arr a => .ok (.arr a)
  | _ => .error ()

/-- The final step of the add-type walk:
`if (current && current[lastKey]) current[lastKey].$type = t`. -/
def addTypeFinal (cur : Json) (lastKey : String) (t : Json) : Except Unit Json :=
  if !cur.truthy then .ok cur
  else do
    let tgt ← readProp cur lastKey
    match tgt with
    | some tv =>
        if tv.truthy then
          match cur with
          | .obj o => do
              let tv2 ← setTypeProp tv t
              .ok (.obj (o.assign lastKey tv2))
          | .arr a => do
              let tv2 ← setTypeProp tv t
              .ok (.arr (match parseIdx lastKey with
                         | some i => arrSetIdx a i tv2
                         | none => a))
          | _ => .error ()
        else .ok cur
    | none => .ok cur

/-- The add-type walk of `applyApprovedFixes`: descend while the next part
exists and is truthy, then assign at the stopping node under the overall
last part (an empty part list reads the literal key `"undefined"`, as
JavaScript stringifies the undefined last element).  Descending into a
boxed string character cannot mutate the tree. -/
def addTypeWalk (cur : Json) (parts : List String) (t : Json) : Except Unit Json :=
  match parts with
  | [] => addTypeFinal cur "undefined" t
  | [last] => addTypeFinal cur last t
  | p :: rest => do
      let child ← readProp cur p
      match child with
      | some cv =>
          if cv.truthy then
            match cur with
            | .obj o => do
                let cv2 ← addTypeWalk cv rest t
                .ok (.obj (o.assign p cv2))
            | .arr a => do
                let cv2 ← addTypeWalk cv rest t
                .ok (.arr (match parseIdx p with
                           | some i => arrSetIdx a i cv2
                           | none => a))
            | _ => do
                let _ ← addTypeWalk cv rest t
                .ok cur
          else addTypeFinal cur ((p :: rest).getLast (by simp)) t
      | none => addTypeFinal cur ((p :: rest).getLast (by simp)) t

/-- The final step of the flatten walk: `if (current[lastKey]) { delete
current[lastKey]; ... }`; the Boolean reports whether the delete fired (the
merge is gated on it).  Deleting an index property of a string throws in
strict mode. -/
def flattenFinal (cur : Json) (lastKey : String) : Except Unit (Json × Bool) := do
  let tgt ← readProp cur lastKey
  match tgt with
  | some tv =>
      if tv.truthy then
        match cur with
        | .obj o => .ok (.obj (o.delete lastKey), true)
        | .arr a => .ok (.arr (match parseIdx lastKey with
                               | some i => arrDelIdx a i
                               | none => a), true)
        | _ => .error ()
      else .ok (cur, false)
  | none => .ok (cur, false)

/-- The flatten walk (same break semantics as the add-type walk). -/
def flattenWalk (cur : Json) : List String → Except Unit (Json × Bool)
  | [] => flattenFinal cur "undefined"
  | [last] => flattenFinal cur last
  | p :: rest => do
      let child ← readProp cur p
      match child with
      | some cv =>
          if cv.truthy then
            match cur with
            | .obj o => do
                let r ← flattenWalk cv rest
                .ok (.obj (o.assign p r.1), r.2)
            | .arr a => do
                let r ← flattenWalk cv rest
                .ok (.arr (match parseIdx p with
                           | some i => arrSetIdx a i r.1
                           | none => a), r.2)
            | _ => do
                let r ← flattenWalk cv rest
                .ok (cur, r.2)
          else flattenFinal cur ((p :: rest).getLast (by simp))
      | none => flattenFinal cur ((p :: rest).getLast (by simp))

/-- The own enumerable entries `Object.assign` copies from a source. -/
def spreadSrc : Json → JObj
  | .obj o => o
  | .arr a => spreadArr 0 a
  | .str s => spreadStr 0 s.toList
  | _ => .nil
where
  spreadArr (idx : Nat) : JArr → JObj
    | .nil => .nil
    | .cons v rest => .cons (natToStr idx) v (spreadArr (idx + 1) rest)
  spreadStr (idx : Nat) : List Char → JObj
    | [] => .nil
    | c :: cs => .cons (natToStr idx) (.str (String.mk [c])) (spreadStr (idx + 1) cs)

/-- `Object.assign(target, src)` for the flatten merge; non-object targets
box and lose the properties (arrays keep their JSON view). -/
def jsObjectAssign (target : Json) (src : Json) : Json :=
  match target with
  | .obj o => .obj (o.assignAll (spreadSrc src))
  | other => other

/-- Write the (mutated) group value back into the result root. -/
def writeProp (result : Json) (k : String) (v : Json) : Json :=
  match result with
  | .obj o => .obj (o.assign k v)
  | .arr a => .arr (match parseIdx k with
                    | some i => arrSetIdx a i v
                    | none => a)
  | other => other

/-- One flatten fix: locate the group, walk to the parent, delete the
nested key, and merge the precomputed flattened tokens into the group
root. -/
def applyFlatten (result : Json) (parts : List String) (after : Json) :
    Except Unit Json := do
  let groupName := parts.headD "undefined"
  let tokenPath := parts.tail
  let gv ← readProp result groupName
  match gv with
  | some g =>
      if g.truthy then do
        let r ← flattenWalk g tokenPath
        if r.2 then
          .ok (writeProp result groupName (jsObjectAssign r.1 after))
        else
          .ok (writeProp result groupName r.1)
      else .ok result
  | none => .ok result

/-- `applyApprovedFixes(json, fixes)`: deep-copy the input, then apply each
approved fix in order; unapproved fixes are skipped. -/
def applyApprovedFixes (json : Json) (fixes : List Fix) : Except Unit Json :=
  go (deepCopy json) fixes
where
  go (result : Json) : List Fix → Except Unit Json
    | [] => .ok result
    | fix :: rest =>
        if !fix.approved then go result rest
        else if fix.type = "add-type" then do
          let parts := (splitDot fix.path).filter (fun p => !(p = "$"))
          let r2 ← addTypeWalk result parts ((fix.after.get? "$type").getD .null)
          go r2 rest
        else if fix.type = "flatten" then do
          let parts := (splitDot fix.path).filter (fun p => !(p = "$"))
          let r2 ← applyFlatten result parts fix.after
          go r2 rest
        else go result rest

/-! ### Shared lemmas -/

theorem JObj.get?_assign_ne : ∀ (o : JObj) (k1 k : String) (v : Json), ¬(k1 = k) →
    (o.assign k1 v).get? k = o.get? k
  | .nil, k1, k, v, h => by simp [JObj.assign, JObj.get?, h]
  | .cons k2 v2 rest, k1, k, v, h => by
      by_cases h2 : k2 = k1
      · subst h2
        simp [JObj.assign, JObj.get?, h]
      · simp only [JObj.assign, h2, if_false]
        by_cases h3 : k2 = k
        · simp [JObj.get?, h3]
        · simp [JObj.get?, h3, JObj.get?_assign_ne rest k1 k v h]

theorem JObj.get?_assignAll_not_has : ∀ (r o : JObj) (k : String), r.hasKey k = false →
    (o.assignAll r).get? k = o.get? k
  | .nil, o, k, _ => rfl
  | .cons k1 v1 rest, o, k, h => by
      simp only [JObj.assignAll]
      have hk1 : ¬(k1 = k) := by
        intro he
        subst he
        simp [JObj.hasKey, JObj.get?] at h
      have hrest : rest.hasKey k = false := by
        simpa [JObj.hasKey, JObj.get?, hk1] using h
      rw [JObj.get?_assignAll_not_has rest _ k hrest, JObj.get?_assign_ne o k1 k v1 hk1]

theorem JObj.hasKey_filterKeys : ∀ (o : JObj) (p : String → Bool) (k : String),
    (o.filterKeys p).hasKey k = true → p k = true
  | .nil, p, k, h => by simp [JObj.filterKeys, JObj.hasKey, JObj.get?] at h
  | .cons k1 v1 rest, p, k, h => by
      by_cases hp : p k1
      · rw [JObj.filterKeys, if_pos hp] at h
        by_cases hk : k1 = k
        · subst hk; exact hp
        · rw [JObj.hasKey, JObj.get?, if_neg hk] at h
          exact JObj.hasKey_filterKeys rest p k h
      · rw [JObj.filterKeys, if_neg hp] at h
        exact JObj.hasKey_filterKeys rest p k h

/- `JSON.parse(JSON.stringify(x)) = x` on NaN-free values. -/
mutual
theorem deepCopy_eq : ∀ (j : Json), nanFree j = true → deepCopy j = j
  | .null, _ => rfl
  | .bool _, _ => rfl
  | .num _, _ => rfl
  | .nan, h => by simp [nanFree] at h
  | .str _, _ => rfl
  | .arr a, h => by
      simp only [deepCopy]
      rw [deepCopyArr_eq a (by simpa [nanFree] using h)]
  | .obj o, h => by
      simp only [deepCopy]
      rw [deepCopyObj_eq o (by simpa [nanFree] using h)]

theorem deepCopyArr_eq : ∀ (a : JArr), nanFreeArr a = true → deepCopyArr a = a
  | .nil, _ => rfl
  | .cons v rest, h => by
      simp only [nanFreeArr, Bool.and_eq_true] at h
      simp only [deepCopyArr]
      rw [deepCopy_eq v h.1, deepCopyArr_eq rest h.2]

theorem deepCopyObj_eq : ∀ (o : JObj), nanFreeObj o = true → deepCopyObj o = o
  | .nil, _ => rfl
  | .cons k v rest, h => by
      simp only [nanFreeObj, Bool.and_eq_true] at h
      simp only [deepCopyObj]
      rw [deepCopy_eq v h.1, deepCopyObj_eq rest h.2]
end

/-! ### Claim C1 -/

/-- The `#ZZZ` document of the scenario. -/
def zzzDoc : Json :=
  jobj [("colors", jobj [("primary",
    jobj [("$value", .str "#ZZZ"), ("$type", .str "color")])])]

/-- C1: the color validator accepts `#` followed by 3, 6, or 8 hex digits
and errors otherwise; for the `#ZZZ` document, validate returns exactly one
error.  The code violates the 3/6/8 contract stated by the spec and by its
own hint string (`#RGB, #RRGGBB, or #RRGGBBAA`): its regex accepts 3, 6, or
9 hex digits, so the 8-digit `#11223344` is rejected with the
"Invalid hex color format" error while the 9-digit `#112233445` is
accepted.  The `#ZZZ` part of the claim does hold. -/
theorem c1_hex_regex_code_bug :
    hexColorRegexJS "#11223344" = false ∧
    (validateColorValue "colors" "primary" (.str "#11223344")).1.map Diag.message =
      ["Invalid hex color format"] ∧
    hexColorRegexJS "#112233445" = true ∧
    validateColorValue "colors" "primary" (.str "#112233445") = noD ∧
    (validate zzzDoc).map (fun r => (r.errors.map Diag.message, r.valid)) =
      .ok (["Invalid hex color format"], false) :=
  ⟨rfl, rfl, rfl, rfl, rfl⟩

/-! ### Claim C2 -/

/-- C2 counterexample: on the empty object, `validate` does not return
`valid = false` (the claim asserts `valid:false` with zero errors, but
`valid` is defined as `errors.length === 0`, which holds). -/
theorem c2_counterexample :
    ¬((validate (jobj [])).map ValidationResult.valid = Except.ok false) := by
  intro h
  have h2 : (Except.ok true : Except Unit Bool) = Except.ok false := by
    calc (Except.ok true : Except Unit Bool)
        = (validate (jobj [])).map ValidationResult.valid := by rfl
      _ = Except.ok false := h
  injection h2 with h3
  cases h3

/-- C2 (amended): for the empty-object document `{}`, validate returns
`valid = true`, zero errors, exactly the single missing-`$schema` warning,
and an empty `structureIssues` list. -/
theorem c2_amended :
    validate (jobj []) = Except.ok
      { valid := true
        errors := []
        warnings := [{ path := "$.$schema"
                       message := "Missing $schema declaration"
                       severity := .warning
                       hint := some ("Add \"$schema\": \"" ++ DTCG_SCHEMA_URL ++
                         "\" to declare spec version") }]
        structureIssues := some [] } := rfl

/-! ### Claim C6 -/

/-- C6 counterexample: for top-level `null` the early return does not carry
the `structureIssues` field, contradicting the claim that the result
carries all four fields. -/
theorem c6_counterexample :
    ¬((validate .null).map (fun r => r.structureIssues.isSome) = Except.ok true) := by
  intro h
  have h2 : (Except.ok false : Except Unit Bool) = Except.ok true := by
    calc (Except.ok false : Except Unit Bool)
        = (validate .null).map (fun r => r.structureIssues.isSome) := by rfl
      _ = Except.ok true := h
  injection h2 with h3
  cases h3

/-- C6 (amended): for every top-level value that is `null` or not of
`typeof 'object'`, validate returns immediately with exactly one error
diagnostic at the root path `$`, `valid = false`, no warnings — and no
`structureIssues` field (the early return carries only three fields). -/
theorem c6_amended (j : Json) (h : j = .null ∨ j.isObjTypeof = false) :
    validate j = Except.ok
      { valid := false
        errors := [{ path := "$"
                     message := "Invalid JSON structure"
                     severity := .error
                     hint := some "The file must be valid JSON and be an object" }]
        warnings := []
        structureIssues := none } := by
  rcases h with rfl | h
  · rfl
  · unfold validate
    rw [h]
    simp

/-- Witness for C6 at the concrete input `null`. -/
theorem c6_amended_witness :
    validate .null = Except.ok
      { valid := false
        errors := [{ path := "$"
                     message := "Invalid JSON structure"
                     severity := .error
                     hint := some "The file must be valid JSON and be an object" }]
        warnings := []
        structureIssues := none } :=
  c6_amended .null (Or.inl rfl)

/-! ### Claim C9 -/

/-- On a value-carrying object, `autoFix` is exactly its token branch. -/
theorem autoFix_token_case (o : JObj) (pt : Json)
    (h : (o.hasKey "value" || o.hasKey "$value") = true) :
    autoFix (.obj o) pt = autoFixToken (.obj o) pt := by
  have hs : Json.size (.obj o) = o.size + 1 := by simp [Json.size, Nat.add_comm]
  have hw : wrapHitB o = false := by
    rw [wrapHitB]
    cases hv : o.hasKey "value" <;> cases hdv : o.hasKey "$value" <;>
      simp [hv, hdv] at h ⊢
  rw [autoFix, hs, autoFixF]
  simp [hw, h]

/-- C9: for a token-shaped node whose selected value is a non-numeric,
non-inferable string, with no `$type`, no legacy `type`, and no inherited
group type, `autoFix` sets `$type` to the literal string `"string"`, which
is not in the valid token-type vocabulary. -/
theorem c9_autoFix_string_type (o : JObj) (s : String)
    (hkey : (o.hasKey "value" || o.hasKey "$value") = true)
    (hval : (if o.hasKey "$value" then (o.get? "$value").getD .null
             else (o.get? "value").getD .null) = .str s)
    (ht : o.hasKey "$type" = false) (hlt : o.hasKey "type" = false)
    (hinfer : inferTokenType (.str s) = .null) :
    (autoFix (.obj o)).get? "$type" = some (.str "string") ∧
      VALID_TOKEN_TYPES.contains "string" = false := by
  constructor
  · rw [autoFix_token_case o .null hkey]
    rw [autoFixToken]
    have hv : tokVal (.obj o) = .str s := by
      rw [tokVal]
      simpa [Json.hasKey, Json.get?] using hval
    have hrt : tokRT (.obj o) .null = .null := by
      rw [tokRT]
      simp [Json.hasKey, Json.get?, ht, hlt, Json.truthy, hv, hinfer]
    have ht1 : tokT1 (tokRT (.obj o) .null) (tokVal (.obj o)) = .str "string" := by
      rw [hrt, hv, tokT1]
      simp [Json.truthy, Json.isNumTypeof]
    have hnk : (tokRest (.obj o)).hasKey "$type" = false := by
      rw [tokRest]
      cases hx : (o.filterKeys tokRestPred).hasKey "$type"
      · rfl
      · have := JObj.hasKey_filterKeys _ _ _ hx
        rw [tokRestPred] at this
        simp at this
    show JObj.get? "$type"
      ((JObj.cons "$value" (tokConv (tokRT (Json.obj o) Json.null) (tokVal (Json.obj o)))
        (JObj.cons "$type" (tokT1 (tokRT (Json.obj o) Json.null) (tokVal (Json.obj o)))
          (tokDesc (Json.obj o)))).assignAll (tokRest (Json.obj o))) = some (Json.str "string")
    rw [JObj.get?_assignAll_not_has _ _ _ hnk]
    rw [JObj.get?]
    simp only [show ("$value" = "$type") = False by simp, if_false]
    rw [JObj.get?, if_pos rfl, ht1]
  · rfl

/-- Witness for C9 at the concrete token `{value: "hello"}`. -/
theorem c9_witness :
    (autoFix (jobj [("value", .str "hello")])).get? "$type" = some (.str "string") ∧
      VALID_TOKEN_TYPES.contains "string" = false :=
  c9_autoFix_string_type (.cons "value" (.str "hello") .nil) "hello"
    (by decide) (by decide) (by decide) (by decide) (by decide)

/-! ### Claim C7 -/

/-- Skipping unapproved fixes is the same as filtering them away first. -/
theorem applyGo_filter (result : Json) : ∀ (fixes : List Fix),
    applyApprovedFixes.go result fixes =
      applyApprovedFixes.go result (fixes.filter (fun f => f.approved))
  | [] => rfl
  | fix :: rest => by
      cases ha : fix.approved
      · simp only [applyApprovedFixes.go, ha, Bool.not_false, if_true, List.filter]
        exact applyGo_filter result rest
      · simp only [applyApprovedFixes.go, ha, Bool.not_true, List.filter]
        simp only [Bool.false_eq_true, if_false]
        by_cases h1 : fix.type = "add-type"
        · simp only [h1, if_true]
          cases hw : addTypeWalk result ((splitDot fix.path).filter (fun p => !(p = "$")))
            ((fix.after.get? "$type").getD .null)
          · rfl
          · exact applyGo_filter _ rest
        · simp only [h1, if_false]
          by_cases h2 : fix.type = "flatten"
          · simp only [h2, if_true]
            cases hw : applyFlatten result ((splitDot fix.path).filter (fun p => !(p = "$")))
              fix.after
            · rfl
            · exact applyGo_filter _ rest
          · simp only [h2, if_false]
            exact applyGo_filter result rest

/-- With no approved fix, the loop returns its input unchanged. -/
theorem applyGo_none (result : Json) : ∀ (fixes : List Fix),
    (∀ f ∈ fixes, f.approved = false) → applyApprovedFixes.go result fixes = .ok result
  | [], _ => rfl
  | fix :: rest, h => by
      have ha : fix.approved = false := h fix (List.mem_cons_self _ _)
      simp only [applyApprovedFixes.go, ha, Bool.not_false, if_true]
      exact applyGo_none result rest (fun f hf => h f (List.mem_cons_of_mem _ hf))

/-- C7: `applyApprovedFixes` operates on a deep copy (the input argument is
never mutated — immediate in this pure embedding) and never applies a fix
whose `approved` field is false: the result only depends on the approved
sublist, and with no approved fix the returned tree equals the (NaN-free,
i.e. genuinely JSON) input document. -/
theorem c7_applyApprovedFixes_frame (doc : Json) (fixes : List Fix) :
    applyApprovedFixes doc fixes =
      applyApprovedFixes doc (fixes.filter (fun f => f.approved)) ∧
    ((∀ f ∈ fixes, f.approved = false) → nanFree doc = true →
      applyApprovedFixes doc fixes = .ok doc) := by
  constructor
  · rw [applyApprovedFixes, applyApprovedFixes, applyGo_filter]
  · intro hnone hnan
    rw [applyApprovedFixes, applyGo_none _ _ hnone, deepCopy_eq doc hnan]

/-- Witness for C7: an unapproved add-type fix leaves the document alone. -/
theorem c7_witness :
    applyApprovedFixes (jobj [("colors", jobj [("primary", jobj [("value", .str "#E00069")])])])
      [{ id := "fix-0", type := "add-type", path := "$.colors.primary",
         description := "Add missing $type: \"color\"",
         before := jobj [("value", .str "#E00069")],
         after := jobj [("value", .str "#E00069"), ("$type", .str "color")],
         approved := false }] =
    .ok (jobj [("colors", jobj [("primary", jobj [("value", .str "#E00069")])])]) :=
  (c7_applyApprovedFixes_frame _ _).2 (by decide) (by decide)

/-! ### Claim C10 -/

/-- Appending one add-type fix preserves "all fixes are add-type". -/
theorem addtype_append (fixes : List Fix) (n : Nat) (gn cp : String) (o : JObj) (it : String)
    (h : ∀ f ∈ fixes, f.type = "add-type") :
    ∀ f ∈ fixes ++ [mkAddTypeFix n gn cp o it], f.type = "add-type" := by
  intro f hf
  rcases List.mem_append.mp hf with h1 | h1
  · exact h f h1
  · simp at h1
    subst h1
    rfl

/- Every fix pushed by `collectMissingTypes` has type `"add-type"`. -/
mutual
theorem cmtFields_addtype : ∀ (o : JObj) (gn p : String) (fixes : List Fix),
    (∀ f ∈ fixes, f.type = "add-type") →
    ∀ f ∈ cmtFields gn p fixes o, f.type = "add-type"
  | .nil, _, _, _, h => h
  | .cons k (.obj o) rest, gn, p, fixes, h => by
      simp only [cmtFields]
      by_cases hk : strStarts k "$"
      · simp only [hk, if_true]
        exact cmtFields_addtype rest gn p fixes h
      · simp only [hk, Bool.false_eq_true, if_false]
        refine cmtFields_addtype rest gn p _ ?_
        by_cases h1 : (o.hasKey "value" && !(o.hasKey "$type")) = true
        · simp only [h1, if_true]
          cases hi : inferTokenType ((o.get? "value").getD .null) with
          | str it => exact addtype_append fixes _ _ _ _ _ h
          | null => exact h
          | bool b => exact h
          | num q => exact h
          | nan => exact h
          | arr a => exact h
          | obj oo => exact h
        · simp only [h1, Bool.false_eq_true, if_false]
          by_cases h2 : (!(o.hasKey "value") && !(o.hasKey "$type")) = true
          · simp only [h2, if_true]
            exact cmtFields_addtype o gn _ fixes h
          · simp only [h2, Bool.false_eq_true, if_false]
            exact h
  | .cons k (.arr a) rest, gn, p, fixes, h => by
      simp only [cmtFields]
      by_cases hk : strStarts k "$"
      · simp only [hk, if_true]
        exact cmtFields_addtype rest gn p fixes h
      · simp only [hk, Bool.false_eq_true, if_false]
        exact cmtFields_addtype rest gn p _ (cmtArr_addtype a gn _ 0 fixes h)
  | .cons k .null rest, gn, p, fixes, h => by
      simp only [cmtFields]
      exact cmtFields_addtype rest gn p fixes h
  | .cons k (.bool b) rest, gn, p, fixes, h => by
      simp only [cmtFields]
      exact cmtFields_addtype rest gn p fixes h
  | .cons k (.num q) rest, gn, p, fixes, h => by
      simp only [cmtFields]
      exact cmtFields_addtype rest gn p fixes h
  | .cons k .nan rest, gn, p, fixes, h => by
      simp only [cmtFields]
      exact cmtFields_addtype rest gn p fixes h
  | .cons k (.str s) rest, gn, p, fixes, h => by
      simp only [cmtFields]
      exact cmtFields_addtype rest gn p fixes h

theorem cmtArr_addtype : ∀ (a : JArr) (gn p : String) (idx : Nat) (fixes : List Fix),
    (∀ f ∈ fixes, f.type = "add-type") →
    ∀ f ∈ cmtArr gn p idx fixes a, f.type = "add-type"
  | .nil, _, _, _, _, h => h
  | .cons (.obj o) rest, gn, p, idx, fixes, h => by
      simp only [cmtArr]
      refine cmtArr_addtype rest gn p _ _ ?_
      by_cases h1 : (o.hasKey "value" && !(o.hasKey "$type")) = true
      · simp only [h1, if_true]
        cases hi : inferTokenType ((o.get? "value").getD .null) with
        | str it => exact addtype_append fixes _ _ _ _ _ h
        | null => exact h
        | bool b => exact h
        | num q => exact h
        | nan => exact h
        | arr a2 => exact h
        | obj oo => exact h
      · simp only [h1, Bool.false_eq_true, if_false]
        by_cases h2 : (!(o.hasKey "value") && !(o.hasKey "$type")) = true
        · simp only [h2, if_true]
          exact cmtFields_addtype o gn _ fixes h
        · simp only [h2, Bool.false_eq_true, if_false]
          exact h
  | .cons (.arr a2) rest, gn, p, idx, fixes, h => by
      simp only [cmtArr]
      exact cmtArr_addtype rest gn p _ _ (cmtArr_addtype a2 gn _ 0 fixes h)
  | .cons .null rest, gn, p, idx, fixes, h => by
      simp only [cmtArr]
      exact cmtArr_addtype rest gn p _ fixes h
  | .cons (.bool b) rest, gn, p, idx, fixes, h => by
      simp only [cmtArr]
      exact cmtArr_addtype rest gn p _ fixes h
  | .cons (.num q) rest, gn, p, idx, fixes, h => by
      simp only [cmtArr]
      exact cmtArr_addtype rest gn p _ fixes h
  | .cons .nan rest, gn, p, idx, fixes, h => by
      simp only [cmtArr]
      exact cmtArr_addtype rest gn p _ fixes h
  | .cons (.str s) rest, gn, p, idx, fixes, h => by
      simp only [cmtArr]
      exact cmtArr_addtype rest gn p _ fixes h
end

/-- `collectMissingTypes` preserves "all fixes are add-type". -/
theorem collectMissingTypes_addtype (group : Json) (gn p : String) (fixes : List Fix)
    (h : ∀ f ∈ fixes, f.type = "add-type") :
    ∀ l, collectMissingTypes group gn p fixes = .ok l → ∀ f ∈ l, f.type = "add-type" := by
  intro l hl
  cases group with
  | obj o =>
      rw [collectMissingTypes] at hl
      injection hl with hl
      subst hl
      exact cmtFields_addtype o gn p fixes h
  | arr a =>
      rw [collectMissingTypes] at hl
      injection hl with hl
      subst hl
      exact cmtArr_addtype a gn p 0 fixes h
  | null => exact absurd hl (by rw [collectMissingTypes]; simp)
  | bool b => rw [collectMissingTypes] at hl; injection hl with hl; subst hl; exact h
  | num q => rw [collectMissingTypes] at hl; injection hl with hl; subst hl; exact h
  | nan => rw [collectMissingTypes] at hl; injection hl with hl; subst hl; exact h
  | str s => rw [collectMissingTypes] at hl; injection hl with hl; subst hl; exact h

/-- `gfiStep` preserves "all fixes are add-type". -/
theorem gfiStep_addtype (acc : Except Unit (List Fix)) (gn : String) (group : Json)
    (h : ∀ l, acc = .ok l → ∀ f ∈ l, f.type = "add-type") :
    ∀ l, gfiStep acc gn group = .ok l → ∀ f ∈ l, f.type = "add-type" := by
  intro l hl
  rw [gfiStep] at hl
  cases hacc : acc with
  | error e =>
      rw [hacc] at hl
      exact absurd hl (by simp [Bind.bind, Except.bind])
  | ok fs =>
      rw [hacc] at hl
      simp only [Bind.bind, Except.bind] at hl
      have hfs := h fs hacc
      by_cases h1 : (DTCG_GROUPS.contains gn || gn = "brand") = true
      · rw [if_pos h1] at hl
        injection hl with hl
        subst hl
        exact hfs
      · rw [if_neg (by simpa using h1)] at hl
        by_cases h2 : (!group.isObjTypeof) = true
        · rw [if_pos h2] at hl
          injection hl with hl
          subst hl
          exact hfs
        · rw [if_neg (by simpa using h2)] at hl
          exact collectMissingTypes_addtype group gn "" fs hfs l hl

/-- The field loop of `getFixableIssues` preserves "all fixes are
add-type". -/
theorem gfiFields_addtype : ∀ (o : JObj) (acc : Except Unit (List Fix)),
    (∀ l, acc = .ok l → ∀ f ∈ l, f.type = "add-type") →
    ∀ l, gfiFields acc o = .ok l → ∀ f ∈ l, f.type = "add-type"
  | .nil, _, h => h
  | .cons k v rest, acc, h =>
      gfiFields_addtype rest (gfiStep acc k v) (gfiStep_addtype acc k v h)

/-- The array loop of `getFixableIssues` preserves "all fixes are
add-type". -/
theorem gfiArr_addtype : ∀ (a : JArr) (acc : Except Unit (List Fix)) (idx : Nat),
    (∀ l, acc = .ok l → ∀ f ∈ l, f.type = "add-type") →
    ∀ l, gfiArr acc idx a = .ok l → ∀ f ∈ l, f.type = "add-type"
  | .nil, _, _, h => h
  | .cons v rest, acc, idx, h =>
      gfiArr_addtype rest (gfiStep acc (natToStr idx) v) (idx + 1)
        (gfiStep_addtype acc (natToStr idx) v h)

/-- Projection of a fix to its claim-relevant content. -/
def fixProj (f : Fix) : String × Json × Json := (f.path, f.before, f.after)

/-- Projection of a structure issue to its claim-relevant content. -/
def issueProj (i : StructureIssue) : String × Json × Json :=
  (i.path, i.originalStructure, i.flattenedStructure)

/-- The flatten fixes appended by `flattenFixes` are exactly the
autoFixable issues, up to ids. -/
theorem flattenFixes_filter : ∀ (issues : List StructureIssue) (fixes : List Fix),
    ((flattenFixes fixes issues).filter (fun f => f.type = "flatten")).map fixProj =
      (fixes.filter (fun f => f.type = "flatten")).map fixProj ++
        (issues.filter (fun i => i.autoFixable)).map issueProj
  | [], fixes => by simp [flattenFixes]
  | issue :: rest, fixes => by
      rw [flattenFixes]
      by_cases ha : issue.autoFixable
      · rw [if_pos ha, flattenFixes_filter rest]
        simp [ha, List.filter_append, fixProj, issueProj]
      · rw [if_neg (by simpa using ha), flattenFixes_filter rest]
        simp [ha]

/-- Filtering for flatten in an all-add-type list gives nothing. -/
theorem filter_flatten_addtype (l : List Fix) (h : ∀ f ∈ l, f.type = "add-type") :
    l.filter (fun f => f.type = "flatten") = [] := by
  rw [List.filter_eq_nil_iff]
  intro f hf
  have := h f hf
  simp [this]

/-- `getFixableIssues` splits into an all-add-type document part followed
by the flatten fixes of the issue-state parameter. -/
theorem getFixableIssues_split (doc : Json) (issues : List StructureIssue) (fixes : List Fix)
    (h : getFixableIssues doc issues = .ok fixes) :
    ∃ fs, fixes = flattenFixes fs issues ∧ ∀ f ∈ fs, f.type = "add-type" := by
  cases doc with
  | obj o =>
      rw [getFixableIssues] at h
      simp only [Bind.bind, Except.bind] at h
      cases hp : gfiFields (.ok []) o with
      | error e => rw [hp] at h; exact absurd h (by simp)
      | ok fs =>
          rw [hp] at h
          injection h with h
          exact ⟨fs, h.symm, gfiFields_addtype o _ (by rintro l ⟨rfl⟩; intro f hf; cases hf) fs hp⟩
  | arr a =>
      rw [getFixableIssues] at h
      simp only [Bind.bind, Except.bind] at h
      cases hp : gfiArr (.ok []) 0 a with
      | error e => rw [hp] at h; exact absurd h (by simp)
      | ok fs =>
          rw [hp] at h
          injection h with h
          exact ⟨fs, h.symm, gfiArr_addtype a _ 0 (by rintro l ⟨rfl⟩; intro f hf; cases hf) fs hp⟩
  | null =>
      rw [getFixableIssues] at h
      · simp only [Bind.bind, Except.bind] at h
        injection h with h
        exact ⟨[], h.symm, by intro f hf; cases hf⟩
      · intro x he; cases he
      · intro x he; cases he
  | bool b =>
      rw [getFixableIssues] at h
      · simp only [Bind.bind, Except.bind] at h
        injection h with h
        exact ⟨[], h.symm, by intro f hf; cases hf⟩
      · intro x he; cases he
      · intro x he; cases he
  | num q =>
      rw [getFixableIssues] at h
      · simp only [Bind.bind, Except.bind] at h
        injection h with h
        exact ⟨[], h.symm, by intro f hf; cases hf⟩
      · intro x he; cases he
      · intro x he; cases he
  | nan =>
      rw [getFixableIssues] at h
      · simp only [Bind.bind, Except.bind] at h
        injection h with h
        exact ⟨[], h.symm, by intro f hf; cases hf⟩
      · intro x he; cases he
      · intro x he; cases he
  | str s =>
      rw [getFixableIssues] at h
      · simp only [Bind.bind, Except.bind] at h
        injection h with h
        exact ⟨[], h.symm, by intro f hf; cases hf⟩
      · intro x he; cases he
      · intro x he; cases he

/-- C10: `getFixableIssues` produces flatten fixes only from the
structure-issue state of the validator instance (the explicit
`structureIssues` parameter here), not from its document argument: the
flatten-typed fixes project exactly onto the autoFixable issues of that
state, and with the empty state of a freshly constructed validator every
produced fix has type `"add-type"`, for every document. -/
theorem c10_getFixableIssues_state :
    (∀ (doc : Json) (fixes : List Fix), getFixableIssues doc [] = .ok fixes →
      ∀ f ∈ fixes, f.type = "add-type") ∧
    (∀ (doc : Json) (issues : List StructureIssue) (fixes : List Fix),
      getFixableIssues doc issues = .ok fixes →
      (fixes.filter (fun f => f.type = "flatten")).map fixProj =
        (issues.filter (fun i => i.autoFixable)).map issueProj) := by
  constructor
  · intro doc fixes h
    obtain ⟨fs, rfl, hfs⟩ := getFixableIssues_split doc [] fixes h
    exact hfs
  · intro doc issues fixes h
    obtain ⟨fs, rfl, hfs⟩ := getFixableIssues_split doc issues fixes h
    rw [flattenFixes_filter, filter_flatten_addtype fs hfs]
    simp

/-- Witness for C10: a fresh validator yields only add-type fixes. -/
theorem c10_witness :
    ∀ f ∈ [mkAddTypeFix 0 "colors" "primary" (.cons "value" (.str "#E00069") .nil) "color"],
      f.type = "add-type" :=
  c10_getFixableIssues_state.1
    (jobj [("colors", jobj [("primary", jobj [("value", .str "#E00069")])])]) _ rfl

/-! ### Claim C8 -/

/-- A nonempty chomped prefix means the list starts with a matching
character. -/
theorem chompWhile_fst_ne_nil (p : Char → Bool) :
    ∀ (l : List Char), ¬((chompWhile p l).1 = []) → ∃ c cs, l = c :: cs ∧ p c = true
  | [], h => absurd rfl h
  | c :: cs, h => by
      by_cases hp : p c
      · exact ⟨c, cs, rfl, hp⟩
      · rw [chompWhile, if_neg (by simpa using hp)] at h
        exact absurd rfl h

/-- A successful `numTail` means a leading digit. -/
theorem numTail_head (cs : List Char) (r : List Char) (h : numTail cs = some r) :
    ∃ c cs2, cs = c :: cs2 ∧ isDigitC c = true := by
  rw [numTail] at h
  by_cases hd : (chompWhile isDigitC cs).1 = []
  · rw [if_pos hd] at h
    cases h
  · exact chompWhile_fst_ne_nil isDigitC cs hd

/-- A match of an anchored pattern on a string not starting with `-`
exposes the numeric tail. -/
theorem numSuffixPat_tail (neg : Bool) (sfx : List String) (s : String)
    (h : numSuffixPat neg sfx s = true) (hns : ∀ cs, ¬(s.toList = '-' :: cs)) :
    ∃ r2, numTail s.toList = some r2 ∧ sfx.any (fun suf => String.mk r2 = suf) = true := by
  rw [numSuffixPat] at h
  cases hl : s.toList with
  | nil =>
      rw [hl] at h
      simp only [numTail, chompWhile] at h
      simp at h
  | cons c cs =>
      rw [hl] at h
      have hc : ¬(c = '-') := fun he => hns cs (by rw [hl, he])
      simp only [hc, if_false] at h
      rw [← hl] at h ⊢
      cases hnt : numTail s.toList with
      | none => rw [hnt] at h; cases h
      | some r2 => rw [hnt] at h; exact ⟨r2, rfl, h⟩

/-- Without a leading minus, a negatively-signed match is impossible for a
non-negative pattern. -/
theorem numSuffixPat_neg_head (sfx : List String) (s : String) (cs : List Char)
    (h : s.toList = '-' :: cs) : numSuffixPat false sfx s = false := by
  rw [numSuffixPat, h]
  simp

/-- Any match starts with a digit or (for negative patterns) a minus. -/
theorem numSuffixPat_head (neg : Bool) (sfx : List String) (s : String)
    (h : numSuffixPat neg sfx s = true) :
    ∃ c cs, s.toList = c :: cs ∧ (isDigitC c = true ∨ c = '-') := by
  cases hl : s.toList with
  | nil =>
      rw [numSuffixPat, hl] at h
      simp only [numTail, chompWhile] at h
      simp at h
  | cons c cs =>
      by_cases hc : c = '-'
      · exact ⟨c, cs, rfl, Or.inr hc⟩
      · have := numSuffixPat_tail neg sfx s h (fun cs2 he => hc (List.cons.inj (hl ▸ he)).1)
        obtain ⟨r2, hr, _⟩ := this
        obtain ⟨c2, cs2, he, hd⟩ := numTail_head s.toList r2 hr
        rw [hl] at he
        injection he with h1 _
        exact ⟨c, cs, rfl, Or.inl (h1 ▸ hd)⟩

/-- Two anchored patterns matching the same minus-free string share a
suffix. -/
theorem numSuffixPat_common (n1 n2 : Bool) (sf1 sf2 : List String) (s : String)
    (h1 : numSuffixPat n1 sf1 s = true) (h2 : numSuffixPat n2 sf2 s = true)
    (hns : ∀ cs, ¬(s.toList = '-' :: cs)) : ∃ u, u ∈ sf1 ∧ u ∈ sf2 := by
  obtain ⟨r1, hr1, ha1⟩ := numSuffixPat_tail n1 sf1 s h1 hns
  obtain ⟨r2, hr2, ha2⟩ := numSuffixPat_tail n2 sf2 s h2 hns
  rw [hr1] at hr2
  injection hr2 with hr
  subst hr
  obtain ⟨u1, hu1, he1⟩ := List.any_eq_true.mp ha1
  obtain ⟨u2, hu2, he2⟩ := List.any_eq_true.mp ha2
  have e1 : String.mk r1 = u1 := of_decide_eq_true he1
  have e2 : String.mk r1 = u2 := of_decide_eq_true he2
  exact ⟨u1, hu1, by rw [← e1, e2]; exact hu2⟩

/-- A string starting with a digit or a minus matches neither `#` nor the
`rgb` prefix. -/
theorem hash_rgb_false (s : String) (c : Char) (cs : List Char)
    (hl : s.toList = c :: cs) (hc : isDigitC c = true ∨ c = '-') :
    (strStarts s "#" || rgbRegexJS s) = false := by
  have hne1 : ¬('#' = c) := by
    intro he
    rcases hc with hd | hm
    · rw [← he] at hd; exact absurd hd (by decide)
    · rw [← he] at hm; exact absurd hm (by decide)
  have hne2 : ¬('r' = c) := by
    intro he
    rcases hc with hd | hm
    · rw [← he] at hd; exact absurd hd (by decide)
    · rw [← he] at hm; exact absurd hm (by decide)
  rw [strStarts, rgbRegexJS, strStarts]
  rw [show ("#".toList) = ['#'] from rfl, show ("rgb".toList) = ['r', 'g', 'b'] from rfl, hl]
  simp [List.isPrefixOf, hne1, hne2]

/-- The head of a dimension/numeric (non-negative) match is a digit. -/
theorem nonneg_head_digit (sfx : List String) (s : String)
    (h : numSuffixPat false sfx s = true) :
    ∃ c cs, s.toList = c :: cs ∧ isDigitC c = true := by
  obtain ⟨c, cs, hl, hd⟩ := numSuffixPat_head false sfx s h
  rcases hd with hd | hm
  · exact ⟨c, cs, hl, hd⟩
  · rw [hm] at hl
    rw [numSuffixPat_neg_head sfx s cs hl] at h
    cases h

/-- C8: `inferTokenType` returns `color` for strings starting with `#` or
an `rgb` prefix; `dimension` for `<number><unit>` strings over the standard
unit set; `duration` for `<number>(ms|s)` strings; `opacity`/`number` for
bare numeric strings and numbers according to whether the value is at most
1; and `null` when no heuristic matches. -/
theorem c8_inferTokenType_characterization :
    (∀ s : String, (strStarts s "#" || rgbRegexJS s) = true →
        inferTokenType (.str s) = .str "color") ∧
    (∀ s : String, dimRegexJS s = true → inferTokenType (.str s) = .str "dimension") ∧
    (∀ s : String, durRegexJS s = true → inferTokenType (.str s) = .str "duration") ∧
    (∀ (s : String) (q : JNum), numericRegexJS s = true → parseFloatJS s = some q →
        inferTokenType (.str s) =
          .str (if q.jle (JNum.ofInt 1) then "opacity" else "number")) ∧
    (∀ q : JNum, inferTokenType (.num q) =
        .str (if q.jle (JNum.ofInt 1) then "opacity" else "number")) ∧
    (∀ s : String, (strStarts s "#" || rgbRegexJS s) = false → dimRegexJS s = false →
        durRegexJS s = false → numericRegexJS s = false →
        inferTokenType (.str s) = .null) ∧
    (inferTokenType .null = .null ∧ (∀ b, inferTokenType (.bool b) = .null) ∧
      (∀ a, inferTokenType (.arr a) = .null) ∧ (∀ o, inferTokenType (.obj o) = .null)) := by
  have hdim_head := fun s h => nonneg_head_digit dimUnitList s h
  refine ⟨?_, ?_, ?_, ?_, ?_, ?_, rfl, fun b => rfl, fun a => rfl, fun o => rfl⟩
  · intro s h
    rw [inferTokenType]
    simp [h]
  · intro s h
    obtain ⟨c, cs, hl, hd⟩ := nonneg_head_digit dimUnitList s h
    have hh := hash_rgb_false s c cs hl (Or.inl hd)
    rw [inferTokenType]
    simp [hh, h]
  · intro s h
    obtain ⟨c, cs, hl, hd⟩ := numSuffixPat_head true ["ms", "s"] s h
    have hh := hash_rgb_false s c cs hl hd
    have hdim : dimRegexJS s = false := by
      cases hd0 : dimRegexJS s
      · rfl
      · exfalso
        obtain ⟨c2, cs2, hl2, hd2⟩ := nonneg_head_digit dimUnitList s hd0
        have hns : ∀ cs3, ¬(s.toList = '-' :: cs3) := by
          intro cs3 he
          rw [hl2] at he
          have h1 := (List.cons.inj he).1
          rw [h1] at hd2
          exact absurd hd2 (by decide)
        obtain ⟨u, hu1, hu2⟩ := numSuffixPat_common false true dimUnitList ["ms", "s"] s hd0 h hns
        simp only [List.mem_cons, List.mem_singleton] at hu2
        rcases hu2 with rfl | rfl | hu2
        · revert hu1; decide
        · revert hu1; decide
        · cases hu2
    rw [inferTokenType]
    simp [hh, hdim, h]
  · intro s q h hq
    obtain ⟨c, cs, hl, hd⟩ := nonneg_head_digit [""] s h
    have hh := hash_rgb_false s c cs hl (Or.inl hd)
    have hns : ∀ cs3, ¬(s.toList = '-' :: cs3) := by
      intro cs3 he
      rw [hl] at he
      have h1 := (List.cons.inj he).1
      rw [h1] at hd
      exact absurd hd (by decide)
    have hdim : dimRegexJS s = false := by
      cases hd0 : dimRegexJS s
      · rfl
      · exfalso
        obtain ⟨u, hu1, hu2⟩ := numSuffixPat_common false false dimUnitList [""] s hd0 h hns
        simp only [List.mem_singleton] at hu2
        subst hu2
        revert hu1; decide
    have hdur : durRegexJS s = false := by
      cases hd0 : durRegexJS s
      · rfl
      · exfalso
        obtain ⟨u, hu1, hu2⟩ := numSuffixPat_common true false ["ms", "s"] [""] s hd0 h hns
        simp only [List.mem_singleton] at hu2
        subst hu2
        simp at hu1
    rw [inferTokenType]
    simp only [hh, hdim, hdur, h, hq, Bool.false_eq_true, if_false, if_true]
    by_cases hle : q.jle (JNum.ofInt 1) = true
    · simp [hle]
    · simp [hle]
  · intro q
    rw [inferTokenType]
    by_cases hq : q.jle (JNum.ofInt 1) = true
    · simp [hq]
    · simp [hq]
  · intro s h1 h2 h3 h4
    rw [inferTokenType]
    simp [h1, h2, h3, h4]

/-- Witness for C8 at concrete inputs of each class. -/
theorem c8_witness :
    inferTokenType (.str "rgb(1,2,3)") = .str "color" ∧
    inferTokenType (.str "16px") = .str "dimension" ∧
    inferTokenType (.str "250ms") = .str "duration" ∧
    inferTokenType (.str "0.5") = .str "opacity" ∧
    inferTokenType (.num ⟨5, 1⟩) = .str "number" ∧
    inferTokenType (.str "hello") = .null :=
  ⟨c8_inferTokenType_characterization.1 "rgb(1,2,3)" (by decide),
   c8_inferTokenType_characterization.2.1 "16px" (by decide),
   c8_inferTokenType_characterization.2.2.1 "250ms" (by decide),
   c8_inferTokenType_characterization.2.2.2.1 "0.5" ⟨5, 10⟩ (by decide) (by decide),
   c8_inferTokenType_characterization.2.2.2.2.1 ⟨5, 1⟩,
   c8_inferTokenType_characterization.2.2.2.2.2.1 "hello" (by decide) (by decide)
     (by decide) (by decide)⟩

/-! ### Claim C4 -/

/-- Characterization of the `hasNestedTokens` check on null-free children:
it reports `true` exactly when some listed key holds an object child with a
`value` or `$type` key. -/
theorem hasNT_iff (o : JObj) : ∀ (keys : List String),
    (∀ k ∈ keys, ∀ v, o.get? k = some v → ¬(v = .null)) →
    (hasNT o keys = .ok true ↔
      ∃ k ∈ keys, ∃ c, o.get? k = some (.obj c) ∧
        (c.hasKey "value" || c.hasKey "$type") = true)
  | [], _ => by
      rw [hasNT]
      constructor
      · intro h; cases h
      · rintro ⟨k, hk, _⟩; cases hk
  | k :: ks, hnn => by
      rw [hasNT]
      have ihyp : ∀ k2 ∈ ks, ∀ v, o.get? k2 = some v → ¬(v = .null) :=
        fun k2 hk2 => hnn k2 (List.mem_cons_of_mem _ hk2)
      have ih := hasNT_iff o ks ihyp
      cases hg : o.get? k with
      | none =>
          rw [ih]
          constructor
          · rintro ⟨k2, hk2, hrest⟩
            exact ⟨k2, List.mem_cons_of_mem _ hk2, hrest⟩
          · rintro ⟨k2, hk2, c, hc, hval⟩
            rcases List.mem_cons.mp hk2 with rfl | hk2
            · rw [hg] at hc; cases hc
            · exact ⟨k2, hk2, c, hc, hval⟩
      | some v =>
          cases v with
          | null => exact absurd rfl (hnn k (List.mem_cons_self _ _) .null hg)
          | obj c =>
              by_cases hv : (c.hasKey "value" || c.hasKey "$type") = true
              · simp only [hv, if_true]
                constructor
                · intro _
                  exact ⟨k, List.mem_cons_self _ _, c, hg, hv⟩
                · intro _; trivial
              · simp only [hv, Bool.false_eq_true, if_false]
                rw [ih]
                constructor
                · rintro ⟨k2, hk2, hrest⟩
                  exact ⟨k2, List.mem_cons_of_mem _ hk2, hrest⟩
                · rintro ⟨k2, hk2, c2, hc2, hval2⟩
                  rcases List.mem_cons.mp hk2 with rfl | hk2
                  · rw [hg] at hc2
                    injection hc2 with he
                    injection he with he2
                    subst he2
                    exact absurd hval2 hv
                  · exact ⟨k2, hk2, c2, hc2, hval2⟩
          | bool b =>
              rw [ih]
              constructor
              · rintro ⟨k2, hk2, hrest⟩
                exact ⟨k2, List.mem_cons_of_mem _ hk2, hrest⟩
              · rintro ⟨k2, hk2, c2, hc2, hval2⟩
                rcases List.mem_cons.mp hk2 with rfl | hk2
                · rw [hg] at hc2; cases hc2
                · exact ⟨k2, hk2, c2, hc2, hval2⟩
          | num q =>
              rw [ih]
              constructor
              · rintro ⟨k2, hk2, hrest⟩
                exact ⟨k2, List.mem_cons_of_mem _ hk2, hrest⟩
              · rintro ⟨k2, hk2, c2, hc2, hval2⟩
                rcases List.mem_cons.mp hk2 with rfl | hk2
                · rw [hg] at hc2; cases hc2
                · exact ⟨k2, hk2, c2, hc2, hval2⟩
          | nan =>
              rw [ih]
              constructor
              · rintro ⟨k2, hk2, hrest⟩
                exact ⟨k2, List.mem_cons_of_mem _ hk2, hrest⟩
              · rintro ⟨k2, hk2, c2, hc2, hval2⟩
                rcases List.mem_cons.mp hk2 with rfl | hk2
                · rw [hg] at hc2; cases hc2
                · exact ⟨k2, hk2, c2, hc2, hval2⟩
          | str s =>
              rw [ih]
              constructor
              · rintro ⟨k2, hk2, hrest⟩
                exact ⟨k2, List.mem_cons_of_mem _ hk2, hrest⟩
              · rintro ⟨k2, hk2, c2, hc2, hval2⟩
                rcases List.mem_cons.mp hk2 with rfl | hk2
                · rw [hg] at hc2; cases hc2
                · exact ⟨k2, hk2, c2, hc2, hval2⟩
          | arr a =>
              rw [ih]
              constructor
              · rintro ⟨k2, hk2, hrest⟩
                exact ⟨k2, List.mem_cons_of_mem _ hk2, hrest⟩
              · rintro ⟨k2, hk2, c2, hc2, hval2⟩
                rcases List.mem_cons.mp hk2 with rfl | hk2
                · rw [hg] at hc2; cases hc2
                · exact ⟨k2, hk2, c2, hc2, hval2⟩

/-- Appending the dot-joined child name strictly lengthens an issue path
prefix. -/
theorem len_lt_deeper (g p t : String) :
    ("$." ++ g ++ "." ++ p).length < ("$." ++ g ++ "." ++ (p ++ "." ++ t)).length := by
  simp only [String.length_append]
  have : (".").length = 1 := rfl
  omega

/-- A dot-joined path is never the empty string. -/
theorem dotjoin_ne_empty (p t : String) : ¬(p ++ "." ++ t = "") := by
  intro he
  have := congrArg String.length he
  simp only [String.length_append] at this
  have h1 : (".").length = 1 := rfl
  have h2 : ("" : String).length = 0 := rfl
  omega

/-- Transport of the path-length invariant through `atgCombine`. -/
theorem atgCombine_len (hnt : Except Unit Bool) (here : StructureIssue)
    (deeper siblings : Except Unit (List StructureIssue)) (n : Nat)
    (l : List StructureIssue)
    (hhere : n < here.path.length)
    (hdeep : ∀ ds, deeper = .ok ds → ∀ i ∈ ds, n < i.path.length)
    (hsib : ∀ ms, siblings = .ok ms → ∀ i ∈ ms, n < i.path.length)
    (hl : atgCombine hnt here deeper siblings = .ok l) :
    ∀ i ∈ l, n < i.path.length := by
  intro i hi
  cases hnt with
  | error e => cases hl
  | ok b =>
      cases b with
      | true =>
          cases hsb : siblings with
          | error e => rw [hsb] at hl; cases hl
          | ok more =>
              rw [hsb] at hl
              rw [atgCombine] at hl
              injection hl with hl
              subst hl
              rcases List.mem_cons.mp hi with rfl | hi
              · exact hhere
              · exact hsib more hsb i hi
      | false =>
          cases hdp : deeper with
          | error e => rw [hdp] at hl; cases hl
          | ok ds =>
              cases hsb : siblings with
              | error e => rw [hdp, hsb] at hl; cases hl
              | ok more =>
                  rw [hdp, hsb, atgCombine] at hl
                  injection hl with hl
                  subst hl
                  rcases List.mem_append.mp hi with hi | hi
                  · exact hdeep ds hdp i hi
                  · exact hsib more hsb i hi

/-- Transport of the path-length invariant through `atgObjStep`. -/
theorem atgObjStep_len (g t cp : String) (o : JObj)
    (deeper siblings : Except Unit (List StructureIssue)) (n : Nat)
    (l : List StructureIssue)
    (hcp : n < ("$." ++ g ++ "." ++ cp).length)
    (hdeep : ∀ ds, deeper = .ok ds → ∀ i ∈ ds, n < i.path.length)
    (hsib : ∀ ms, siblings = .ok ms → ∀ i ∈ ms, n < i.path.length)
    (hl : atgObjStep g t cp o deeper siblings = .ok l) :
    ∀ i ∈ l, n < i.path.length := by
  rw [atgObjStep] at hl
  by_cases h1 : (!(o.hasKey "value") && !(o.hasKey "$type")) = true
  · rw [if_pos h1] at hl
    by_cases h2 : ((o.keys.filter (fun k => !strStarts k "$")).length > 0)
    · rw [if_pos h2] at hl
      exact atgCombine_len _ _ _ _ n l (by simpa [mkNestedIssue] using hcp) hdeep hsib hl
    · rw [if_neg h2] at hl
      exact hsib l hl
  · rw [if_neg h1] at hl
    exact hsib l hl

/-- Transport of the path-length invariant through `atgArrStep`. -/
theorem atgArrStep_len (g t cp : String) (a : JArr)
    (deeper siblings : Except Unit (List StructureIssue)) (n : Nat)
    (l : List StructureIssue)
    (hcp : n < ("$." ++ g ++ "." ++ cp).length)
    (hdeep : ∀ ds, deeper = .ok ds → ∀ i ∈ ds, n < i.path.length)
    (hsib : ∀ ms, siblings = .ok ms → ∀ i ∈ ms, n < i.path.length)
    (hl : atgArrStep g t cp a deeper siblings = .ok l) :
    ∀ i ∈ l, n < i.path.length := by
  rw [atgArrStep] at hl
  by_cases h2 : ((arrIndexKeys 0 a).length > 0)
  · rw [if_pos h2] at hl
    exact atgCombine_len _ _ _ _ n l (by simpa [mkNestedIssue] using hcp) hdeep hsib hl
  · rw [if_neg h2] at hl
    exact hsib l hl

/- Every issue produced by the analyzer below a non-empty path is strictly
longer than the path prefix `$.<group>.<path>`. -/
mutual
theorem atgFields_path_len : ∀ (o : JObj) (g p : String) (l : List StructureIssue),
    ¬(p = "") → atgFields g p o = .ok l →
    ∀ i ∈ l, ("$." ++ g ++ "." ++ p).length < i.path.length
  | .nil, g, p, l, _, hl => by
      injection hl with hl
      subst hl
      intro i hi
      cases hi
  | .cons tokenName (.obj o) rest, g, p, l, hp, hl => by
      rw [atgFields] at hl
      by_cases hk : strStarts tokenName "$"
      · rw [if_pos hk] at hl
        exact atgFields_path_len rest g p l hp hl
      · rw [if_neg (by simpa using hk), childPath, if_neg hp] at hl
        refine atgObjStep_len g tokenName _ o _ _ _ l (len_lt_deeper g p tokenName) ?_ ?_ hl
        · intro ds hds i hi
          have := atgFields_path_len o g (p ++ "." ++ tokenName) ds
            (dotjoin_ne_empty p tokenName) hds i hi
          have h2 := len_lt_deeper g p tokenName
          omega
        · intro ms hms
          exact atgFields_path_len rest g p ms hp hms
  | .cons tokenName (.arr a) rest, g, p, l, hp, hl => by
      rw [atgFields] at hl
      by_cases hk : strStarts tokenName "$"
      · rw [if_pos hk] at hl
        exact atgFields_path_len rest g p l hp hl
      · rw [if_neg (by simpa using hk), childPath, if_neg hp] at hl
        refine atgArrStep_len g tokenName _ a _ _ _ l (len_lt_deeper g p tokenName) ?_ ?_ hl
        · intro ds hds i hi
          have := atgArr_path_len a g (p ++ "." ++ tokenName) 0 ds
            (dotjoin_ne_empty p tokenName) hds i hi
          have h2 := len_lt_deeper g p tokenName
          omega
        · intro ms hms
          exact atgFields_path_len rest g p ms hp hms
  | .cons tokenName .null rest, g, p, l, hp, hl =>
      atgFields_path_len rest g p l hp (by rw [atgFields] at hl; exact hl)
  | .cons tokenName (.bool b) rest, g, p, l, hp, hl =>
      atgFields_path_len rest g p l hp (by rw [atgFields] at hl; exact hl)
  | .cons tokenName (.num q) rest, g, p, l, hp, hl =>
      atgFields_path_len rest g p l hp (by rw [atgFields] at hl; exact hl)
  | .cons tokenName .nan rest, g, p, l, hp, hl =>
      atgFields_path_len rest g p l hp (by rw [atgFields] at hl; exact hl)
  | .cons tokenName (.str s) rest, g, p, l, hp, hl =>
      atgFields_path_len rest g p l hp (by rw [atgFields] at hl; exact hl)

theorem atgArr_path_len : ∀ (a : JArr) (g p : String) (idx : Nat) (l : List StructureIssue),
    ¬(p = "") → atgArr g p idx a = .ok l →
    ∀ i ∈ l, ("$." ++ g ++ "." ++ p).length < i.path.length
  | .nil, g, p, idx, l, _, hl => by
      injection hl with hl
      subst hl
      intro i hi
      cases hi
  | .cons (.obj o) rest, g, p, idx, l, hp, hl => by
      rw [atgArr, childPath, if_neg hp] at hl
      refine atgObjStep_len g (natToStr idx) _ o _ _ _ l (len_lt_deeper g p (natToStr idx)) ?_ ?_ hl
      · intro ds hds i hi
        have := atgFields_path_len o g (p ++ "." ++ natToStr idx) ds
          (dotjoin_ne_empty p (natToStr idx)) hds i hi
        have h2 := len_lt_deeper g p (natToStr idx)
        omega
      · intro ms hms
        exact atgArr_path_len rest g p (idx + 1) ms hp hms
  | .cons (.arr a2) rest, g, p, idx, l, hp, hl => by
      rw [atgArr, childPath, if_neg hp] at hl
      refine atgArrStep_len g (natToStr idx) _ a2 _ _ _ l (len_lt_deeper g p (natToStr idx)) ?_ ?_ hl
      · intro ds hds i hi
        have := atgArr_path_len a2 g (p ++ "." ++ natToStr idx) 0 ds
          (dotjoin_ne_empty p (natToStr idx)) hds i hi
        have h2 := len_lt_deeper g p (natToStr idx)
        omega
      · intro ms hms
        exact atgArr_path_len rest g p (idx + 1) ms hp hms
  | .cons .null rest, g, p, idx, l, hp, hl =>
      atgArr_path_len rest g p (idx + 1) l hp (by rw [atgArr] at hl; exact hl)
  | .cons (.bool b) rest, g, p, idx, l, hp, hl =>
      atgArr_path_len rest g p (idx + 1) l hp (by rw [atgArr] at hl; exact hl)
  | .cons (.num q) rest, g, p, idx, l, hp, hl =>
      atgArr_path_len rest g p (idx + 1) l hp (by rw [atgArr] at hl; exact hl)
  | .cons .nan rest, g, p, idx, l, hp, hl =>
      atgArr_path_len rest g p (idx + 1) l hp (by rw [atgArr] at hl; exact hl)
  | .cons (.str s) rest, g, p, idx, l, hp, hl =>
      atgArr_path_len rest g p (idx + 1) l hp (by rw [atgArr] at hl; exact hl)
end

/-- The nested-scenario document of C4. -/
def c4ScenarioDoc : Json :=
  jobj [("colors", jobj [("brand",
    jobj [("hover", jobj [("$value", .str "#111"), ("$type", .str "color")])])])]

/-- C4 counterexample: a group-shaped node that lacks both value keys but
carries `$type` is skipped by the analyzer even though one of its non-`$`
children is an object with a `value` key, so no `NESTED_TOKENS` issue is
produced although the claim requires one. -/
theorem c4_counterexample :
    (validate (jobj [("colors", jobj [("brand",
        jobj [("$type", .str "color"), ("hover", jobj [("value", .str "#111")])])])])).map
      (fun r => r.structureIssues) = .ok (some []) := rfl

/-- C4 (amended): for a non-empty, non-`$` child key holding a non-null
object whose own children are null-free, the analyzer flags a
`NESTED_TOKENS` issue at the node (rather than recursing into it) exactly
when the node lacks both the `value` key and the `$type` key (the source
tests these two, not `$value`, and a `$type` on the node suppresses
detection entirely) and at least one of its non-`$` children is an object
carrying a `value` or `$type` key (a child with only `$value` does not
count); and the claim's own scenario holds: the brand/hover document
yields exactly one `NESTED_TOKENS` issue at `$.colors.brand` whose
flattened structure uses the hyphen-joined key `brand-hover`, with zero
errors. -/
theorem c4_amended :
    (∀ (g tokenName : String) (o : JObj) (l : List StructureIssue),
      ¬(strStarts tokenName "$" = true) → ¬(tokenName = "") →
      (∀ k v, o.get? k = some v → ¬(v = .null)) →
      atgFields g "" (.cons tokenName (.obj o) .nil) = .ok l →
      ((∃ i ∈ l, i.path = "$." ++ g ++ "." ++ tokenName) ↔
        (o.hasKey "value" = false ∧ o.hasKey "$type" = false ∧
         ∃ k ∈ o.keys.filter (fun k2 => !strStarts k2 "$"),
           ∃ c, o.get? k = some (.obj c) ∧
             (c.hasKey "value" || c.hasKey "$type") = true))) ∧
    (validate c4ScenarioDoc).map (fun r =>
        (r.structureIssues.map (fun il => il.map (fun i =>
          (i.path, i.issue, i.autoFixable,
           (match i.flattenedStructure with
            | .obj fo => fo.keys
            | _ => [])))), r.errors.length)) =
      .ok (some [("$.colors.brand", "NESTED_TOKENS", true, ["brand-hover"])], 0) := by
  constructor
  · intro g t o l hk hne hnn hl
    rw [atgFields, if_neg (by simpa using hk)] at hl
    have hcp : childPath "" t = t := by rw [childPath]; simp
    rw [hcp] at hl
    have hsibnil : atgFields g "" JObj.nil = .ok [] := rfl
    rw [hsibnil] at hl
    rw [atgObjStep] at hl
    by_cases h1 : (!(o.hasKey "value") && !(o.hasKey "$type")) = true
    · rw [if_pos h1] at hl
      have hv : o.hasKey "value" = false := by
        rcases Bool.and_eq_true_iff.mp h1 with ⟨ha, _⟩
        simpa using ha
      have ht : o.hasKey "$type" = false := by
        rcases Bool.and_eq_true_iff.mp h1 with ⟨_, hb⟩
        simpa using hb
      by_cases h2 : ((o.keys.filter (fun k2 => !strStarts k2 "$")).length > 0)
      · rw [if_pos h2] at hl
        have hnnf : ∀ k ∈ o.keys.filter (fun k2 => !strStarts k2 "$"),
            ∀ v, o.get? k = some v → ¬(v = .null) := fun k _ => hnn k
        have hiff := hasNT_iff o (o.keys.filter (fun k2 => !strStarts k2 "$")) hnnf
        cases hnt : hasNT o (o.keys.filter (fun k2 => !strStarts k2 "$")) with
        | error e => rw [hnt, atgCombine] at hl; cases hl
        | ok b =>
            cases b with
            | true =>
                rw [hnt, atgCombine] at hl
                injection hl with hl
                subst hl
                constructor
                · intro _
                  exact ⟨hv, ht, (hiff.mp hnt)⟩
                · intro _
                  refine ⟨mkNestedIssue g t t (.obj o)
                    (o.keys.filter (fun k2 => !strStarts k2 "$")), List.mem_singleton.mpr rfl, ?_⟩
                  simp [mkNestedIssue]
            | false =>
                cases hds : atgFields g t o with
                | error e => rw [hnt, hds, atgCombine] at hl; cases hl
                | ok ds =>
                    rw [hnt, hds, atgCombine] at hl
                    injection hl with hl
                    subst hl
                    constructor
                    · rintro ⟨i, hi, hpath⟩
                      exfalso
                      have hlong := atgFields_path_len o g t (ds ++ []) hne
                        (by rw [hds]; simp) i hi
                      rw [hpath] at hlong
                      omega
                    · rintro ⟨_, _, hex⟩
                      exfalso
                      have := hiff.mpr hex
                      rw [hnt] at this
                      injection this with hb
                      cases hb
      · rw [if_neg h2] at hl
        injection hl with hl
        subst hl
        constructor
        · rintro ⟨i, hi, _⟩
          cases hi
        · rintro ⟨_, _, k, hkmem, _⟩
          have : (o.keys.filter (fun k2 => !strStarts k2 "$")).length > 0 := by
            cases hfl : (o.keys.filter (fun k2 => !strStarts k2 "$")) with
            | nil => rw [hfl] at hkmem; cases hkmem
            | cons x xs => simp
          exact absurd this h2
    · rw [if_neg h1] at hl
      injection hl with hl
      subst hl
      constructor
      · rintro ⟨i, hi, _⟩
        cases hi
      · rintro ⟨hv, ht, _⟩
        rw [hv, ht] at h1
        simp at h1
  · rfl

/-- Witness for C4 at the concrete cluster of the scenario: the analyzer
flags `{brand: {hover: {value: "#111"}}}` at `$.colors.brand`. -/
theorem c4_amended_witness :
    ∃ i ∈ [mkNestedIssue "colors" "brand" "brand"
        (jobj [("hover", jobj [("value", .str "#111")])]) ["hover"]],
      i.path = "$." ++ "colors" ++ "." ++ "brand" :=
  (c4_amended.1 "colors" "brand"
      (.cons "hover" (jobj [("value", .str "#111")]) .nil) _
      (by decide) (by decide)
      (by intro k v hkv
          cases hkv2 : (JObj.cons "hover" (jobj [("value", .str "#111")]) JObj.nil).get? k with
          | none => rw [hkv2] at hkv; cases hkv
          | some v2 =>
              rw [hkv2] at hkv
              injection hkv with he
              subst he
              revert hkv2
              rw [JObj.get?]
              by_cases hk : "hover" = k
              · rw [if_pos hk]
                intro he2
                injection he2 with he3
                subst he3
                decide
              · rw [if_neg hk, JObj.get?]
                intro he2
                cases he2)
      rfl).mpr ⟨by decide, by decide, "hover", by decide,
        JObj.cons "value" (.str "#111") JObj.nil, rfl, by decide⟩

/-! ### Claim C3 -/

/-- Left-cancellation of string concatenation. -/
theorem strApp_cancel (a b c : String) (h : a ++ b = a ++ c) : b = c := by
  have hd := congrArg String.data h
  simp only [String.data_append] at hd
  exact String.ext (List.append_cancel_left hd)

theorem JObj.get?_assign_self : ∀ (o : JObj) (k : String) (v : Json),
    (o.assign k v).get? k = some v
  | .nil, k, v => by simp [JObj.assign, JObj.get?]
  | .cons k1 v1 rest, k, v => by
      by_cases h : k1 = k
      · rw [JObj.assign, if_pos h, JObj.get?, if_pos h]
      · rw [JObj.assign, if_neg h, JObj.get?, if_neg h]
        exact JObj.get?_assign_self rest k v

/-- `flattenedToken` only ever adds a `$type` key, so every other key reads
the same before and after. -/
theorem flattenedToken_get? (c : JObj) (kk : String) (h : ¬(kk = "$type")) :
    (flattenedToken c).get? kk = c.get? kk := by
  rw [flattenedToken]
  by_cases h1 : (!truthyO (c.get? "$type") && c.hasKey "value") = true
  · rw [if_pos h1]
    show (if (inferTokenType ((c.get? "value").getD .null)).truthy = true then
        c.assign "$type" (inferTokenType ((c.get? "value").getD .null)) else c).get? kk
      = c.get? kk
    by_cases h2 : (inferTokenType ((c.get? "value").getD .null)).truthy = true
    · rw [if_pos h2]
      exact JObj.get?_assign_ne c "$type" kk _ (fun he => h he.symm)
    · rw [if_neg h2]
  · rw [if_neg h1]

/-- Flattening a node whose non-`$` children are all token-like objects or
primitives does not touch accumulator entries outside the hyphen-joined
child keys. -/
theorem gfe_preserve : ∀ (o : JObj) (acc : JObj) (pre x : String),
    gfeFlat o = true → ¬(pre = "") →
    (∀ k2, k2 ∈ o.keys → ¬(strStarts k2 "$" = true) → ¬(x = pre ++ "-" ++ k2)) →
    (gfeFields acc pre o).get? x = acc.get? x
  | .nil, acc, pre, x, _, _, _ => by rw [gfeFields]
  | .cons k v rest, acc, pre, x, hf, hp, hx => by
      rw [gfeFlat] at hf
      obtain ⟨h1, h2⟩ := Bool.and_eq_true_iff.mp hf
      have hxr : ∀ k2, k2 ∈ rest.keys → ¬(strStarts k2 "$" = true) →
          ¬(x = pre ++ "-" ++ k2) :=
        fun k2 hm => hx k2 (by rw [JObj.keys]; exact List.mem_cons_of_mem _ hm)
      have hxk : ¬(strStarts k "$" = true) → ¬(x = pre ++ "-" ++ k) :=
        hx k (by rw [JObj.keys]; exact List.mem_cons_self k _)
      cases v with
      | obj c =>
          rw [gfeFields]
          by_cases hk : strStarts k "$" = true
          · rw [if_pos hk, if_neg hp]
            exact gfe_preserve rest acc pre x h2 hp hxr
          · rw [if_neg hk]
            have hv : (c.hasKey "value" || c.hasKey "$type") = true := by
              rcases Bool.or_eq_true_iff.mp h1 with h | h
              · exact absurd h hk
              · rwa [gfeFlatV] at h
            rw [if_pos hv, if_neg hp]
            rw [gfe_preserve rest _ pre x h2 hp hxr]
            exact JObj.get?_assign_ne acc _ x _ (fun he => hxk hk he.symm)
      | arr a =>
          have hk : strStarts k "$" = true := by
            rcases Bool.or_eq_true_iff.mp h1 with h | h
            · exact h
            · rw [gfeFlatV] at h; cases h
          rw [gfeFields, if_pos hk, if_neg hp]
          exact gfe_preserve rest acc pre x h2 hp hxr
      | null =>
          rw [gfeFields]
          by_cases hk : strStarts k "$" = true
          · rw [if_pos hk, if_neg hp]
            exact gfe_preserve rest acc pre x h2 hp hxr
          · rw [if_neg hk]
            exact gfe_preserve rest acc pre x h2 hp hxr
      | bool b =>
          rw [gfeFields]
          by_cases hk : strStarts k "$" = true
          · rw [if_pos hk, if_neg hp]
            exact gfe_preserve rest acc pre x h2 hp hxr
          · rw [if_neg hk]
            exact gfe_preserve rest acc pre x h2 hp hxr
      | num q =>
          rw [gfeFields]
          by_cases hk : strStarts k "$" = true
          · rw [if_pos hk, if_neg hp]
            exact gfe_preserve rest acc pre x h2 hp hxr
          · rw [if_neg hk]
            exact gfe_preserve rest acc pre x h2 hp hxr
      | nan =>
          rw [gfeFields]
          by_cases hk : strStarts k "$" = true
          · rw [if_pos hk, if_neg hp]
            exact gfe_preserve rest acc pre x h2 hp hxr
          · rw [if_neg hk]
            exact gfe_preserve rest acc pre x h2 hp hxr
      | str s =>
          rw [gfeFields]
          by_cases hk : strStarts k "$" = true
          · rw [if_pos hk, if_neg hp]
            exact gfe_preserve rest acc pre x h2 hp hxr
          · rw [if_neg hk]
            exact gfe_preserve rest acc pre x h2 hp hxr

/-- Flattening such a node stores each token-like child, passed through
`flattenedToken`, under the hyphen-joined key. -/
theorem gfe_found : ∀ (o : JObj) (acc : JObj) (pre k : String) (c : JObj),
    gfeFlat o = true → ¬(pre = "") → o.keys.Nodup →
    ¬(strStarts k "$" = true) → o.get? k = some (.obj c) →
    (gfeFields acc pre o).get? (pre ++ "-" ++ k) = some (.obj (flattenedToken c))
  | .nil, acc, pre, k, c, _, _, _, _, hg => by simp [JObj.get?] at hg
  | .cons k1 v rest, acc, pre, k, c, hf, hp, hnd, hk, hg => by
      rw [gfeFlat] at hf
      obtain ⟨h1, h2⟩ := Bool.and_eq_true_iff.mp hf
      rw [JObj.keys] at hnd
      obtain ⟨hk1nm, hndr⟩ := List.nodup_cons.mp hnd
      rw [JObj.get?] at hg
      by_cases he : k1 = k
      · rw [if_pos he] at hg
        injection hg with hg
        subst hg
        subst he
        rw [gfeFields, if_neg hk]
        have hv : (c.hasKey "value" || c.hasKey "$type") = true := by
          rcases Bool.or_eq_true_iff.mp h1 with h | h
          · exact absurd h hk
          · rwa [gfeFlatV] at h
        rw [if_pos hv, if_neg hp]
        have hnc : ∀ k2, k2 ∈ rest.keys → ¬(strStarts k2 "$" = true) →
            ¬(pre ++ "-" ++ k1 = pre ++ "-" ++ k2) := by
          intro k2 hm _ hx
          have he2 : k1 = k2 := strApp_cancel (pre ++ "-") k1 k2 hx
          exact hk1nm (by rw [he2]; exact hm)
        rw [gfe_preserve rest _ pre (pre ++ "-" ++ k1) h2 hp hnc]
        exact JObj.get?_assign_self acc _ _
      · rw [if_neg he] at hg
        cases v with
        | obj c1 =>
            rw [gfeFields]
            by_cases hk1 : strStarts k1 "$" = true
            · rw [if_pos hk1, if_neg hp]
              exact gfe_found rest acc pre k c h2 hp hndr hk hg
            · rw [if_neg hk1]
              have hv : (c1.hasKey "value" || c1.hasKey "$type") = true := by
                rcases Bool.or_eq_true_iff.mp h1 with h | h
                · exact absurd h hk1
                · rwa [gfeFlatV] at h
              rw [if_pos hv]
              exact gfe_found rest _ pre k c h2 hp hndr hk hg
        | arr a =>
            have hk1 : strStarts k1 "$" = true := by
              rcases Bool.or_eq_true_iff.mp h1 with h | h
              · exact h
              · rw [gfeFlatV] at h; cases h
            rw [gfeFields, if_pos hk1, if_neg hp]
            exact gfe_found rest acc pre k c h2 hp hndr hk hg
        | null =>
            rw [gfeFields]
            by_cases hk1 : strStarts k1 "$" = true
            · rw [if_pos hk1, if_neg hp]
              exact gfe_found rest acc pre k c h2 hp hndr hk hg
            · rw [if_neg hk1]
              exact gfe_found rest acc pre k c h2 hp hndr hk hg
        | bool b =>
            rw [gfeFields]
            by_cases hk1 : strStarts k1 "$" = true
            · rw [if_pos hk1, if_neg hp]
              exact gfe_found rest acc pre k c h2 hp hndr hk hg
            · rw [if_neg hk1]
              exact gfe_found rest acc pre k c h2 hp hndr hk hg
        | num q =>
            rw [gfeFields]
            by_cases hk1 : strStarts k1 "$" = true
            · rw [if_pos hk1, if_neg hp]
              exact gfe_found rest acc pre k c h2 hp hndr hk hg
            · rw [if_neg hk1]
              exact gfe_found rest acc pre k c h2 hp hndr hk hg
        | nan =>
            rw [gfeFields]
            by_cases hk1 : strStarts k1 "$" = true
            · rw [if_pos hk1, if_neg hp]
              exact gfe_found rest acc pre k c h2 hp hndr hk hg
            · rw [if_neg hk1]
              exact gfe_found rest acc pre k c h2 hp hndr hk hg
        | str s =>
            rw [gfeFields]
            by_cases hk1 : strStarts k1 "$" = true
            · rw [if_pos hk1, if_neg hp]
              exact gfe_found rest acc pre k c h2 hp hndr hk hg
            · rw [if_neg hk1]
              exact gfe_found rest acc pre k c h2 hp hndr hk hg

/-- The document of the C3 counterexample: a group whose `focus` child
carries only `$value`. -/
def c3Doc : Json :=
  jobj [("colors", jobj [("brand",
    jobj [("hover", jobj [("value", .str "#111")]),
          ("focus", jobj [("$value", .str "#222")])])])]

/-- C3 counterexample: validate detects one `NESTED_TOKENS` issue whose
`originalStructure` contains the pair `$value: "#222"` somewhere, but whose
`flattenedStructure` does not contain it anywhere — the `focus` child has
only `$value` (no `value`, no `$type`), so `flattenRecursive` recurses
into it and then drops its `$`-keys because the running prefix is
non-empty. -/
theorem c3_counterexample :
    (validate c3Doc).map (fun r => (r.structureIssues.map (fun il => il.map (fun i =>
      (hasKVDeep "$value" (.str "#222") i.originalStructure,
       hasKVDeep "$value" (.str "#222") i.flattenedStructure))))) =
    .ok (some [(true, false)]) := rfl

/-- C3 (amended): value preservation holds for the direct token-like
children of the flattened node.  If every non-`$` child of the node is a
token-like object (carrying `value` or `$type`) or a primitive, the node's
keys are distinct, and the base name is non-empty, then for every non-`$`
child that is an object, each of its `value`/`$value` keys appears with an
unchanged value in the flattened structure, under the hyphen-joined key
`base-child`.  (Children carrying only `$value` are recursed into instead
and their `$value` leaves are lost, per the counterexample.) -/
theorem c3_amended (tokenPath g k kk : String) (o c : JObj) (v : Json)
    (hflat : gfeFlat o = true) (hbase : ¬(lastD (splitDot tokenPath) "" = ""))
    (hnd : o.keys.Nodup) (hk : ¬(strStarts k "$" = true))
    (hg : o.get? k = some (.obj c)) (hkk : kk = "value" ∨ kk = "$value")
    (hv : c.get? kk = some v) :
    ∃ fo, generateFlattenedExample g tokenPath (.obj o) = .obj fo ∧
      ∃ c2, fo.get? (lastD (splitDot tokenPath) "" ++ "-" ++ k) = some (.obj c2) ∧
        c2.get? kk = some v := by
  refine ⟨gfeFields .nil (lastD (splitDot tokenPath) "") o, rfl,
    flattenedToken c, ?_, ?_⟩
  · exact gfe_found o .nil _ k c hflat hbase hnd hk hg
  · rw [flattenedToken_get? c kk (by rcases hkk with rfl | rfl <;> decide)]
    exact hv

/-- Witness for C3 at a concrete token-like child carrying both `value`
and `$value`. -/
theorem c3_witness :
    ∃ fo, generateFlattenedExample "colors" "brand"
        (.obj (JObj.cons "hover"
          (.obj (JObj.cons "value" (.str "#111")
            (JObj.cons "$value" (.str "#333") JObj.nil))) JObj.nil)) = .obj fo ∧
      ∃ c2, fo.get? (lastD (splitDot "brand") "" ++ "-" ++ "hover") = some (.obj c2) ∧
        c2.get? "$value" = some (.str "#333") :=
  c3_amended "brand" "colors" "hover" "$value"
    (JObj.cons "hover" (.obj (JObj.cons "value" (.str "#111")
      (JObj.cons "$value" (.str "#333") JObj.nil))) JObj.nil)
    (JObj.cons "value" (.str "#111") (JObj.cons "$value" (.str "#333") JObj.nil))
    (.str "#333")
    (by decide) (by decide) (by decide) (by decide) rfl (Or.inr rfl) rfl

/-! ### Claim C5 -/

theorem JObj.append_nil : ∀ (o : JObj), o.append .nil = o
  | .nil => rfl
  | .cons k v rest => by rw [JObj.append, JObj.append_nil rest]

theorem JObj.append_assoc : ∀ (o r s : JObj), (o.append r).append s = o.append (r.append s)
  | .nil, _, _ => rfl
  | .cons k v rest, r, s => by
      rw [JObj.append, JObj.append, JObj.append, JObj.append_assoc rest r s]

theorem JObj.get?_append_left : ∀ (o r : JObj) (k : String) (v : Json),
    o.get? k = some v → (o.append r).get? k = some v
  | .nil, r, k, v, h => by rw [JObj.get?] at h; cases h
  | .cons k1 v1 rest, r, k, v, h => by
      rw [JObj.get?] at h
      rw [JObj.append, JObj.get?]
      by_cases he : k1 = k
      · rw [if_pos he] at h ⊢; exact h
      · rw [if_neg he] at h ⊢
        exact JObj.get?_append_left rest r k v h
  termination_by o => o

theorem JObj.get?_append_right : ∀ (o r : JObj) (k : String), o.hasKey k = false →
    (o.append r).get? k = r.get? k
  | .nil, r, k, _ => by rw [JObj.append]
  | .cons k1 v1 rest, r, k, h => by
      rw [JObj.hasKey, JObj.get?] at h
      rw [JObj.append, JObj.get?]
      by_cases he : k1 = k
      · rw [if_pos he] at h; simp at h
      · rw [if_neg he] at h ⊢
        exact JObj.get?_append_right rest r k (by rw [JObj.hasKey]; exact h)

theorem JObj.hasKey_append (o r : JObj) (k : String) :
    (o.append r).hasKey k = (o.hasKey k || r.hasKey k) := by
  cases hx : o.get? k with
  | some v =>
      rw [JObj.hasKey, JObj.get?_append_left o r k v hx, JObj.hasKey, hx]
      rfl
  | none =>
      have ho : o.hasKey k = false := by rw [JObj.hasKey, hx]; rfl
      rw [JObj.hasKey, JObj.get?_append_right o r k ho, ho, JObj.hasKey]
      rfl

theorem JObj.keys_append : ∀ (o r : JObj), (o.append r).keys = o.keys ++ r.keys
  | .nil, r => rfl
  | .cons k v rest, r => by
      rw [JObj.append, JObj.keys, JObj.keys, JObj.keys_append rest r]
      rfl

theorem JObj.keys_filterKeys : ∀ (o : JObj) (p : String → Bool),
    (o.filterKeys p).keys = o.keys.filter p
  | .nil, p => rfl
  | .cons k v rest, p => by
      rw [JObj.filterKeys, JObj.keys, List.filter]
      by_cases hp : p k = true
      · rw [if_pos hp, hp, JObj.keys, JObj.keys_filterKeys rest p]
      · rw [if_neg hp, JObj.keys_filterKeys rest p]
        cases hpk : p k
        · rfl
        · exact absurd hpk hp

theorem JObj.filterKeys_append : ∀ (o r : JObj) (p : String → Bool),
    (o.append r).filterKeys p = (o.filterKeys p).append (r.filterKeys p)
  | .nil, r, p => rfl
  | .cons k v rest, r, p => by
      rw [JObj.append, JObj.filterKeys, JObj.filterKeys]
      by_cases hp : p k = true
      · rw [if_pos hp, if_pos hp, JObj.append, JObj.filterKeys_append rest r p]
      · rw [if_neg hp, if_neg hp, JObj.filterKeys_append rest r p]

theorem JObj.filterKeys_self : ∀ (o : JObj) (p : String → Bool),
    (o.filterKeys p).filterKeys p = o.filterKeys p
  | .nil, p => rfl
  | .cons k v rest, p => by
      rw [JObj.filterKeys]
      by_cases hp : p k = true
      · rw [if_pos hp, JObj.filterKeys, if_pos hp, JObj.filterKeys_self rest p]
      · rw [if_neg hp, JObj.filterKeys_self rest p]

theorem JObj.assign_fresh : ∀ (o : JObj) (k : String) (v : Json), o.hasKey k = false →
    o.assign k v = o.append (.cons k v .nil)
  | .nil, k, v, _ => rfl
  | .cons k1 v1 rest, k, v, h => by
      rw [JObj.hasKey, JObj.get?] at h
      by_cases he : k1 = k
      · rw [if_pos he] at h; simp at h
      · rw [if_neg he] at h
        rw [JObj.assign, if_neg he, JObj.append,
          JObj.assign_fresh rest k v (by rw [JObj.hasKey]; exact h)]

theorem JObj.hasKey_iff_mem : ∀ (o : JObj) (k : String), o.hasKey k = true ↔ k ∈ o.keys
  | .nil, k => by rw [JObj.hasKey, JObj.get?, JObj.keys]; simp
  | .cons k1 v1 rest, k => by
      rw [JObj.hasKey, JObj.get?, JObj.keys]
      by_cases he : k1 = k
      · rw [if_pos he]
        subst he
        simp
      · rw [if_neg he]
        constructor
        · intro h
          exact List.mem_cons_of_mem _ ((JObj.hasKey_iff_mem rest k).mp h)
        · intro h
          rcases List.mem_cons.mp h with h | h
          · exact absurd h.symm he
          · exact (JObj.hasKey_iff_mem rest k).mpr h

theorem JObj.assignAll_fresh : ∀ (r o : JObj),
    (∀ k, r.hasKey k = true → o.hasKey k = false) → ndKeys r.keys = true →
    o.assignAll r = o.append r
  | .nil, o, _, _ => (JObj.append_nil o).symm
  | .cons k v rest, o, hfr, hnd => by
      rw [JObj.assignAll]
      have hok : o.hasKey k = false := hfr k (by rw [JObj.hasKey, JObj.get?, if_pos rfl]; rfl)
      rw [JObj.assign_fresh o k v hok]
      rw [JObj.keys, ndKeys] at hnd
      obtain ⟨hnc, hnd2⟩ := Bool.and_eq_true_iff.mp hnd
      have hfr2 : ∀ k2, rest.hasKey k2 = true →
          (o.append (.cons k v .nil)).hasKey k2 = false := by
        intro k2 h2
        have hk2o : o.hasKey k2 = false := by
          refine hfr k2 ?_
          rw [JObj.hasKey, JObj.get?]
          by_cases he : k = k2
          · rw [if_pos he]; rfl
          · rw [if_neg he]
            rw [JObj.hasKey] at h2
            exact h2
        have hne : ¬(k = k2) := by
          intro he
          subst he
          have : k ∈ rest.keys := (JObj.hasKey_iff_mem rest k).mp h2
          simp at hnc
          exact hnc this
        rw [JObj.hasKey_append, hk2o]
        rw [JObj.hasKey, JObj.get?, if_neg hne, JObj.get?]
        rfl
      rw [JObj.assignAll_fresh rest (o.append (.cons k v .nil)) hfr2 hnd2]
      rw [JObj.append_assoc]
      rfl

theorem ndKeys_filter : ∀ (l : List String) (p : String → Bool),
    ndKeys l = true → ndKeys (l.filter p) = true
  | [], _, _ => rfl
  | x :: xs, p, h => by
      rw [ndKeys] at h
      obtain ⟨hnc, h2⟩ := Bool.and_eq_true_iff.mp h
      rw [List.filter]
      cases hp : p x
      · exact ndKeys_filter xs p h2
      · rw [ndKeys, ndKeys_filter xs p h2]
        simp at hnc ⊢
        exact Or.inl hnc

theorem JObj.get?_size : ∀ (o : JObj) (k : String) (v : Json),
    o.get? k = some v → v.size + 1 ≤ o.size
  | .nil, k, v, h => by rw [JObj.get?] at h; cases h
  | .cons k1 v1 rest, k, v, h => by
      rw [JObj.get?] at h
      by_cases he : k1 = k
      · rw [if_pos he] at h
        injection h with h
        subst h
        rw [JObj.size]
        omega
      · rw [if_neg he] at h
        have := JObj.get?_size rest k v h
        rw [JObj.size]
        omega

theorem Json.size_pos : ∀ (j : Json), 1 ≤ j.size := by
  intro j
  cases j <;> rw [Json.size] <;> omega

/-- `convertToColorObject` returns an object or its input unchanged. -/
theorem cco_shape (s : String) :
    (∃ co, convertToColorObject s = .obj co) ∨ convertToColorObject s = .str s := by
  rw [convertToColorObject.eq_def]
  generalize (removeFirstHash s).toList = l
  match l with
  | [] => exact Or.inr rfl
  | [a] => exact Or.inr rfl
  | [a, b] => exact Or.inr rfl
  | [a, b, c] => exact Or.inl ⟨_, rfl⟩
  | [a, b, c, d] => exact Or.inl ⟨_, rfl⟩
  | [a, b, c, d, e] => exact Or.inr rfl
  | [a, b, c, d, e, f] => exact Or.inl ⟨_, rfl⟩
  | [a, b, c, d, e, f, g] => exact Or.inr rfl
  | [a, b, c, d, e, f, g, h8] => exact Or.inl ⟨_, rfl⟩
  | a :: b :: c :: d :: e :: f :: g :: h8 :: i :: rest => exact Or.inr rfl

/-- `parseDimension` returns an object or its input unchanged. -/
theorem pd_shape (s : String) :
    (∃ po, parseDimension s = .obj po) ∨ parseDimension s = .str s := by
  rw [parseDimension.eq_def]
  cases hm : scanDim [] s.toList with
  | none => exact Or.inr rfl
  | some p =>
      obtain ⟨run, u⟩ := p
      exact Or.inl ⟨_, rfl⟩

theorem pfOrNan_shape (s : String) :
    (∃ q, pfOrNan s = .num q) ∨ pfOrNan s = .nan := by
  rw [pfOrNan.eq_def]
  cases parseFloatJS s with
  | none => exact Or.inr rfl
  | some q => exact Or.inl ⟨q, rfl⟩

/-- The `$type` written by the token branch is always truthy. -/
theorem tokT1_truthy (rt val : Json) : (tokT1 rt val).truthy = true := by
  rw [tokT1]
  by_cases h : rt.truthy = true
  · rw [if_pos h]; exact h
  · rw [if_neg h]
    by_cases h2 : val.isNumTypeof = true
    · rw [if_pos h2]; decide
    · rw [if_neg h2]; decide

/-- The `$value` conversion is idempotent when re-run with the `$type` it
wrote: converted strings either became objects/numbers (left untouched) or
stayed the very same string failing the very same tests. -/
theorem tokConv_idem (rt val : Json) :
    tokConv (tokT1 rt val) (tokConv rt val) = tokConv rt val := by
  cases val with
  | null => simp only [tokConv]
  | bool b => simp only [tokConv]
  | num q => simp only [tokConv]
  | nan => simp only [tokConv]
  | arr a => simp only [tokConv]
  | obj o => simp only [tokConv]
  | str s =>
      by_cases hc : rt = .str "color"
      · subst hc
        have ht1 : tokT1 (.str "color") (.str s) = .str "color" := by
          rw [tokT1, if_pos (show (Json.str "color").truthy = true by decide)]
        rw [ht1]
        rw [show tokConv (.str "color") (.str s) = convertToColorObject s from by
          rw [tokConv, if_pos rfl]]
        rcases cco_shape s with ⟨co, hcc⟩ | hcc
        · rw [hcc, tokConv]
        · rw [hcc, tokConv, if_pos rfl, hcc]
      · by_cases hd : rt = .str "dimension"
        · subst hd
          have ht1 : tokT1 (.str "dimension") (.str s) = .str "dimension" := by
            rw [tokT1, if_pos (show (Json.str "dimension").truthy = true by decide)]
          rw [ht1]
          rw [show tokConv (.str "dimension") (.str s) = parseDimension s from by
            rw [tokConv, if_neg (by decide), if_pos rfl]]
          rcases pd_shape s with ⟨po, hpd⟩ | hpd
          · rw [hpd, tokConv]
          · rw [hpd, tokConv, if_neg (by decide), if_pos rfl, hpd]
        · by_cases hn : ((rt = .str "number" || rt = .str "opacity") &&
              looseNumericRegexJS s) = true
          · rw [show tokConv rt (.str s) = pfOrNan s from by
              rw [tokConv, if_neg hc, if_neg hd, if_pos hn]]
            rcases pfOrNan_shape s with ⟨q, hq⟩ | hq
            · rw [hq, tokConv]
            · rw [hq, tokConv]
          · rw [show tokConv rt (.str s) = .str s from by
              rw [tokConv, if_neg hc, if_neg hd, if_neg hn]]
            rw [tokT1]
            by_cases ht : rt.truthy = true
            · rw [if_pos ht]
              rw [tokConv, if_neg hc, if_neg hd, if_neg hn]
            · rw [if_neg ht]
              rw [show Json.isNumTypeof (.str s) = false from rfl]
              simp only [Bool.false_eq_true, if_false]
              rw [tokConv, if_neg (by decide), if_neg (by decide), if_neg (by
                rw [show ((Json.str "string" = Json.str "number" ||
                  Json.str "string" = Json.str "opacity")) = false from by decide,
                  Bool.false_and]
                simp)]

/-- The description part is empty or a single truthy `$description`. -/
theorem tokDesc_shape (node : Json) :
    tokDesc node = .nil ∨
      ∃ dv, tokDesc node = .cons "$description" dv .nil ∧ dv.truthy = true := by
  rw [tokDesc]
  by_cases h : (((node.get? "$description").getD .null).truthy ||
      ((node.get? "description").getD .null).truthy) = true
  · right
    rw [if_pos h]
    by_cases h1 : ((node.get? "$description").getD .null).truthy = true
    · rw [if_pos h1]
      exact ⟨_, rfl, h1⟩
    · rw [if_neg h1]
      rcases Bool.or_eq_true_iff.mp h with h2 | h2
      · exact absurd h2 h1
      · exact ⟨_, rfl, h2⟩
  · left
    rw [if_neg h]

/-- Stability of a token-branch output under a second `autoFix` pass, for
any components with the invariants the token branch guarantees: the `$type`
is truthy, the stored value is a fixed point of the conversion at that
type, the description is empty or a truthy `$description`, and the carried
`$`-properties all satisfy the rest filter with distinct keys. -/
theorem tok_out_stable (V T : Json) (D R : JObj) (pt2 : Json) (g : Nat)
    (hT1 : T.truthy = true)
    (hVT : tokConv T V = V)
    (hD : D = .nil ∨ ∃ dv, D = .cons "$description" dv .nil ∧ dv.truthy = true)
    (hRp : R.filterKeys tokRestPred = R)
    (hRk : ∀ k ∈ R.keys, tokRestPred k = true)
    (hRnd : ndKeys R.keys = true) :
    autoFixF (g + 1) (.obj ((JObj.cons "$value" V (JObj.cons "$type" T D)).assignAll R)) pt2 =
      .obj ((JObj.cons "$value" V (JObj.cons "$type" T D)).assignAll R) := by
  have hfresh : ∀ k, R.hasKey k = true →
      (JObj.cons "$value" V (JObj.cons "$type" T D)).hasKey k = false := by
    intro k hk
    have hmem : k ∈ R.keys := (JObj.hasKey_iff_mem R k).mp hk
    have hp := hRk k hmem
    rw [tokRestPred] at hp
    have hp1 := Bool.and_eq_true_iff.mp hp
    have hp2 := Bool.and_eq_true_iff.mp hp1.1
    have hp3 := Bool.and_eq_true_iff.mp hp2.1
    have hnv : ¬("$value" = k) := by
      intro he
      rw [← he] at hp3
      simp at hp3
    have hnt : ¬("$type" = k) := by
      intro he
      rw [← he] at hp2
      simp at hp2
    have hndc : ¬("$description" = k) := by
      intro he
      rw [← he] at hp1
      simp at hp1
    rw [JObj.hasKey, JObj.get?, if_neg hnv, JObj.get?, if_neg hnt]
    rcases hD with hDn | ⟨dv, hDc, _⟩
    · rw [hDn, JObj.get?]
      rfl
    · rw [hDc, JObj.get?, if_neg hndc, JObj.get?]
      rfl
  have hout : (JObj.cons "$value" V (JObj.cons "$type" T D)).assignAll R =
      (JObj.cons "$value" V (JObj.cons "$type" T D)).append R :=
    JObj.assignAll_fresh R _ hfresh hRnd
  rw [hout]
  have hkeys : ((JObj.cons "$value" V (JObj.cons "$type" T D)).append R).keys =
      "$value" :: "$type" :: (D.keys ++ R.keys) := by
    rw [JObj.keys_append, JObj.keys, JObj.keys]
    rfl
  have halld : ∀ k ∈ ((JObj.cons "$value" V (JObj.cons "$type" T D)).append R).keys,
      strStarts k "$" = true := by
    intro k hm
    rw [hkeys] at hm
    rcases List.mem_cons.mp hm with rfl | hm
    · decide
    · rcases List.mem_cons.mp hm with rfl | hm
      · decide
      · rcases List.mem_append.mp hm with hm | hm
        · rcases hD with hDn | ⟨dv, hDc, _⟩
          · rw [hDn, JObj.keys] at hm
            cases hm
          · rw [hDc, JObj.keys, JObj.keys] at hm
            rcases List.mem_cons.mp hm with rfl | hm
            · decide
            · cases hm
        · have hp := hRk k hm
          rw [tokRestPred] at hp
          exact (Bool.and_eq_true_iff.mp
            (Bool.and_eq_true_iff.mp (Bool.and_eq_true_iff.mp hp).1).1).1
  have hksnil : (((JObj.cons "$value" V (JObj.cons "$type" T D)).append R).keys).filter
      (fun k => !strStarts k "$") = [] := by
    rw [List.filter_eq_nil_iff]
    intro k hm
    rw [halld k hm]
    simp
  have hwrap : wrapHitB ((JObj.cons "$value" V (JObj.cons "$type" T D)).append R) = false := by
    rw [wrapHitB, hksnil]
    simp
  have hgv : ((JObj.cons "$value" V (JObj.cons "$type" T D)).append R).get? "$value" =
      some V := by
    refine JObj.get?_append_left _ R "$value" V ?_
    rw [JObj.get?, if_pos rfl]
  have hgt : ((JObj.cons "$value" V (JObj.cons "$type" T D)).append R).get? "$type" =
      some T := by
    refine JObj.get?_append_left _ R "$type" T ?_
    rw [JObj.get?, if_neg (by decide), JObj.get?, if_pos rfl]
  have hdv : ((JObj.cons "$value" V (JObj.cons "$type" T D)).append R).hasKey "$value" =
      true := by
    rw [JObj.hasKey, hgv]
    rfl
  rw [autoFixF, hwrap]
  simp only [Bool.false_and, Bool.false_eq_true, if_false]
  rw [hdv]
  simp only [Bool.or_true, if_true]
  rw [autoFixToken]
  have hval : tokVal (.obj ((JObj.cons "$value" V (JObj.cons "$type" T D)).append R)) = V := by
    rw [tokVal]
    simp only [Json.hasKey, Json.get?, hdv, if_true, hgv, Option.getD]
  have hrt : tokRT (.obj ((JObj.cons "$value" V (JObj.cons "$type" T D)).append R)) pt2 =
      T := by
    rw [tokRT]
    simp only [Json.hasKey, Json.get?, JObj.hasKey, hgt, Option.isSome, if_true, Option.getD]
  rw [hval, hrt, hVT]
  rw [show tokT1 T V = T from by rw [tokT1, if_pos hT1]]
  have hdesc : tokDesc (.obj ((JObj.cons "$value" V (JObj.cons "$type" T D)).append R)) =
      D := by
    have hgdd : ((JObj.cons "$value" V (JObj.cons "$type" T D)).append R).get?
        "description" = none := by
      have hb : (JObj.cons "$value" V (JObj.cons "$type" T D)).hasKey "description" =
          false := by
        rw [JObj.hasKey, JObj.get?, if_neg (by decide), JObj.get?, if_neg (by decide)]
        rcases hD with hDn | ⟨dv, hDc, _⟩
        · rw [hDn, JObj.get?]
          rfl
        · rw [hDc, JObj.get?, if_neg (by decide), JObj.get?]
          rfl
      rw [JObj.get?_append_right _ R "description" hb]
      cases hx : R.get? "description" with
      | none => rfl
      | some v =>
          have : R.hasKey "description" = true := by rw [JObj.hasKey, hx]; rfl
          have hm := (JObj.hasKey_iff_mem R "description").mp this
          have hp := hRk "description" hm
          rw [tokRestPred] at hp
          have := (Bool.and_eq_true_iff.mp
            (Bool.and_eq_true_iff.mp (Bool.and_eq_true_iff.mp hp).1).1).1
          simp [strStarts] at this
    rcases hD with hDn | ⟨dv, hDc, hdvt⟩
    · subst hDn
      have hgd : ((JObj.cons "$value" V (JObj.cons "$type" T JObj.nil)).append R).get?
          "$description" = none := by
        have hb : (JObj.cons "$value" V (JObj.cons "$type" T JObj.nil)).hasKey
            "$description" = false := by
          rw [JObj.hasKey, JObj.get?, if_neg (by decide), JObj.get?, if_neg (by decide),
            JObj.get?]
          rfl
        rw [JObj.get?_append_right _ R "$description" hb]
        cases hx : R.get? "$description" with
        | none => rfl
        | some v =>
            have : R.hasKey "$description" = true := by rw [JObj.hasKey, hx]; rfl
            have hm := (JObj.hasKey_iff_mem R "$description").mp this
            have hp := hRk "$description" hm
            rw [tokRestPred] at hp
            simp at hp
      rw [tokDesc]
      simp only [Json.get?, hgd, hgdd, Option.getD_none]
      simp [Json.truthy]
    · subst hDc
      have hgd : ((JObj.cons "$value" V (JObj.cons "$type" T
          (JObj.cons "$description" dv JObj.nil))).append R).get? "$description" =
          some dv := by
        refine JObj.get?_append_left _ R "$description" dv ?_
        rw [JObj.get?, if_neg (by decide), JObj.get?, if_neg (by decide),
          JObj.get?, if_pos rfl]
      rw [tokDesc]
      simp only [Json.get?, hgd, hgdd, Option.getD_some, hdvt, Bool.true_or, if_true]
  rw [hdesc]
  have hrest : tokRest (.obj ((JObj.cons "$value" V (JObj.cons "$type" T D)).append R)) =
      R := by
    rw [tokRest, JObj.filterKeys_append]
    have hbf : (JObj.cons "$value" V (JObj.cons "$type" T D)).filterKeys tokRestPred =
        .nil := by
      rw [JObj.filterKeys, if_neg (by decide), JObj.filterKeys, if_neg (by decide)]
      rcases hD with hDn | ⟨dv, hDc, _⟩
      · rw [hDn, JObj.filterKeys]
      · rw [hDc, JObj.filterKeys, if_neg (by decide), JObj.filterKeys]
    rw [hbf, hRp, JObj.append]
  rw [hrest, hout]

/-- A token-branch output is a fixed point of `autoFix` at any fuel and any
parent type, as long as the token node has duplicate-free keys. -/
theorem tok_stable (no : JObj) (pt pt2 : Json) (g : Nat)
    (hnd : ndKeys no.keys = true) :
    autoFixF (g + 1) (autoFixToken (.obj no) pt) pt2 = autoFixToken (.obj no) pt := by
  rw [autoFixToken]
  rw [show tokRest (.obj no) = no.filterKeys tokRestPred from by rw [tokRest]]
  exact tok_out_stable _ _ _ _ pt2 g (tokT1_truthy _ _) (tokConv_idem _ _)
    (tokDesc_shape _) (JObj.filterKeys_self no tokRestPred)
    (by
      intro k hm
      rw [JObj.keys_filterKeys] at hm
      exact List.of_mem_filter hm)
    (by
      rw [JObj.keys_filterKeys]
      exact ndKeys_filter no.keys tokRestPred hnd)

theorem afF_null (f : Nat) (pt : Json) : autoFixF f .null pt = .null := by
  cases f <;> rw [autoFixF]

/-- One step of the group-branch field walk, uniformly in the child. -/
theorem afFields_cons (f : Nat) (gt : Json) (k : String) (v : Json) (rest : JObj) :
    autoFixFieldsF (f + 1) gt (.cons k v rest) =
      if strStarts k "$" then .cons k v (autoFixFieldsF f gt rest)
      else .cons k (afChild f gt v) (autoFixFieldsF f gt rest) := by
  cases v <;> rw [autoFixFieldsF, afChild]

theorem afChild_tok (g : Nat) (gt pt0 : Json) (no : JObj) :
    afChild g gt (autoFixToken (.obj no) pt0) =
      autoFixF g (autoFixToken (.obj no) pt0) gt := by
  rw [autoFixToken, afChild]

/-- The group-branch walk never changes the key list (given enough fuel). -/
theorem afFields_keys : ∀ (o : JObj) (f : Nat) (gt : Json), JObj.size o ≤ f →
    (autoFixFieldsF f gt o).keys = o.keys
  | .nil, 0, _, _ => rfl
  | .nil, _ + 1, _, _ => rfl
  | .cons _ v rest, 0, _, hs => by
      rw [JObj.size] at hs
      have := Json.size_pos v
      omega
  | .cons k v rest, f + 1, gt, hs => by
      rw [JObj.size] at hs
      have hrs : JObj.size rest ≤ f := by
        have := Json.size_pos v
        omega
      rw [afFields_cons, apply_ite JObj.keys]
      simp only [JObj.keys]
      rw [afFields_keys rest f gt hrs]
      split <;> rfl

/-- The group-branch walk copies `$`-properties verbatim. -/
theorem afFields_get_dollar : ∀ (o : JObj) (f : Nat) (gt : Json) (k : String),
    JObj.size o ≤ f → strStarts k "$" = true →
    (autoFixFieldsF f gt o).get? k = o.get? k
  | .nil, 0, _, _, _, _ => rfl
  | .nil, _ + 1, _, _, _, _ => rfl
  | .cons _ v rest, 0, _, _, hs, _ => by
      rw [JObj.size] at hs
      have := Json.size_pos v
      omega
  | .cons k1 v rest, f + 1, gt, k, hs, hkd => by
      rw [JObj.size] at hs
      have hrs : JObj.size rest ≤ f := by
        have := Json.size_pos v
        omega
      rw [afFields_cons]
      by_cases hk1 : strStarts k1 "$" = true
      · rw [if_pos hk1, JObj.get?, JObj.get?]
        by_cases he : k1 = k
        · rw [if_pos he, if_pos he]
        · rw [if_neg he, if_neg he]
          exact afFields_get_dollar rest f gt k hrs hkd
      · rw [if_neg hk1, JObj.get?, JObj.get?]
        have he : ¬(k1 = k) := by
          intro h
          rw [h, hkd] at hk1
          exact hk1 rfl
        rw [if_neg he, if_neg he]
        exact afFields_get_dollar rest f gt k hrs hkd

/-- A `null` stored under a non-`$` key stays `null` through the walk. -/
theorem afFields_get_null : ∀ (o : JObj) (f : Nat) (gt : Json) (k : String),
    JObj.size o ≤ f → strStarts k "$" = false → o.get? k = some .null →
    (autoFixFieldsF f gt o).get? k = some .null
  | .nil, _, _, k, _, _, hgk => by rw [JObj.get?] at hgk; cases hgk
  | .cons _ v rest, 0, _, _, hs, _, _ => by
      rw [JObj.size] at hs
      have := Json.size_pos v
      omega
  | .cons k1 v rest, f + 1, gt, k, hs, hkd, hgk => by
      rw [JObj.size] at hs
      have hrs : JObj.size rest ≤ f := by
        have := Json.size_pos v
        omega
      rw [JObj.get?] at hgk
      rw [afFields_cons]
      by_cases he : k1 = k
      · rw [if_pos he] at hgk
        injection hgk with hgk
        subst hgk
        subst he
        have hknot : ¬(strStarts k1 "$" = true) := by
          rw [hkd]
          simp
        rw [if_neg hknot, JObj.get?, if_pos rfl, afChild, afF_null]
      · rw [if_neg he] at hgk
        by_cases hk1 : strStarts k1 "$" = true
        · rw [if_pos hk1, JObj.get?, if_neg he]
          exact afFields_get_null rest f gt k hrs hkd hgk
        · rw [if_neg hk1, JObj.get?, if_neg he]
          exact afFields_get_null rest f gt k hrs hkd hgk

theorem NoBWObj_get? : ∀ (o : JObj) (k : String) (v : Json), NoBWObj o = true →
    o.get? k = some v → strStarts k "$" = false → NoBW v = true
  | .nil, k, v, _, hgk, _ => by rw [JObj.get?] at hgk; cases hgk
  | .cons k1 v1 rest, k, v, h, hgk, hkd => by
      rw [NoBWObj] at h
      obtain ⟨h1, h2⟩ := Bool.and_eq_true_iff.mp h
      rw [JObj.get?] at hgk
      by_cases he : k1 = k
      · rw [if_pos he] at hgk
        injection hgk with hgk
        subst hgk
        subst he
        rcases Bool.or_eq_true_iff.mp h1 with h1 | h1
        · rw [hkd] at h1
          cases h1
        · exact h1
      · rw [if_neg he] at hgk
        exact NoBWObj_get? rest k v h2 hgk hkd

theorem NDeepObj_get? : ∀ (o : JObj) (k : String) (v : Json), NDeepObj o = true →
    o.get? k = some v → NDeep v = true
  | .nil, k, v, _, hgk => by rw [JObj.get?] at hgk; cases hgk
  | .cons k1 v1 rest, k, v, h, hgk => by
      rw [NDeepObj] at h
      obtain ⟨h1, h2⟩ := Bool.and_eq_true_iff.mp h
      rw [JObj.get?] at hgk
      by_cases he : k1 = k
      · rw [if_pos he] at hgk
        injection hgk with hgk
        subst hgk
        exact h1
      · rw [if_neg he] at hgk
        exact NDeepObj_get? rest k v h2 hgk

theorem JObj.hasKey_congr (o1 o2 : JObj) (h : o1.keys = o2.keys) (k : String) :
    o1.hasKey k = o2.hasKey k := by
  cases h2 : o2.hasKey k
  · cases h1 : o1.hasKey k
    · rfl
    · have hm := (JObj.hasKey_iff_mem o1 k).mp h1
      rw [h] at hm
      rw [(JObj.hasKey_iff_mem o2 k).mpr hm] at h2
      cases h2
  · have hm := (JObj.hasKey_iff_mem o2 k).mp h2
    rw [← h] at hm
    exact (JObj.hasKey_iff_mem o1 k).mpr hm

theorem wrapHitB_congr (o1 o2 : JObj) (h : o1.keys = o2.keys) :
    wrapHitB o1 = wrapHitB o2 := by
  rw [wrapHitB, wrapHitB, h, JObj.hasKey_congr o1 o2 h "value",
    JObj.hasKey_congr o1 o2 h "$value"]

/-- The single non-`$` key inspected by the wrapper test, and its child. -/
theorem wrap_key (o : JObj) (hw : wrapHitB o = true) :
    ∃ k0, (o.keys.filter (fun k => !strStarts k "$")) = [k0] ∧
      strStarts k0 "$" = false ∧ ∃ cv, o.get? k0 = some cv ∧ wrapChild o = cv := by
  rw [wrapHitB] at hw
  have hlen := (Bool.and_eq_true_iff.mp
    (Bool.and_eq_true_iff.mp (Bool.and_eq_true_iff.mp hw).1).1).1
  have hlen2 : (o.keys.filter (fun k => !strStarts k "$")).length = 1 := by
    simpa using hlen
  obtain ⟨k0, hk0⟩ := List.length_eq_one.mp hlen2
  refine ⟨k0, hk0, ?_, ?_⟩
  · have hm : k0 ∈ o.keys.filter (fun k => !strStarts k "$") := by
      rw [hk0]
      exact List.mem_singleton.mpr rfl
    have := List.of_mem_filter hm
    simpa using this
  · have hm : k0 ∈ o.keys.filter (fun k => !strStarts k "$") := by
      rw [hk0]
      exact List.mem_singleton.mpr rfl
    have hmk : k0 ∈ o.keys := List.mem_of_mem_filter hm
    have hsome := (JObj.hasKey_iff_mem o k0).mpr hmk
    rw [JObj.hasKey] at hsome
    cases hx : o.get? k0 with
    | none => rw [hx] at hsome; cases hsome
    | some cv =>
        refine ⟨cv, rfl, ?_⟩
        rw [wrapChild, hk0]
        rw [show ([k0].headD "") = k0 from rfl, hx]
        rfl

/-- On a `typeof 'object'` input (null, array or object), `autoFix` returns
`null`, an array or an object — never another primitive. -/
theorem afF_objarr_shape : ∀ (f : Nat) (j : Json) (pt : Json), j.isObjTypeof = true →
    autoFixF f j pt = .null ∨ (∃ a2, autoFixF f j pt = .arr a2) ∨
      (∃ o2, autoFixF f j pt = .obj o2)
  | 0, _, _, _ => by
      rw [autoFixF]
      exact Or.inl rfl
  | f + 1, .null, pt, _ => by
      rw [autoFixF]
      exact Or.inl rfl
  | f + 1, .arr a, pt, _ => by
      rw [autoFixF]
      exact Or.inr (Or.inl ⟨_, rfl⟩)
  | f + 1, .obj o, pt, _ => by
      rw [autoFixF]
      by_cases hA : (wrapHitB o && ((wrapChild o).isStrTypeof || (wrapChild o).isNumTypeof)) =
          true
      · rw [if_pos hA, autoFixToken]
        exact Or.inr (Or.inr ⟨_, rfl⟩)
      · rw [if_neg hA]
        by_cases hB : (wrapHitB o && ((wrapChild o).isObjTypeof && !(wrapChild o = .null))) =
            true
        · rw [if_pos hB]
          have hobj : (wrapChild o).isObjTypeof = true :=
            (Bool.and_eq_true_iff.mp (Bool.and_eq_true_iff.mp hB).2).1
          exact afF_objarr_shape f (wrapChild o) pt hobj
        · rw [if_neg hB]
          by_cases hC : (o.hasKey "value" || o.hasKey "$value") = true
          · rw [if_pos hC, autoFixToken]
            exact Or.inr (Or.inr ⟨_, rfl⟩)
          · rw [if_neg hC]
            exact Or.inr (Or.inr ⟨_, rfl⟩)
  | f + 1, .bool b, _, hto => by simp [Json.isObjTypeof] at hto
  | f + 1, .num q, _, hto => by simp [Json.isObjTypeof] at hto
  | f + 1, .nan, _, hto => by simp [Json.isObjTypeof] at hto
  | f + 1, .str s, _, hto => by simp [Json.isObjTypeof] at hto

/-- Idempotence of the fueled `autoFix` on values free of boolean-child
wrapper nodes (`NoBW`) with duplicate-free keys everywhere (`NDeep`):
a second pass at any sufficient fuel returns the first pass's output
unchanged, together with the matching statements for the group-field walk
and the array walk. -/
theorem afIdem : ∀ (f : Nat),
    (∀ (node pt : Json), NoBW node = true → NDeep node = true → node.size ≤ f →
      ∀ g : Nat, (autoFixF f node pt).size ≤ g →
        autoFixF g (autoFixF f node pt) pt = autoFixF f node pt) ∧
    (∀ (o : JObj) (gt : Json), NoBWObj o = true → NDeepObj o = true → JObj.size o ≤ f →
      ∀ g : Nat, JObj.size (autoFixFieldsF f gt o) ≤ g →
        autoFixFieldsF g gt (autoFixFieldsF f gt o) = autoFixFieldsF f gt o) ∧
    (∀ (a : JArr) (pt : Json), NoBWArr a = true → NDeepArr a = true → JArr.size a ≤ f →
      ∀ g : Nat, JArr.size (autoFixArrF f pt a) ≤ g →
        autoFixArrF g pt (autoFixArrF f pt a) = autoFixArrF f pt a)
  | 0 => by
      refine ⟨?_, ?_, ?_⟩
      · intro node pt _ _ hs g _
        have := Json.size_pos node
        omega
      · intro o gt _ _ hs g _
        cases o with
        | nil =>
            rw [show autoFixFieldsF 0 gt JObj.nil = .nil from rfl]
            cases g with
            | zero => rfl
            | succ g2 => rfl
        | cons k v rest =>
            rw [JObj.size] at hs
            omega
      · intro a pt _ _ hs g _
        cases a with
        | nil =>
            rw [show autoFixArrF 0 pt JArr.nil = .nil from rfl]
            cases g with
            | zero => rfl
            | succ g2 => rfl
        | cons v rest =>
            rw [JArr.size] at hs
            omega
  | f + 1 => by
      obtain ⟨ihJ, ihO, ihA⟩ := afIdem f
      refine ⟨?_, ?_, ?_⟩
      · intro node pt hbw hnd hs g hg
        cases node with
        | null => simp only [afF_null]
        | bool b =>
            rw [show autoFixF (f + 1) (.bool b) pt = .bool b from by rw [autoFixF]] at hg ⊢
            rw [Json.size] at hg
            cases g with
            | zero => omega
            | succ g2 => rw [autoFixF]
        | num q =>
            rw [show autoFixF (f + 1) (.num q) pt = .num q from by rw [autoFixF]] at hg ⊢
            rw [Json.size] at hg
            cases g with
            | zero => omega
            | succ g2 => rw [autoFixF]
        | nan =>
            rw [show autoFixF (f + 1) .nan pt = .nan from by rw [autoFixF]] at hg ⊢
            rw [Json.size] at hg
            cases g with
            | zero => omega
            | succ g2 => rw [autoFixF]
        | str s =>
            rw [show autoFixF (f + 1) (.str s) pt = .str s from by rw [autoFixF]] at hg ⊢
            rw [Json.size] at hg
            cases g with
            | zero => omega
            | succ g2 => rw [autoFixF]
        | arr a =>
            rw [show autoFixF (f + 1) (.arr a) pt = .arr (autoFixArrF f pt a) from by
              rw [autoFixF]] at hg ⊢
            rw [NoBW] at hbw
            rw [NDeep] at hnd
            rw [Json.size] at hs hg
            cases g with
            | zero => omega
            | succ g2 =>
                rw [autoFixF]
                rw [ihA a pt hbw hnd (by omega) g2 (by omega)]
        | obj o =>
            rw [NoBW] at hbw
            obtain ⟨hbw1, hbw2⟩ := Bool.and_eq_true_iff.mp hbw
            rw [NDeep] at hnd
            obtain ⟨hnd1, hnd2⟩ := Bool.and_eq_true_iff.mp hnd
            rw [Json.size] at hs
            rw [autoFixF] at hg ⊢
            by_cases hA : (wrapHitB o &&
                ((wrapChild o).isStrTypeof || (wrapChild o).isNumTypeof)) = true
            · rw [if_pos hA] at hg ⊢
              cases g with
              | zero =>
                  have := Json.size_pos
                    (autoFixToken (.obj (.cons "value" (wrapChild o) .nil)) pt)
                  omega
              | succ g2 =>
                  exact tok_stable (.cons "value" (wrapChild o) .nil) pt pt g2 (by rfl)
            · rw [if_neg hA] at hg ⊢
              by_cases hB : (wrapHitB o &&
                  ((wrapChild o).isObjTypeof && !(wrapChild o = .null))) = true
              · rw [if_pos hB] at hg ⊢
                have hw := (Bool.and_eq_true_iff.mp hB).1
                obtain ⟨k0, hks, hk0d, cv, hgk0, hwc⟩ := wrap_key o hw
                rw [hwc] at hg ⊢
                have hnbc : NoBW cv = true := NoBWObj_get? o k0 cv hbw2 hgk0 hk0d
                have hndc : NDeep cv = true := NDeepObj_get? o k0 cv hnd2 hgk0
                have hszc : cv.size ≤ f := by
                  have := JObj.get?_size o k0 cv hgk0
                  omega
                exact ihJ cv pt hnbc hndc hszc g hg
              · rw [if_neg hB] at hg ⊢
                by_cases hC : (o.hasKey "value" || o.hasKey "$value") = true
                · rw [if_pos hC] at hg ⊢
                  cases g with
                  | zero =>
                      have := Json.size_pos (autoFixToken (.obj o) pt)
                      omega
                  | succ g2 => exact tok_stable o pt pt g2 hnd1
                · rw [if_neg hC] at hg ⊢
                  have hOk : JObj.size o ≤ f := by omega
                  have hkeq : (autoFixFieldsF f (groupGT o pt) o).keys = o.keys :=
                    afFields_keys o f _ hOk
                  cases g with
                  | zero =>
                      rw [Json.size] at hg
                      omega
                  | succ g2 =>
                      rw [Json.size] at hg
                      rw [autoFixF]
                      have hCf : (o.hasKey "value" || o.hasKey "$value") = false := by
                        cases hx : (o.hasKey "value" || o.hasKey "$value")
                        · rfl
                        · exact absurd hx hC
                      have hAB : (wrapHitB (autoFixFieldsF f (groupGT o pt) o) &&
                            ((wrapChild (autoFixFieldsF f (groupGT o pt) o)).isStrTypeof ||
                             (wrapChild (autoFixFieldsF f (groupGT o pt) o)).isNumTypeof)) =
                            false ∧
                          (wrapHitB (autoFixFieldsF f (groupGT o pt) o) &&
                            ((wrapChild (autoFixFieldsF f (groupGT o pt) o)).isObjTypeof &&
                             !(wrapChild (autoFixFieldsF f (groupGT o pt) o) = .null))) =
                            false := by
                        by_cases hwt : wrapHitB o = true
                        · obtain ⟨k0, hks, hk0d, cv, hgk0, hwc⟩ := wrap_key o hwt
                          have hcvn : cv = .null := by
                            cases cv with
                            | null => rfl
                            | bool b =>
                                exfalso
                                have hbwt : badWrap o = true := by
                                  rw [badWrap, hwt, hwc]
                                  rfl
                                have hff := hbw1
                                rw [hbwt] at hff
                                simp at hff
                            | str s =>
                                exact absurd (show (wrapHitB o &&
                                  ((wrapChild o).isStrTypeof ||
                                   (wrapChild o).isNumTypeof)) = true by
                                    rw [hwt, hwc]
                                    rfl) hA
                            | num q =>
                                exact absurd (show (wrapHitB o &&
                                  ((wrapChild o).isStrTypeof ||
                                   (wrapChild o).isNumTypeof)) = true by
                                    rw [hwt, hwc]
                                    rfl) hA
                            | nan =>
                                exact absurd (show (wrapHitB o &&
                                  ((wrapChild o).isStrTypeof ||
                                   (wrapChild o).isNumTypeof)) = true by
                                    rw [hwt, hwc]
                                    rfl) hA
                            | arr a2 =>
                                refine absurd ?_ hB
                                rw [hwt, hwc]
                                simp [Json.isObjTypeof]
                            | obj o2 =>
                                refine absurd ?_ hB
                                rw [hwt, hwc]
                                simp [Json.isObjTypeof]
                          subst hcvn
                          have hwcO : wrapChild (autoFixFieldsF f (groupGT o pt) o) =
                              .null := by
                            rw [wrapChild, hkeq, hks]
                            rw [show (([k0].headD "") : String) = k0 from rfl]
                            rw [afFields_get_null o f (groupGT o pt) k0 hOk hk0d hgk0]
                            rfl
                          constructor
                          · rw [hwcO]
                            simp [Json.isStrTypeof, Json.isNumTypeof]
                          · rw [hwcO]
                            simp [Json.isObjTypeof]
                        · have hwf : wrapHitB o = false := by
                            cases hx : wrapHitB o
                            · rfl
                            · exact absurd hx hwt
                          rw [wrapHitB_congr _ _ hkeq, hwf]
                          constructor <;> rfl
                      obtain ⟨hA2, hB2⟩ := hAB
                      rw [hA2]
                      simp only [Bool.false_eq_true, if_false]
                      rw [hB2]
                      simp only [Bool.false_eq_true, if_false]
                      rw [JObj.hasKey_congr _ _ hkeq "value",
                        JObj.hasKey_congr _ _ hkeq "$value", hCf]
                      simp only [Bool.false_eq_true, if_false]
                      have hgteq : groupGT (autoFixFieldsF f (groupGT o pt) o) pt =
                          groupGT o pt := by
                        conv_lhs => rw [groupGT]
                        rw [afFields_get_dollar o f (groupGT o pt) "$type" hOk (by rfl)]
                        rw [groupGT]
                      rw [hgteq]
                      rw [ihO o (groupGT o pt) hbw2 hnd2 hOk g2 (by omega)]
      · intro o gt hbw hnd hs g hg
        cases o with
        | nil =>
            rw [show autoFixFieldsF (f + 1) gt JObj.nil = .nil from by
              rw [autoFixFieldsF]] at hg ⊢
            cases g with
            | zero => rfl
            | succ g2 => rfl
        | cons k v rest =>
            rw [JObj.size] at hs
            have hvs : v.size ≤ f := by omega
            have hrs : JObj.size rest ≤ f := by
              have := Json.size_pos v
              omega
            rw [NoBWObj] at hbw
            obtain ⟨hbw1, hbw2⟩ := Bool.and_eq_true_iff.mp hbw
            rw [NDeepObj] at hnd
            obtain ⟨hnd1, hnd2⟩ := Bool.and_eq_true_iff.mp hnd
            rw [afFields_cons] at hg ⊢
            by_cases hk : strStarts k "$" = true
            · rw [if_pos hk] at hg ⊢
              rw [JObj.size] at hg
              cases g with
              | zero => omega
              | succ g2 =>
                  rw [afFields_cons, if_pos hk]
                  rw [ihO rest gt hbw2 hnd2 hrs g2 (by omega)]
            · rw [if_neg hk] at hg ⊢
              rw [JObj.size] at hg
              have hnbv : NoBW v = true := by
                rcases Bool.or_eq_true_iff.mp hbw1 with h | h
                · exact absurd h hk
                · exact h
              cases g with
              | zero => omega
              | succ g2 =>
                  rw [afFields_cons, if_neg hk]
                  rw [ihO rest gt hbw2 hnd2 hrs g2 (by omega)]
                  have hhead : afChild g2 gt (afChild f gt v) = afChild f gt v := by
                    cases v with
                    | null => simp only [afChild, afF_null]
                    | bool b =>
                        rw [show afChild f gt (.bool b) =
                          autoFixToken (.obj (.cons "value" (.bool b) .nil)) gt from by
                            rw [afChild]] at hg ⊢
                        rw [afChild_tok]
                        cases g2 with
                        | zero =>
                            have := Json.size_pos
                              (autoFixToken (.obj (.cons "value" (.bool b) .nil)) gt)
                            omega
                        | succ g3 => exact tok_stable _ gt gt g3 (by rfl)
                    | str s =>
                        rw [show afChild f gt (.str s) =
                          autoFixToken (.obj (.cons "value" (.str s) .nil)) gt from by
                            rw [afChild]] at hg ⊢
                        rw [afChild_tok]
                        cases g2 with
                        | zero =>
                            have := Json.size_pos
                              (autoFixToken (.obj (.cons "value" (.str s) .nil)) gt)
                            omega
                        | succ g3 => exact tok_stable _ gt gt g3 (by rfl)
                    | num q =>
                        rw [show afChild f gt (.num q) =
                          autoFixToken (.obj (.cons "value" (.num q) .nil)) gt from by
                            rw [afChild]] at hg ⊢
                        rw [afChild_tok]
                        cases g2 with
                        | zero =>
                            have := Json.size_pos
                              (autoFixToken (.obj (.cons "value" (.num q) .nil)) gt)
                            omega
                        | succ g3 => exact tok_stable _ gt gt g3 (by rfl)
                    | nan =>
                        rw [show afChild f gt .nan =
                          autoFixToken (.obj (.cons "value" .nan .nil)) gt from by
                            rw [afChild]] at hg ⊢
                        rw [afChild_tok]
                        cases g2 with
                        | zero =>
                            have := Json.size_pos
                              (autoFixToken (.obj (.cons "value" .nan .nil)) gt)
                            omega
                        | succ g3 => exact tok_stable _ gt gt g3 (by rfl)
                    | arr a =>
                        rw [show afChild f gt (.arr a) = autoFixF f (.arr a) gt from by
                          rw [afChild]] at hg ⊢
                        rcases afF_objarr_shape f (.arr a) gt (by rw [Json.isObjTypeof])
                          with hsh | ⟨a2, hsh⟩ | ⟨o2, hsh⟩
                        · rw [hsh, show afChild g2 gt Json.null =
                            autoFixF g2 Json.null gt from by rw [afChild], ← hsh]
                          exact ihJ (.arr a) gt hnbv hnd1 hvs g2 (by omega)
                        · rw [hsh, show afChild g2 gt (.arr a2) =
                            autoFixF g2 (.arr a2) gt from by rw [afChild], ← hsh]
                          exact ihJ (.arr a) gt hnbv hnd1 hvs g2 (by omega)
                        · rw [hsh, show afChild g2 gt (.obj o2) =
                            autoFixF g2 (.obj o2) gt from by rw [afChild], ← hsh]
                          exact ihJ (.arr a) gt hnbv hnd1 hvs g2 (by omega)
                    | obj oo =>
                        rw [show afChild f gt (.obj oo) = autoFixF f (.obj oo) gt from by
                          rw [afChild]] at hg ⊢
                        rcases afF_objarr_shape f (.obj oo) gt (by rw [Json.isObjTypeof])
                          with hsh | ⟨a2, hsh⟩ | ⟨o2, hsh⟩
                        · rw [hsh, show afChild g2 gt Json.null =
                            autoFixF g2 Json.null gt from by rw [afChild], ← hsh]
                          exact ihJ (.obj oo) gt hnbv hnd1 hvs g2 (by omega)
                        · rw [hsh, show afChild g2 gt (.arr a2) =
                            autoFixF g2 (.arr a2) gt from by rw [afChild], ← hsh]
                          exact ihJ (.obj oo) gt hnbv hnd1 hvs g2 (by omega)
                        · rw [hsh, show afChild g2 gt (.obj o2) =
                            autoFixF g2 (.obj o2) gt from by rw [afChild], ← hsh]
                          exact ihJ (.obj oo) gt hnbv hnd1 hvs g2 (by omega)
                  rw [hhead]
      · intro a pt hbw hnd hs g hg
        cases a with
        | nil =>
            rw [show autoFixArrF (f + 1) pt JArr.nil = .nil from by
              rw [autoFixArrF]] at hg ⊢
            cases g with
            | zero => rfl
            | succ g2 => rfl
        | cons v rest =>
            rw [JArr.size] at hs
            have hvs : v.size ≤ f := by omega
            have hrs : JArr.size rest ≤ f := by
              have := Json.size_pos v
              omega
            rw [NoBWArr] at hbw
            obtain ⟨hbw1, hbw2⟩ := Bool.and_eq_true_iff.mp hbw
            rw [NDeepArr] at hnd
            obtain ⟨hnd1, hnd2⟩ := Bool.and_eq_true_iff.mp hnd
            rw [autoFixArrF] at hg ⊢
            rw [JArr.size] at hg
            cases g with
            | zero => omega
            | succ g2 =>
                rw [autoFixArrF]
                rw [ihA rest pt hbw2 hnd2 hrs g2 (by omega)]
                rw [ihJ v pt hbw1 hnd1 hvs g2 (by omega)]

/-- The conformant document breaking idempotence: a wrapper node whose
single `DEFAULT` child is a boolean. -/
def c5Doc : Json := jobj [("brand", jobj [("x", jobj [("DEFAULT", .bool true)])])]

/-- C5 counterexample: `c5Doc` is conformant (`validate` reports `valid`
with zero errors) yet `autoFix (autoFix c5Doc)` differs from
`autoFix c5Doc`: the boolean child fails the wrapper's
string/number/object test, so the first pass keeps the `DEFAULT` level and
wraps the boolean as a token, and the second pass then flattens that
wrapper. -/
theorem c5_counterexample :
    (validate c5Doc).map (fun r => (r.valid, r.errors.length)) = .ok (true, 0) ∧
      ¬(autoFix (autoFix c5Doc) = autoFix c5Doc) :=
  ⟨rfl, by decide⟩

/-- A conformant document on which idempotence does hold. -/
def c5ConfDoc : Json :=
  jobj [("colors", jobj [("primary",
    jobj [("$value", .str "#112233"), ("$type", .str "color")])])]

/-- C5 (amended): `autoFix` is idempotent on every conformant document
that moreover contains no node whose single non-`$` key is one of
`DEFAULT`/`default`/`base`/`value` holding a boolean child (the one shape
whose first pass produces a flattenable wrapper, per the counterexample)
and whose objects all have duplicate-free keys (true of every value a
JavaScript `JSON.parse` can produce). -/
theorem c5_amended (D : Json)
    (hconf : (validate D).map (fun r => r.errors.length) = .ok 0)
    (hnb : NoBW D = true) (hnd : NDeep D = true) :
    autoFix (autoFix D) = autoFix D := by
  show autoFixF (autoFixF D.size D .null).size (autoFixF D.size D .null) .null =
    autoFixF D.size D .null
  exact (afIdem D.size).1 D .null hnb hnd (le_refl _) _ (le_refl _)

/-- Witness for C5 at a concrete conformant color-token document. -/
theorem c5_witness :
    (validate c5ConfDoc).map (fun r => r.errors.length) = .ok 0 ∧
      NoBW c5ConfDoc = true ∧ NDeep c5ConfDoc = true ∧
      autoFix (autoFix c5ConfDoc) = autoFix c5ConfDoc :=
  ⟨rfl, rfl, rfl, c5_amended c5ConfDoc rfl rfl rfl⟩

end DTCG
